import Mathlib

/-!
# dchart2: data-to-geometry mapping

A shallow embedding of the chart helpers and renderers of `dchart2.go`.

Conventions of the embedding:

* Go `float64` values are rationals (`ℚ`).  Coordinates handed to the deck
  are computed exactly.  Where a count, a floor, the end of a loop or an
  exact value turns on the rounding of `float64` arithmetic, the function
  takes the rounding `r` of the result of an operation as a parameter (or has
  a copy `…With` that does): `round64`, rounding to the nearest `float64`, is
  the code as it runs, and the identity is exact arithmetic.  A statement
  about a function without a rounding is a statement of exact arithmetic.  A
  division whose divisor is zero is outside the model, and the theorems that
  divide carry the matching hypothesis.
* A `*generate.Deck` is the list of draw calls made on it so far, oldest
  first; a renderer takes the deck and returns the extended deck.
* Code that can fail with a run-time panic (an index out of range) returns
  an `Option`.
* A counted loop is a recursion on the indices or on the number of passes
  that are left; a loop with its own step is a recursion on its index.
* Go `int` values are integers; where the code multiplies or subtracts `int`
  arguments the result is wrapped to 64 bits (`wrapInt`).  The `len` of a
  string is its number of bytes (`strLen`).
* A loop over a `float64` variable (`floatLoop`) takes a bound on its number
  of passes and returns `none` when the bound is reached with a pass still
  due; that the loop ends is the statement that some bound is enough.
* `ReadTSV` stores and compares the values it parses and computes nothing
  with them, so its values are `FloatVal`s: a number, an infinity or NaN.
-/

namespace Dchart2

/-! ## Data model -/

/-- NameValue is a name,value pair. -/
structure NameValue where
  Label : String
  Note : String
  Value : ℚ
  deriving DecidableEq, Repr

/-- ChartBox holds the essential data for making a chart. -/
structure ChartBox where
  Data : List NameValue
  Title : String
  DataFormat : String
  DataColor : String
  LabelColor : String
  ValueColor : String
  Opacity : ℚ
  TextSize : ℚ
  Top : ℚ
  Bottom : ℚ
  Left : ℚ
  Right : ℚ
  Minvalue : ℚ
  Maxvalue : ℚ
  Zerobased : Bool
  deriving DecidableEq, Repr

/-- A `float64` as `strconv.ParseFloat` can return it: a number, an infinity
or NaN (the literals "Inf", "-Inf" and "NaN" parse without error).  `ReadTSV`
only compares and stores the values it reads, so its model keeps them in this
form. -/
inductive FloatVal where
  | num (q : ℚ)
  | posInf
  | negInf
  | nan
  deriving DecidableEq, Repr

/-- The comparison `a < b` of two `float64` values: false when either is NaN. -/
def FloatVal.lt : FloatVal → FloatVal → Bool
  | FloatVal.num a, FloatVal.num b => decide (a < b)
  | FloatVal.num _, FloatVal.posInf => true
  | FloatVal.negInf, FloatVal.num _ => true
  | FloatVal.negInf, FloatVal.posInf => true
  | _, _ => false

/-- The comparison `a <= b` of two `float64` values: false when either is
NaN. -/
def FloatVal.le : FloatVal → FloatVal → Bool
  | FloatVal.num a, FloatVal.num b => decide (a ≤ b)
  | FloatVal.num _, FloatVal.posInf => true
  | FloatVal.negInf, FloatVal.num _ => true
  | FloatVal.negInf, FloatVal.posInf => true
  | FloatVal.negInf, FloatVal.negInf => true
  | FloatVal.posInf, FloatVal.posInf => true
  | _, _ => false

/-- A `NameValue` as `ReadTSV` fills it, with the value as parsed. -/
structure TsvRecord where
  Label : String
  Note : String
  Value : FloatVal
  deriving DecidableEq, Repr

/-- The `ChartBox` as `ReadTSV` fills it, with the values as parsed. -/
structure TsvChart where
  Title : String
  Data : List TsvRecord
  Minvalue : FloatVal
  Maxvalue : FloatVal
  TextSize : ℚ
  DataFormat : String
  DataColor : String
  LabelColor : String
  ValueColor : String
  Opacity : ℚ
  Left : ℚ
  Right : ℚ
  Top : ℚ
  Bottom : ℚ
  Zerobased : Bool
  deriving DecidableEq, Repr

/-- One call on the presentation surface (`generate.Deck`), with its arguments
in call order; the trailing list is the variadic opacity argument. -/
inductive Prim where
  | line (x1 y1 x2 y2 size : ℚ) (color : String) (opacity : List ℚ)
  | circle (x y w : ℚ) (color : String) (opacity : List ℚ)
  | arc (x y w h size a1 a2 : ℚ) (color : String) (opacity : List ℚ)
  | polygon (xs ys : List ℚ) (color : String) (opacity : List ℚ)
  | rect (x y w h : ℚ) (color : String) (opacity : List ℚ)
  | text (x y : ℚ) (s font : String) (size : ℚ) (color : String) (opacity : List ℚ)
  | textMid (x y : ℚ) (s font : String) (size : ℚ) (color : String) (opacity : List ℚ)
  | textEnd (x y : ℚ) (s font : String) (size : ℚ) (color : String) (opacity : List ℚ)
  deriving DecidableEq, Repr

/-- The deck: the draw calls received so far, oldest first. -/
abbrev Deck := List Prim

/-- The call `deck.Line(x1, y1, x2, y2, size, color, opacity...)`. -/
def Deck.Line (deck : Deck) (x1 y1 x2 y2 size : ℚ) (color : String)
    (opacity : List ℚ) : Deck :=
  deck ++ [Prim.line x1 y1 x2 y2 size color opacity]

/-- The call `deck.Arc(x, y, w, h, size, a1, a2, color, opacity...)`. -/
def Deck.Arc (deck : Deck) (x y w h size a1 a2 : ℚ) (color : String)
    (opacity : List ℚ) : Deck :=
  deck ++ [Prim.arc x y w h size a1 a2 color opacity]

/-- The call `deck.TextMid(x, y, s, font, size, color, opacity...)`. -/
def Deck.TextMid (deck : Deck) (x y : ℚ) (s font : String) (size : ℚ)
    (color : String) (opacity : List ℚ) : Deck :=
  deck ++ [Prim.textMid x y s font size color opacity]

/-- The call `deck.Circle(x, y, w, color, opacity...)`. -/
def Deck.Circle (deck : Deck) (x y w : ℚ) (color : String) (opacity : List ℚ) : Deck :=
  deck ++ [Prim.circle x y w color opacity]

/-- The call `deck.Polygon(xs, ys, color, opacity...)`. -/
def Deck.Polygon (deck : Deck) (xs ys : List ℚ) (color : String) (opacity : List ℚ) : Deck :=
  deck ++ [Prim.polygon xs ys color opacity]

/-- The call `deck.Text(x, y, s, font, size, color, opacity...)`. -/
def Deck.Text (deck : Deck) (x y : ℚ) (s font : String) (size : ℚ)
    (color : String) (opacity : List ℚ) : Deck :=
  deck ++ [Prim.text x y s font size color opacity]

/-- The call `deck.TextEnd(x, y, s, font, size, color, opacity...)`. -/
def Deck.TextEnd (deck : Deck) (x y : ℚ) (s font : String) (size : ℚ)
    (color : String) (opacity : List ℚ) : Deck :=
  deck ++ [Prim.textEnd x y s font size color opacity]

/-! ## Library functions used by the code

`math.Cos`, `math.Sin`, `math.Pi`, `math.Log10`, `fmt.Sprintf`,
`strings.Split`, `strings.TrimSpace` and `strconv.ParseFloat` belong to the Go
standard library, not to this package; the code that calls them takes them
from a `Lib` value.  `ParseFloat` is `strconv.ParseFloat` where the code goes
on to compute with the number; `ParseFloat64` is the same function with the
results that are not numbers kept, for `ReadTSV`.
`math.Floor`, `math.Ceil` and `math.Pow10` are the exact floor, ceiling and
power of ten, and the conversion `int(x)` of a `float64` truncates toward
zero. -/

/-- An argument of `fmt.Sprintf`. -/
inductive FmtArg where
  | str (s : String)
  | num (q : ℚ)
  deriving DecidableEq, Repr

/-- The standard-library functions the renderers call. -/
structure Lib where
  Pi : ℚ
  Cos : ℚ → ℚ
  Sin : ℚ → ℚ
  Sprintf : String → List FmtArg → String
  Log10 : ℚ → ℚ
  Split : String → String → List String
  ParseFloat : String → Except String ℚ
  TrimSpace : String → String
  ParseFloat64 : String → Except String FloatVal

/-- The integer nearest to `q`, the even one of the two when `q` lies halfway
between them. -/
def roundHalfEven (q : ℚ) : Int :=
  let f := ⌊q⌋
  let d := q - (f : ℚ)
  if d < 1 / 2 then f else if 1 / 2 < d then f + 1 else if f % 2 = 0 then f else f + 1

/-- The `float64` nearest to `q` (53 significant bits, ties to even): what an
operation of `float64` arithmetic returns when its exact result is `q`, for
results in the normal range of `float64`. -/
def round64 (q : ℚ) : ℚ :=
  if q = 0 then 0
  else
    let e : Int := Int.log 2 |q| - 52
    ((roundHalfEven (q / (2 : ℚ) ^ e) : Int) : ℚ) * (2 : ℚ) ^ e

/-- The conversion `int(x)` of a `float64`: the fractional part is discarded
(truncation toward zero). -/
def floatToInt (q : ℚ) : Int :=
  if 0 ≤ q then ⌊q⌋ else ⌈q⌉

/-- The value of an `int` expression on a 64-bit platform: the mathematical
result wrapped around into the range −2⁶³ … 2⁶³ − 1. -/
def wrapInt (z : Int) : Int :=
  (z + 2 ^ 63) % 2 ^ 64 - 2 ^ 63

/-- The built-in `len` of a Go string: its number of bytes. -/
def strLen (s : String) : Nat :=
  s.utf8ByteSize

/-! ## Helper functions -/

/-- The palette `blue7`. -/
def blue7 : List String :=
  [ "rgb(8,69,148)",
    "rgb(33,113,181)",
    "rgb(66,146,198)",
    "rgb(107,174,214)",
    "rgb(158,202,225)",
    "rgb(198,219,239)",
    "rgb(239,243,255)" ]

/-- The constant `largest`, `math.MaxFloat64`. -/
def largest : ℚ :=
  2 ^ 1024 - 2 ^ 971

/-- The constant `smallest`. -/
def smallest : ℚ :=
  -largest

/-- The constant `dotlinecolor`. -/
def dotlinecolor : String :=
  "lightgray"

/-- Go slice indexing `s[k]` with an `int` index: a panic (`none`) when the
index is negative or not below the length. -/
def index {α : Type} (s : List α) (k : Int) : Option α :=
  if k < 0 then none else s[k.toNat]?

/-- Go slice assignment `s[k] = v`: a panic (`none`) when the index is not
below the length. -/
def setIdx {α : Type} (s : List α) (k : Nat) (v : α) : Option (List α) :=
  if k < s.length then some (s.set k v) else none

/-- zerobase uses the correct base for scaling. -/
def zerobase (usez : Bool) (n : ℚ) : ℚ :=
  if usez then 0 else n

/-- MapRange maps the range (low1, high1) to (low2, high2). -/
def MapRange (value low1 high1 low2 high2 : ℚ) : ℚ :=
  low2 + (high2 - low2) * (value - low1) / (high1 - low1)

/-- mean computes the arithmetic mean of a set of data. -/
def mean (x : List ℚ) : ℚ :=
  let sum := x.foldl (fun sum xi => sum + xi) 0
  let n := x.length
  sum / (n : ℚ)

/-- dataslope computes the slope (m, b) of a set of x, y points.  The loop
that fills `xy` reads `y[i]` for every `i < len(x)`, which panics when `y` is
shorter than `x`; entries of `y` beyond `len(x)` are not multiplied. -/
def dataslope (x y : List ℚ) : Option (ℚ × ℚ) :=
  if y.length < x.length then none
  else
    let xy := List.zipWith (fun xi yi => xi * yi) x y
    let sqx := x.map (fun xi => xi * xi)
    let meanxy := mean xy
    let meanx := mean x
    let meany := mean y
    let meanxsq := mean sqx
    let rise := meanxy - (meanx * meany)
    let run := meanxsq - (meanx * meanx)
    let m := rise / run
    let b := meany - (m * meanx)
    some (m, b)

/-- The function `mean` with the result of every `float64` operation rounded
by `r`: `round64` for the code as it runs, the identity for exact
arithmetic. -/
def meanWith (r : ℚ → ℚ) (x : List ℚ) : ℚ :=
  let sum := x.foldl (fun sum xi => r (sum + xi)) 0
  let n := x.length
  r (sum / (n : ℚ))

/-- The function `dataslope` with the result of every `float64` operation
rounded by `r`. -/
def dataslopeWith (r : ℚ → ℚ) (x y : List ℚ) : Option (ℚ × ℚ) :=
  if y.length < x.length then none
  else
    let xy := List.zipWith (fun xi yi => r (xi * yi)) x y
    let sqx := x.map (fun xi => r (xi * xi))
    let meanxy := meanWith r xy
    let meanx := meanWith r x
    let meany := meanWith r y
    let meanxsq := meanWith r sqx
    let rise := r (meanxy - r (meanx * meany))
    let run := r (meanxsq - r (meanx * meanx))
    let m := r (rise / run)
    let b := r (meany - r (m * meanx))
    some (m, b)

/-- conditionalcolor chooses between two colors when the value falls between
min and max. -/
def conditionalcolor (value min max : ℚ) (trueColor falseColor : String) : String :=
  if value ≤ max ∧ value ≥ min then trueColor else falseColor

/-- The function `pct` with the result of every `float64` operation rounded
by `r`: `round64` for the code as it runs, the identity for exact
arithmetic. -/
def pctWith (r : ℚ → ℚ) (data : List NameValue) : List ℚ :=
  let sum := data.foldl (fun sum d => r (sum + d.Value)) 0
  data.map (fun d => r (r (d.Value / sum) * 100))

/-- pct computes the percentage of a range of values. -/
def pct (data : List NameValue) : List ℚ :=
  let sum := data.foldl (fun sum d => sum + d.Value) 0
  data.map (fun d => (d.Value / sum) * 100)

/-- stdcolor uses either the standard color (cycling through a list) or
specified color and opacity.  Go's `%` on `int` is the truncated remainder. -/
def stdcolor (i : Int) (dcolor color : String) (op : ℚ) (solid : Bool) :
    Option (String × ℚ) :=
  if color = "std" then
    (index blue7 (Int.tmod i (blue7.length : Int))).map (fun s => (s, 100))
  else if dcolor.length > 0 then
    if solid then some (dcolor, 100) else some (dcolor, 40)
  else some (color, op)

/-- polar converts polar to Cartesian coordinates. -/
def polar (lib : Lib) (x y r t : ℚ) : ℚ × ℚ :=
  let px := x + r * lib.Cos t
  let py := y + r * lib.Sin t
  (px, py)

/-- parsecondition parses the expression low,high,color.  The result is the
four values the Go function returns; the last one is the error (`none` for
`nil`). -/
def parsecondition (lib : Lib) (s : String) : ℚ × ℚ × String × Option String :=
  if strLen s = 0 then (smallest, largest, "", none)
  else
    match lib.Split s "," with
    | [c0, c1, c2] =>
      match lib.ParseFloat c0 with
      | Except.error err => (smallest, largest, "", some err)
      | Except.ok low =>
        match lib.ParseFloat c1 with
        | Except.error err => (smallest, largest, "", some err)
        | Except.ok high => (low, high, c2, none)
    | _ => (smallest, largest, "", some (lib.Sprintf "%s bad condition" [FmtArg.str s]))

/-- The constant `valuecolor`. -/
def valuecolor : String :=
  "rgb(128,0,0)"

/-- The constant `labelcolor`. -/
def labelcolor : String :=
  "rgb(75,75,75)"

/-- xmlesc escapes XML: the replacer `xmlmap` rewrites the characters &, <
and >. -/
def xmlesc (s : String) : String :=
  String.join (s.toList.map (fun ch =>
    if ch = '&' then "&amp;" else if ch = '<' then "&lt;" else if ch = '>' then "&gt;"
    else String.singleton ch))

/-- The variables of `ReadTSV` that its loop changes. -/
structure TsvState where
  data : List TsvRecord
  maxval : FloatVal
  minval : FloatVal
  title : String

/-- One pass of the loop of `ReadTSV`, for the scanned line `t`. -/
def readTSVLine (lib : Lib) (st : TsvState) (t : String) : TsvState :=
  if strLen t = 0 then st
  else if t.front = '#' ∧ strLen t > 2 then { st with title := lib.TrimSpace (t.drop 1) }
  else
    match lib.Split t "\t" with
    | f0 :: f1 :: rest =>
      let note := match rest with
        | [f2] => f2
        | _ => ""
      let value := match lib.ParseFloat64 f1 with
        | Except.ok v => v
        | Except.error _ => FloatVal.num 0
      let maxval := if FloatVal.lt st.maxval value then value else st.maxval
      let minval := if FloatVal.lt value st.minval then value else st.minval
      { st with data := st.data ++ [⟨f0, note, value⟩], maxval := maxval, minval := minval }
    | _ => st

/-- ReadTSV reads tab separated values into a ChartBox.  The reader is given
as the lines its scanner yields and the error the scanner ends with. -/
def ReadTSV (lib : Lib) (lines : List String) (scanErr : Option String) :
    TsvChart × Option String :=
  let st := lines.foldl (readTSVLine lib) ⟨[], FloatVal.num smallest, FloatVal.num largest, ""⟩
  ({ Title := xmlesc st.title
     Data := st.data
     Minvalue := st.minval
     Maxvalue := st.maxval
     TextSize := 12 / 10
     DataFormat := "%.1f"
     DataColor := "rgb(128,128,128)"
     LabelColor := labelcolor
     ValueColor := valuecolor
     Opacity := 100
     Left := 10
     Right := 90
     Top := 90
     Bottom := 50
     Zerobased := true }, scanErr)

/-- cyrange computes "optimal" min, max, step for axis labels, rounding the
max to the appropriate number, given the number of labels. -/
def cyrange (lib : Lib) (min max : ℚ) (n : Int) : ℚ × ℚ × ℚ :=
  let l := lib.Log10 max
  let p := (10 : ℚ) ^ (floatToInt l)
  let pl : ℚ := ((⌈max / p⌉ : Int) : ℚ)
  let ymax := pl * p
  (min, ymax, ymax / (n : ℚ))

/-! ## Chart types -/

/-- Bar makes a (column) bar chart. -/
def Bar (c : ChartBox) (deck : Deck) (size : ℚ) : Deck :=
  let dlen : ℚ := (((c.Data.length : Int) - 1 : Int) : ℚ)
  let ymin := zerobase c.Zerobased c.Minvalue
  c.Data.enum.foldl
    (fun deck id =>
      let x := MapRange (id.1 : ℚ) 0 dlen c.Left c.Right
      let y := MapRange id.2.Value ymin c.Maxvalue c.Bottom c.Top
      deck.Line x c.Bottom x y size c.DataColor [c.Opacity])
    deck

/-- ConditionalBar makes a bar chart with conditional coloring. -/
def ConditionalBar (c : ChartBox) (deck : Deck) (size cmin cmax : ℚ) (color : String) :
    Deck :=
  let dlen : ℚ := (((c.Data.length : Int) - 1 : Int) : ℚ)
  let ymin := zerobase c.Zerobased c.Minvalue
  c.Data.enum.foldl
    (fun deck id =>
      let v := id.2.Value
      let x := MapRange (id.1 : ℚ) 0 dlen c.Left c.Right
      let y := MapRange v ymin c.Maxvalue c.Bottom c.Top
      deck.Line x c.Bottom x y size (conditionalcolor v cmin cmax color c.DataColor)
        [c.Opacity])
    deck

/-- Scatter makes a scatter chart. -/
def Scatter (c : ChartBox) (deck : Deck) (size : ℚ) : Deck :=
  let dlen : ℚ := (((c.Data.length : Int) - 1 : Int) : ℚ)
  let ymin := zerobase c.Zerobased c.Minvalue
  c.Data.enum.foldl
    (fun deck id =>
      let x := MapRange (id.1 : ℚ) 0 dlen c.Left c.Right
      let y := MapRange id.2.Value ymin c.Maxvalue c.Bottom c.Top
      deck.Circle x y size c.DataColor [c.Opacity])
    deck

/-- ConditionalScatter makes a scatter chart with conditional coloring. -/
def ConditionalScatter (c : ChartBox) (deck : Deck) (size cmin cmax : ℚ) (color : String) :
    Deck :=
  let dlen : ℚ := (((c.Data.length : Int) - 1 : Int) : ℚ)
  let ymin := zerobase c.Zerobased c.Minvalue
  c.Data.enum.foldl
    (fun deck id =>
      let v := id.2.Value
      let x := MapRange (id.1 : ℚ) 0 dlen c.Left c.Right
      let y := MapRange v ymin c.Maxvalue c.Bottom c.Top
      deck.Circle x y size (conditionalcolor v cmin cmax color c.DataColor) [c.Opacity])
    deck

/-- The loop of `ConditionalLine` over the indices `i` still to visit. -/
def condLineLoop (c : ChartBox) (size fn ymin cmin cmax : ℚ) (color : String) :
    List Nat → Deck → Option Deck
  | [], deck => some deck
  | i :: rest, deck => do
    let d1 ← c.Data[i]?
    let d2 ← c.Data[i + 1]?
    let v1 := d1.Value
    let v2 := d2.Value
    let x1 := MapRange (i : ℚ) 0 fn c.Left c.Right
    let y1 := MapRange v1 ymin c.Maxvalue c.Bottom c.Top
    let x2 := MapRange ((i + 1 : Nat) : ℚ) 0 fn c.Left c.Right
    let y2 := MapRange v2 ymin c.Maxvalue c.Bottom c.Top
    condLineLoop c size fn ymin cmin cmax color rest
      (deck.Line x1 y1 x2 y2 size (conditionalcolor v1 cmin cmax color c.DataColor)
        [c.Opacity])

/-- ConditionalLine makes a line chart with conditional coloring. -/
def ConditionalLine (c : ChartBox) (deck : Deck) (size cmin cmax : ℚ) (color : String) :
    Option Deck :=
  let n : Int := (c.Data.length : Int)
  let fn : ℚ := ((n - 1 : Int) : ℚ)
  let ymin := zerobase c.Zerobased c.Minvalue
  condLineLoop c size fn ymin cmin cmax color (List.range (n - 1).toNat) deck

/-- A loop `for v := v0; cond(v); v = next(v)` over a `float64` variable whose
body makes draw calls, with the deck as state.  The first argument bounds the
number of passes; the result is `none` when a pass is due and none is left.
The functions with such a loop take the rounding `r` of the sum that advances
the variable: `round64` for the code as it runs, the identity for exact
arithmetic. -/
def floatLoop (cond : ℚ → Bool) (next : ℚ → ℚ) (body : ℚ → Deck → Deck) :
    Nat → ℚ → Deck → Option Deck
  | 0, v, deck => if cond v then none else some deck
  | fuel + 1, v, deck =>
    if cond v then floatLoop cond next body fuel (next v) (body v deck) else some deck

/-- dottedhline makes a dotted horizontal line, using circles with specified
step and separation.  The body of the loop ends with `x += step` and the loop
header adds `step` again; both sums are rounded by `r`. -/
def dottedhline (r : ℚ → ℚ) (fuel : Nat) (deck : Deck) (x1 y x2 dotsize step : ℚ)
    (color : String) : Option Deck :=
  floatLoop (fun x => decide (x < x2)) (fun x => r (r (x + step) + step))
    (fun x deck => deck.Circle x y dotsize color []) fuel x1 deck

/-- YAxis makes the Y axis with optional grid lines.  The sum `v += step` of
the loop is rounded by `r`. -/
def YAxis (r : ℚ → ℚ) (lib : Lib) (c : ChartBox) (deck : Deck) (min max step : ℚ)
    (gridlines : Bool) (fuel : Nat) : Option Deck :=
  let w := c.Right - c.Left
  let textsize := c.TextSize
  let ymin := zerobase c.Zerobased c.Minvalue
  floatLoop (fun v => decide (v ≤ max)) (fun v => r (v + step))
    (fun v deck =>
      let y := MapRange v ymin c.Maxvalue c.Bottom c.Top
      let deck :=
        if gridlines then deck.Line c.Left y (c.Left + w) y (5 / 100) "gray" [] else deck
      deck.TextEnd (c.Left - 2) (y - textsize / 3) (lib.Sprintf c.DataFormat [FmtArg.num v])
        "sans" textsize c.LabelColor [c.Opacity])
    fuel min deck

/-- The loop of `Line` over the indices `i` still to visit. -/
def lineLoop (c : ChartBox) (size fn ymin : ℚ) : List Nat → Deck → Option Deck
  | [], deck => some deck
  | i :: rest, deck => do
    let d1 ← c.Data[i]?
    let d2 ← c.Data[i + 1]?
    let v1 := d1.Value
    let v2 := d2.Value
    let x1 := MapRange (i : ℚ) 0 fn c.Left c.Right
    let y1 := MapRange v1 ymin c.Maxvalue c.Bottom c.Top
    let x2 := MapRange ((i + 1 : Nat) : ℚ) 0 fn c.Left c.Right
    let y2 := MapRange v2 ymin c.Maxvalue c.Bottom c.Top
    lineLoop c size fn ymin rest (deck.Line x1 y1 x2 y2 size c.DataColor [c.Opacity])

/-- Line makes a line chart.  The loop `for i := 0; i < n-1; i++` visits the
indices below `n - 1`, none when `n - 1` is not positive. -/
def Line (c : ChartBox) (deck : Deck) (size : ℚ) : Option Deck :=
  let n : Int := (c.Data.length : Int)
  let fn : ℚ := ((n - 1 : Int) : ℚ)
  let ymin := zerobase c.Zerobased c.Minvalue
  lineLoop c size fn ymin (List.range (n - 1).toNat) deck

/-- The loop of `Area` over the indices `i` still to visit, with the two
coordinate slices as state. -/
def areaLoop (c : ChartBox) (fn ymin : ℚ) :
    List Nat → List ℚ → List ℚ → Option (List ℚ × List ℚ)
  | [], xvol, yvol => some (xvol, yvol)
  | i :: rest, xvol, yvol => do
    let xvol ← setIdx xvol (i + 1) (MapRange (i : ℚ) 0 fn c.Left c.Right)
    let d ← c.Data[i]?
    let yvol ← setIdx yvol (i + 1) (MapRange d.Value ymin c.Maxvalue c.Bottom c.Top)
    areaLoop c fn ymin rest xvol yvol

/-- Area makes a area chart. -/
def Area (c : ChartBox) (deck : Deck) : Option Deck := do
  let n := c.Data.length
  let fn : ℚ := (((n : Int) - 1 : Int) : ℚ)
  let ymin := zerobase c.Zerobased c.Minvalue
  let xvol := List.replicate (n + 2) (0 : ℚ)
  let yvol := List.replicate (n + 2) (0 : ℚ)
  let xvol ← setIdx xvol 0 c.Left
  let yvol ← setIdx yvol 0 c.Bottom
  let xvol ← setIdx xvol (n + 1) c.Right
  let yvol ← setIdx yvol (n + 1) c.Bottom
  let (xvol, yvol) ← areaLoop c fn ymin (List.range n) xvol yvol
  some (deck.Polygon xvol yvol c.DataColor [c.Opacity])

/-- RegressionLine makes a regression line from a data set.  The slices `x`
and `y` are made with the length of the data and filled at every index by the
loop over the data: `x[i] = float64(i)`, `y[i] = data.Value`. -/
def RegressionLine (c : ChartBox) (deck : Deck) (size : ℚ) : Option Deck := do
  let top := c.Top
  let left := c.Left
  let bottom := c.Bottom
  let right := c.Right
  let lw := size
  let x : List ℚ := c.Data.enum.map (fun id => (id.1 : ℚ))
  let y : List ℚ := c.Data.enum.map (fun id => id.2.Value)
  let (m, b) ← dataslope x y
  let dl : Int := (x.length : Int) - 1
  let l : ℚ := (dl : ℚ)
  let x1 ← index x 0
  let x2 ← index x dl
  let y1 := m * x1 + b
  let y2 := m * x2 + b
  let ymin := zerobase c.Zerobased c.Minvalue
  let rx1 := MapRange x1 0 l left right
  let rx2 := MapRange x2 0 l left right
  let ry1 := MapRange y1 ymin c.Maxvalue bottom top
  let ry2 := MapRange y2 ymin c.Maxvalue bottom top
  some (deck.Line rx1 ry1 rx2 ry2 lw c.DataColor [c.Opacity])

/-- The loop of `Donut` over the indexed percentages still to draw, with the
running start angle `a1` and the deck as state.  The results of the `float64`
operations on the angles are rounded by `r`: `round64` for the code as it
runs, the identity for exact arithmetic. -/
def donutLoop (r : ℚ → ℚ) (lib : Lib) (c : ChartBox) (data : List NameValue)
    (dx dy psize pwidth textsize : ℚ) (showval solid : Bool) :
    List (Nat × ℚ) → ℚ → Deck → Option Deck
  | [], _, deck => some deck
  | (i, p) :: rest, a1, deck => do
    let angle := r (r (p / 100) * 360)
    let a2 := r (a1 + angle)
    let mid := r (r (a1 + a2) / 2)
    let d ← data[i]?
    let (bcolor, op) ← stdcolor (i : Int) d.Note c.DataColor p solid
    let deck := deck.Arc dx dy psize psize pwidth a1 a2 bcolor [op]
    let (tx, ty) := polar lib dx dy (psize * (85 / 100)) (mid * (lib.Pi / 180))
    let deck :=
      if showval then
        deck.TextMid tx ty
          (lib.Sprintf ("%s " ++ c.DataFormat ++ "%%") [FmtArg.str d.Label, FmtArg.num p])
          "sans" textsize "" []
      else deck
    donutLoop r lib c data dx dy psize pwidth textsize showval solid rest a2 deck

/-- Donut makes donut and pie charts.  The percentages and the angles are
computed with the rounding `r`. -/
def Donut (r : ℚ → ℚ) (lib : Lib) (c : ChartBox) (deck : Deck) (psize pwidth : ℚ)
    (showval solid : Bool) : Option Deck :=
  let top := c.Top
  let left := c.Left
  let textsize := c.TextSize
  let data := c.Data
  let left := if left < 0 then 50 else left
  let a1 : ℚ := 0
  let dx := left
  let dy := top - (psize / 2)
  donutLoop r lib c data dx dy psize pwidth textsize showval solid (pctWith r data).enum a1
    deck

/-- The loop of `PMap` over the indexed percentages still to draw, with the
running left edge `x` and the deck as state. -/
def pmapLoop (lib : Lib) (c : ChartBox) (data : List NameValue)
    (top textsize pwidth pmlen bl hspace : ℚ) (format : String) (showvalues solid : Bool) :
    List (Nat × ℚ) → ℚ → Deck → Option Deck
  | [], _, deck => some deck
  | (i, p) :: rest, x, deck => do
    let bx := p * bl
    let d ← data[i]?
    let outside : Bool := decide (p < 3 ∨ ((strLen d.Label : Nat) : ℚ) > pmlen)
    let ty := if outside then top - pwidth * (12 / 10) else top
    let deck :=
      if outside then
        deck.Line (x + bx / 2) (ty + textsize * (15 / 10)) (x + bx / 2) top (1 / 10)
          dotlinecolor []
      else deck
    let (linecolor, lineop) ← stdcolor (i : Int) d.Note c.DataColor p solid
    let deck := deck.Line x top (bx + x) top pwidth linecolor [lineop]
    let textcolor := if lineop = 100 then "white" else "black"
    let deck :=
      if showvalues then
        deck.TextMid (x + bx / 2) (ty + pwidth) d.Label "sans" (textsize * (75 / 100))
          c.ValueColor []
      else deck
    let deck := deck.TextMid (x + bx / 2) (ty - textsize / 2)
      (lib.Sprintf (format ++ "%%") [FmtArg.num p]) "sans" textsize textcolor []
    pmapLoop lib c data top textsize pwidth pmlen bl hspace format showvalues solid rest
      (x + (bx - hspace)) deck

/-- PMap makes a proportional map. -/
def PMap (lib : Lib) (c : ChartBox) (deck : Deck) (pwidth pmlen : ℚ)
    (showvalues solid : Bool) : Option Deck :=
  let top := c.Top
  let left := c.Left
  let right := c.Right
  let textsize := c.TextSize
  let format := c.DataFormat
  let x := left
  let pl := right - left
  let bl := pl / 100
  let hspace : ℚ := 10 / 100
  let data := c.Data
  pmapLoop lib c data top textsize pwidth pmlen bl hspace format showvalues solid
    (pct data).enum x deck

/-- The box of a pair of a slope chart: the two axes and the top and bottom. -/
structure SlopeBox where
  x1 : ℚ
  x2 : ℚ
  top : ℚ
  bottom : ℚ
  deriving DecidableEq, Repr

/-- The end of the loop body of `Slope`: the box of the next pair. -/
def slopeNext (left right w hskip vskip : ℚ) (b : SlopeBox) : SlopeBox :=
  let x1 := b.x1 + (w + hskip)
  let x2 := b.x2 + (w + hskip)
  if x2 > 100 then ⟨left, right, b.top - vskip, b.bottom - vskip⟩
  else ⟨x1, x2, b.top, b.bottom⟩

/-- The loop `for i := 0; i < len(data)-1; i += 2` of `Slope`, from the index
`i`, with the box of the pair and the deck as state. -/
def slopeLoop (lib : Lib) (c : ChartBox) (data : List NameValue) (linewidth : ℚ)
    (i : Nat) (b : SlopeBox) (deck : Deck) : Option Deck :=
  if (i : Int) < (data.length : Int) - 1 then do
    let textsize := c.TextSize
    let format := c.DataFormat
    let ymin := zerobase c.Zerobased c.Minvalue
    let left := c.Left
    let right := c.Right
    let datacolor := c.DataColor
    let lw := linewidth / 2
    let lsize := textsize * (75 / 100)
    let tsize := textsize * (15 / 10)
    let w := right - left
    let h := c.Top - c.Bottom
    let hskip := w * (60 / 100)
    let vskip := h * (14 / 10)
    let x1 := b.x1
    let x2 := b.x2
    let top := b.top
    let bottom := b.bottom
    let di ← data[i]?
    let deck :=
      if strLen di.Label > 0 then
        deck.TextMid (x1 + w / 2) (top + textsize / 2) di.Note "sans" tsize c.LabelColor []
      else deck
    let v1 := di.Value
    let dj ← data[i + 1]?
    let v2 := dj.Value
    let v1y := MapRange v1 ymin c.Maxvalue bottom top
    let v2y := MapRange v2 ymin c.Maxvalue bottom top
    let deck := deck.Line x1 bottom x1 top lw "black" []
    let deck := deck.Line x2 bottom x2 top lw "black" []
    let deck := deck.Circle x1 v1y textsize datacolor []
    let deck := deck.Circle x2 v2y textsize datacolor []
    let deck := deck.Line x1 v1y x2 v2y linewidth datacolor []
    let deck := deck.TextMid x1 (bottom - 2) di.Label "sans" textsize c.LabelColor []
    let deck := deck.TextMid x2 (bottom - 2) dj.Label "sans" textsize c.LabelColor []
    let deck :=
      if c.Zerobased then
        deck.TextEnd (x1 - 1) top (lib.Sprintf format [FmtArg.num c.Maxvalue]) "sans" lsize
          c.LabelColor []
      else deck
    let deck := deck.TextEnd (x1 - 1) v1y (lib.Sprintf format [FmtArg.num v1]) "sans" lsize
      c.LabelColor []
    let deck := deck.Text (x2 + 1) v2y (lib.Sprintf format [FmtArg.num v2]) "sans" lsize
      c.LabelColor []
    slopeLoop lib c data linewidth (i + 2) (slopeNext left right w hskip vskip b) deck
  else some deck
termination_by data.length - i
decreasing_by omega

/-- Slope makes a slope chart.  The result is the deck and what was written
to the standard error stream. -/
def Slope (lib : Lib) (c : ChartBox) (deck : Deck) (linewidth : ℚ) :
    Option (Deck × List String) :=
  let data := c.Data
  if data.length < 2 then
    some (deck, ["slope graphs need at least two data pointextsize"])
  else
    (slopeLoop lib c data linewidth 0 ⟨c.Left, c.Right, c.Top, c.Bottom⟩ deck).map
      (fun deck => (deck, []))

/-- The inner loop `for l := 0; l < int(pct[k]); l++` of the cell encoding of
`PGrid`, with the iterations left, the cells and the cell counter as state. -/
def fillCells (note : String) : Nat → List String → Nat → Option (List String × Nat)
  | 0, chars, cb => some (chars, cb)
  | l + 1, chars, cb => do
    let chars ← setIdx chars cb note
    fillCells note l chars (cb + 1)

/-- The outer loop of the cell encoding of `PGrid`, over the records with
their floored percentages. -/
def encodeCells : List (NameValue × ℚ) → List String → Nat → Option (List String × Nat)
  | [], chars, cb => some (chars, cb)
  | (d, p) :: rest, chars, cb => do
    let (chars, cb) ← fillCells d.Note (floatToInt p).toNat chars cb
    encodeCells rest chars cb

/-- The inner loop `for j := 0; j < cols; j++` of the grid of `PGrid`, with
the iterations left, `x`, the cell number `n` and the deck as state. -/
def gridRow (chars : List String) (y textsize linespacing : ℚ) :
    Nat → ℚ → Nat → Deck → Option (Nat × Deck)
  | 0, _, n, deck => some (n, deck)
  | j + 1, x, n, deck =>
    if n ≥ 100 then some (n, deck)
    else do
      let ch ← chars[n]?
      gridRow chars y textsize linespacing j (x + linespacing) (n + 1)
        (deck.Circle x y textsize ch [])

/-- The outer loop `for i := 0; i < rows; i++` of the grid of `PGrid`, with
the iterations left, `y`, the cell number `n` and the deck as state. -/
def gridRows (chars : List String) (left textsize linespacing : ℚ) (cols : Nat) :
    Nat → ℚ → Nat → Deck → Option (ℚ × Nat × Deck)
  | 0, y, n, deck => some (y, n, deck)
  | i + 1, y, n, deck => do
    let (n, deck) ← gridRow chars y textsize linespacing cols left n deck
    gridRows chars left textsize linespacing cols i (y - linespacing) n deck

/-- The legend loop of `PGrid`, over the records with their floored
percentages, with `y` and the deck as state. -/
def legendLoop (lib : Lib) (c : ChartBox) (left textsize linespacing cx : ℚ)
    (format : String) (showvalues : Bool) : List (NameValue × ℚ) → ℚ → Deck → Deck
  | [], _, deck => deck
  | (d, p) :: rest, y, deck =>
    let y := y - linespacing * (12 / 10)
    let deck := deck.Circle left y textsize d.Note []
    let deck := deck.Text (left + textsize) (y - textsize / 2)
      (d.Label ++ " (" ++ lib.Sprintf format [FmtArg.num p] ++ "%)") "sans" textsize "" []
    let deck :=
      if showvalues then
        deck.TextEnd (left + cx) (y - textsize / 2) (lib.Sprintf format [FmtArg.num d.Value])
          "sans" textsize c.ValueColor []
      else deck
    legendLoop lib c left textsize linespacing cx format showvalues rest y deck

/-- PGrid makes a proportional grid with the specified rows and columns.  The
slice `pct` has one entry per record, so the loops over the records visit the
records together with their entries of `pct`. -/
def PGrid (lib : Lib) (c : ChartBox) (deck : Deck) (linespacing : ℚ) (rows cols : Int)
    (showvalues : Bool) : Option Deck :=
  let textsize := c.TextSize
  let data := c.Data
  let top := c.Top
  let left := c.Left
  let format := c.DataFormat
  let left := if left < 0 then 30 else left
  if wrapInt (rows * cols) ≠ 100 then some deck
  else do
    let sum := data.foldl (fun sum d => sum + d.Value) 0
    let pct : List ℚ := data.map (fun d => ((⌊(d.Value / sum) * 100⌋ : Int) : ℚ))
    let chars : List String := List.replicate 100 ""
    let (chars, _) ← encodeCells (data.zip pct) chars 0
    let (y, _, deck) ← gridRows chars left textsize linespacing cols.toNat rows.toNat top 0 deck
    let cx := ((wrapInt (cols - 1) : Int) : ℚ) * linespacing + linespacing / 2
    some (legendLoop lib c left textsize linespacing cx format showvalues (data.zip pct) y deck)

/-- The function `PGrid` with the results of the `float64` operations that
make the percentages rounded by `r`: `round64` for the code as it runs, the
identity for exact arithmetic. -/
def PGridWith (r : ℚ → ℚ) (lib : Lib) (c : ChartBox) (deck : Deck) (linespacing : ℚ)
    (rows cols : Int) (showvalues : Bool) : Option Deck :=
  let textsize := c.TextSize
  let data := c.Data
  let top := c.Top
  let left := c.Left
  let format := c.DataFormat
  let left := if left < 0 then 30 else left
  if wrapInt (rows * cols) ≠ 100 then some deck
  else do
    let sum := data.foldl (fun sum d => r (sum + d.Value)) 0
    let pct : List ℚ := data.map (fun d => ((⌊r (r (d.Value / sum) * 100)⌋ : Int) : ℚ))
    let chars : List String := List.replicate 100 ""
    let (chars, _) ← encodeCells (data.zip pct) chars 0
    let (y, _, deck) ← gridRows chars left textsize linespacing cols.toNat rows.toNat top 0 deck
    let cx := ((wrapInt (cols - 1) : Int) : ℚ) * linespacing + linespacing / 2
    some (legendLoop lib c left textsize linespacing cx format showvalues (data.zip pct) y deck)

/-! ## Reading the deck -/

/-- The start and end angle of every arc of a deck, in drawing order. -/
def arcAngles (deck : Deck) : List (ℚ × ℚ) :=
  deck.filterMap fun p =>
    match p with
    | Prim.arc _ _ _ _ _ a1 a2 _ _ => some (a1, a2)
    | _ => none

/-- The lines of a deck, in drawing order. -/
def linesOf (deck : Deck) : List Prim :=
  deck.filter fun p =>
    match p with
    | Prim.line _ _ _ _ _ _ _ => true
    | _ => false

/-- The draw calls of one pass of the loop of `Slope`, for the pair of records
`di`, `dj` in the box `b`. -/
def slopePairOut (lib : Lib) (c : ChartBox) (linewidth : ℚ) (b : SlopeBox)
    (di dj : NameValue) : List Prim :=
  (if strLen di.Label > 0 then
      [Prim.textMid (b.x1 + (c.Right - c.Left) / 2) (b.top + c.TextSize / 2) di.Note "sans"
        (c.TextSize * (15 / 10)) c.LabelColor []]
    else [])
  ++ [ Prim.line b.x1 b.bottom b.x1 b.top (linewidth / 2) "black" [],
       Prim.line b.x2 b.bottom b.x2 b.top (linewidth / 2) "black" [],
       Prim.circle b.x1
         (MapRange di.Value (zerobase c.Zerobased c.Minvalue) c.Maxvalue b.bottom b.top)
         c.TextSize c.DataColor [],
       Prim.circle b.x2
         (MapRange dj.Value (zerobase c.Zerobased c.Minvalue) c.Maxvalue b.bottom b.top)
         c.TextSize c.DataColor [],
       Prim.line b.x1
         (MapRange di.Value (zerobase c.Zerobased c.Minvalue) c.Maxvalue b.bottom b.top)
         b.x2
         (MapRange dj.Value (zerobase c.Zerobased c.Minvalue) c.Maxvalue b.bottom b.top)
         linewidth c.DataColor [],
       Prim.textMid b.x1 (b.bottom - 2) di.Label "sans" c.TextSize c.LabelColor [],
       Prim.textMid b.x2 (b.bottom - 2) dj.Label "sans" c.TextSize c.LabelColor [] ]
  ++ (if c.Zerobased then
      [Prim.textEnd (b.x1 - 1) b.top (lib.Sprintf c.DataFormat [FmtArg.num c.Maxvalue]) "sans"
        (c.TextSize * (75 / 100)) c.LabelColor []]
    else [])
  ++ [ Prim.textEnd (b.x1 - 1)
         (MapRange di.Value (zerobase c.Zerobased c.Minvalue) c.Maxvalue b.bottom b.top)
         (lib.Sprintf c.DataFormat [FmtArg.num di.Value]) "sans" (c.TextSize * (75 / 100))
         c.LabelColor [],
       Prim.text (b.x2 + 1)
         (MapRange dj.Value (zerobase c.Zerobased c.Minvalue) c.Maxvalue b.bottom b.top)
         (lib.Sprintf c.DataFormat [FmtArg.num dj.Value]) "sans" (c.TextSize * (75 / 100))
         c.LabelColor [] ]

/-- The box of the pair after `b` in the slope chart of `c`. -/
def slopeStep (c : ChartBox) (b : SlopeBox) : SlopeBox :=
  slopeNext c.Left c.Right (c.Right - c.Left) ((c.Right - c.Left) * (60 / 100))
    ((c.Top - c.Bottom) * (14 / 10)) b

/-- The draw calls of `r` passes of the loop of `Slope` from the index `i` and
the box `b`. -/
def slopeOut (lib : Lib) (c : ChartBox) (data : List NameValue) (linewidth : ℚ) :
    Nat → Nat → SlopeBox → List Prim
  | 0, _, _ => []
  | r + 1, i, b =>
    match data[i]?, data[i + 1]? with
    | some di, some dj =>
      slopePairOut lib c linewidth b di dj
        ++ slopeOut lib c data linewidth r (i + 2) (slopeStep c b)
    | _, _ => []

/-- The draw calls of one pass of the loop of `PMap`, for the record `d` with
percentage `p`, at the left edge `x`, with the colour and opacity `stdcolor`
gave for the band. -/
def pmapRecordOut (lib : Lib) (c : ChartBox) (pwidth pmlen : ℚ) (showvalues : Bool)
    (d : NameValue) (p x : ℚ) (linecolor : String) (lineop : ℚ) : List Prim :=
  (if p < 3 ∨ ((strLen d.Label : Nat) : ℚ) > pmlen then
      [Prim.line (x + p * ((c.Right - c.Left) / 100) / 2)
        (c.Top - pwidth * (12 / 10) + c.TextSize * (15 / 10))
        (x + p * ((c.Right - c.Left) / 100) / 2) c.Top (1 / 10) dotlinecolor []]
    else [])
  ++ [Prim.line x c.Top (p * ((c.Right - c.Left) / 100) + x) c.Top pwidth linecolor [lineop]]
  ++ (if showvalues then
      [Prim.textMid (x + p * ((c.Right - c.Left) / 100) / 2)
        ((if p < 3 ∨ ((strLen d.Label : Nat) : ℚ) > pmlen then c.Top - pwidth * (12 / 10)
          else c.Top) + pwidth)
        d.Label "sans" (c.TextSize * (75 / 100)) c.ValueColor []]
    else [])
  ++ [Prim.textMid (x + p * ((c.Right - c.Left) / 100) / 2)
        ((if p < 3 ∨ ((strLen d.Label : Nat) : ℚ) > pmlen then c.Top - pwidth * (12 / 10)
          else c.Top) - c.TextSize / 2)
        (lib.Sprintf (c.DataFormat ++ "%%") [FmtArg.num p]) "sans" c.TextSize
        (if lineop = 100 then "white" else "black") []]

/-- The draw call `p` with the colour `col`. -/
def Prim.withColor (p : Prim) (col : String) : Prim :=
  match p with
  | Prim.line x1 y1 x2 y2 size _ op => Prim.line x1 y1 x2 y2 size col op
  | Prim.circle x y w _ op => Prim.circle x y w col op
  | Prim.arc x y w h size a1 a2 _ op => Prim.arc x y w h size a1 a2 col op
  | Prim.polygon xs ys _ op => Prim.polygon xs ys col op
  | Prim.rect x y w h _ op => Prim.rect x y w h col op
  | Prim.text x y s font size _ op => Prim.text x y s font size col op
  | Prim.textMid x y s font size _ op => Prim.textMid x y s font size col op
  | Prim.textEnd x y s font size _ op => Prim.textEnd x y s font size col op

/-- The colour of the draw call `p`. -/
def Prim.color (p : Prim) : String :=
  match p with
  | Prim.line _ _ _ _ _ col _ => col
  | Prim.circle _ _ _ col _ => col
  | Prim.arc _ _ _ _ _ _ _ col _ => col
  | Prim.polygon _ _ col _ => col
  | Prim.rect _ _ _ _ col _ => col
  | Prim.text _ _ _ _ _ col _ => col
  | Prim.textMid _ _ _ _ _ col _ => col
  | Prim.textEnd _ _ _ _ _ col _ => col

/-- The number of values `a`, `a + s`, `a + 2s`, … that are at most `b`, for a
positive step `s`. -/
def tickCount (a b s : ℚ) : Nat :=
  if a ≤ b then (⌊(b - a) / s⌋).toNat + 1 else 0

/-- Every value of the records is a number between the smallest and the
largest `float64`. -/
def TsvFinite (data : List TsvRecord) : Prop :=
  ∀ r ∈ data, ∃ q : ℚ, r.Value = FloatVal.num q ∧ smallest ≤ q ∧ q ≤ largest

/-- The running bounds of `ReadTSV` are numbers that bound the values of the
records read so far, and each is its initial value or the value of a record. -/
def TsvBounds (st : TsvState) : Prop :=
  ∃ m M : ℚ, st.minval = FloatVal.num m ∧ st.maxval = FloatVal.num M
    ∧ (∀ r ∈ st.data, ∀ q : ℚ, r.Value = FloatVal.num q → m ≤ q ∧ q ≤ M)
    ∧ (M = smallest ∨ ∃ r ∈ st.data, r.Value = FloatVal.num M)
    ∧ (m = largest ∨ ∃ r ∈ st.data, r.Value = FloatVal.num m)

/-- The number of values `a`, `a + s`, `a + 2s`, … that are less than `b`, for
a positive step `s`. -/
def dotCount (a b s : ℚ) : Nat :=
  (⌈(b - a) / s⌉).toNat

/-- The left edge of band `j` of a proportional map whose first band starts at
`x`: every band before it moves the edge by its width less `hspace`. -/
def pmapX (bl hspace : ℚ) : ℚ → List ℚ → Nat → ℚ
  | x, _, 0 => x
  | x, [], _ + 1 => x
  | x, p :: ps, j + 1 => pmapX bl hspace (x + (p * bl - hspace)) ps j

/-- The sums of the non-empty initial segments of a list: the values the
variable `sum` of a summing loop takes. -/
def prefixSums (x : List ℚ) : List ℚ :=
  (List.range x.length).map (fun k : Nat => (x.take (k + 1)).sum)

/-- The exact results of the operations of `mean` on `x`: the running sums and
the quotient. -/
def meanOps (x : List ℚ) : List ℚ :=
  prefixSums x ++ [x.sum / (x.length : ℚ)]

/-- The exact results of the operations of `dataslope` on `x` and `y`: the
products, the operations of the four means, and the operations that make the
rise, the run, the slope and the intercept. -/
def dataslopeOps (x y : List ℚ) : List ℚ :=
  List.zipWith (fun xi yi => xi * yi) x y ++ x.map (fun xi => xi * xi)
    ++ meanOps (List.zipWith (fun xi yi => xi * yi) x y) ++ meanOps x ++ meanOps y
    ++ meanOps (x.map (fun xi => xi * xi))
    ++ [ mean x * mean y,
        mean (List.zipWith (fun xi yi => xi * yi) x y) - mean x * mean y,
        mean x * mean x,
        mean (x.map (fun xi => xi * xi)) - mean x * mean x,
        (mean (List.zipWith (fun xi yi => xi * yi) x y) - mean x * mean y)
          / (mean (x.map (fun xi => xi * xi)) - mean x * mean x),
        (mean (List.zipWith (fun xi yi => xi * yi) x y) - mean x * mean y)
          / (mean (x.map (fun xi => xi * xi)) - mean x * mean x) * mean x,
        mean y
          - (mean (List.zipWith (fun xi yi => xi * yi) x y) - mean x * mean y)
            / (mean (x.map (fun xi => xi * xi)) - mean x * mean x) * mean x ]

/-- The percentage of the record `d` among the records `data` as `PGrid`
computes it, before the floor is taken, with the rounding `r`. -/
def pgridShare (r : ℚ → ℚ) (data : List NameValue) (d : NameValue) : ℚ :=
  r (r (d.Value / data.foldl (fun sum d => r (sum + d.Value)) 0) * 100)

/-- The cells the records own in the proportional grid, in record order: for
each record with its floored percentage, that many cells with its note. -/
def cellsOf (items : List (NameValue × ℚ)) : List String :=
  items.flatMap (fun dp => List.replicate (floatToInt dp.2).toNat dp.1.Note)

/-- The arcs that start at angle `a1` and follow one another with the sweeps
`p / 100 * 360` of the percentages `p`: their start and end angles. -/
def arcSpans (a1 : ℚ) : List ℚ → List (ℚ × ℚ)
  | [] => []
  | p :: ps => (a1, a1 + (p / 100) * 360) :: arcSpans (a1 + (p / 100) * 360) ps

/-- The arcs that start at angle `a1` and follow one another, each ending at
the rounded sum of its start and its rounded sweep `p / 100 * 360`. -/
def arcSpansWith (r : ℚ → ℚ) (a1 : ℚ) : List ℚ → List (ℚ × ℚ)
  | [] => []
  | p :: ps =>
    (a1, r (a1 + r (r (p / 100) * 360)))
      :: arcSpansWith r (r (a1 + r (r (p / 100) * 360))) ps

/-- The exact results of the operations of `pct` and of the angle arithmetic
of `Donut` on the records `data`: the running sums of the values, the
quotients, the percentages, the sweeps and the end angles of the arcs. -/
def donutOps (data : List NameValue) : List ℚ :=
  prefixSums (data.map (fun d => d.Value))
    ++ data.map (fun d => d.Value / (data.map (fun d => d.Value)).sum)
    ++ pct data
    ++ (pct data).map (fun p => p / 100)
    ++ (pct data).map (fun p => (p / 100) * 360)
    ++ (arcSpans 0 (pct data)).map Prod.snd

/-- The chart of the end-to-end scenario: records A = 10, B = 20, C = 30 in the
box left = 0, right = 100, top = 100, bottom = 0, zero-based, with the other
fields as `ReadTSV` fills them in. -/
def chart3 : ChartBox where
  Data := [⟨"A", "", 10⟩, ⟨"B", "", 20⟩, ⟨"C", "", 30⟩]
  Title := ""
  DataFormat := "%.1f"
  DataColor := "rgb(128,128,128)"
  LabelColor := "rgb(75,75,75)"
  ValueColor := "rgb(128,0,0)"
  Opacity := 100
  TextSize := 12 / 10
  Top := 100
  Bottom := 0
  Left := 0
  Right := 100
  Minvalue := 10
  Maxvalue := 30
  Zerobased := true

/-- The records of `chart3` with the notes red, green and blue. -/
def chartColors : ChartBox :=
  { chart3 with Data := [⟨"A", "red", 10⟩, ⟨"B", "green", 20⟩, ⟨"C", "blue", 30⟩] }

/-- A chart with the records A = 50 and B = 50. -/
def chartHalves : ChartBox :=
  { chart3 with Data := [⟨"A", "", 50⟩, ⟨"B", "", 50⟩] }

/-- A chart with the records A = 29 (red) and B = 71 (blue). -/
def chartShares : ChartBox :=
  { chart3 with Data := [⟨"A", "red", 29⟩, ⟨"B", "blue", 71⟩] }

/-- A chart with the records A = 3 and B = −1, whose values have the sum 2. -/
def chartMixed : ChartBox :=
  { chart3 with Data := [⟨"A", "", 3⟩, ⟨"B", "", -1⟩] }

/-- A stand-in for the standard library, for evaluating the renderers on
concrete charts: a rational value for π, constant cosine and sine, a
`Sprintf` that returns its format, and the values of `Log10`, `Split` and
`ParseFloat` on the few arguments the examples use. -/
def exampleLib : Lib where
  Pi := 22 / 7
  Cos := fun _ => 1
  Sin := fun _ => 0
  Sprintf := fun format _ => format
  Log10 := fun q =>
    if q = 1 / 2 then -30103 / 100000 else if q = 30 then 147712 / 100000 else 0
  Split := fun s _ =>
    if s = "0,10,red" then ["0", "10", "red"] else if s = "0,x,red" then ["0", "x", "red"]
    else if s = "A\t10" then ["A", "10"] else if s = "B\tx" then ["B", "x"]
    else if s = "C\t-5\tred" then ["C", "-5", "red"] else if s = "a\tNaN" then ["a", "NaN"]
    else [s]
  ParseFloat := fun s =>
    if s = "0" then Except.ok 0 else if s = "10" then Except.ok 10
    else Except.error "invalid syntax"
  TrimSpace := fun s => s.trim
  ParseFloat64 := fun s =>
    if s = "10" then Except.ok (FloatVal.num 10)
    else if s = "-5" then Except.ok (FloatVal.num (-5))
    else if s = "NaN" then Except.ok FloatVal.nan
    else Except.error "invalid syntax"

/-! ## Float64 rounding -/

/-- The zero of `float64` is exact. -/
theorem round64_zero : round64 0 = 0 := by
  simp [round64]

/-- The value of `round64` from the binade of its argument and the rounded
significand. -/
theorem round64_eq (q : ℚ) (e n : Int) (h1 : (2 : ℚ) ^ (e + 52) ≤ |q|)
    (h2 : |q| < (2 : ℚ) ^ (e + 53)) (hn : roundHalfEven (q / (2 : ℚ) ^ e) = n) :
    round64 q = (n : ℚ) * (2 : ℚ) ^ e := by
  have hpos : (0 : ℚ) < |q| := lt_of_lt_of_le (zpow_pos (by norm_num) _) h1
  have hq : q ≠ 0 := abs_pos.mp hpos
  have hlog : Int.log 2 |q| = e + 52 := by
    apply le_antisymm
    · have := (Int.lt_zpow_iff_log_lt (b := 2) (by norm_num) hpos (x := e + 53)).mp
        (by exact_mod_cast h2)
      omega
    · exact (Int.zpow_le_iff_le_log (b := 2) (by norm_num) hpos).mp (by exact_mod_cast h1)
  unfold round64
  rw [if_neg hq]
  simp only [hlog]
  rw [show e + 52 - 52 = e by ring, hn]

/-- The value of `round64` at a positive argument. -/
theorem round64_pos (q : ℚ) (e n : Int) (h1 : (2 : ℚ) ^ (e + 52) ≤ q)
    (h2 : q < (2 : ℚ) ^ (e + 53)) (hn : roundHalfEven (q / (2 : ℚ) ^ e) = n) :
    round64 q = (n : ℚ) * (2 : ℚ) ^ e := by
  have hpos : (0 : ℚ) < q := lt_of_lt_of_le (zpow_pos (by norm_num) _) h1
  exact round64_eq q e n (by rwa [abs_of_pos hpos]) (by rwa [abs_of_pos hpos]) hn

/-- A whole number is its own nearest integer. -/
theorem roundHalfEven_intCast (z : Int) : roundHalfEven (z : ℚ) = z := by
  simp [roundHalfEven]

/-- The natural numbers below 2^53 are `float64` values: rounding leaves them
as they are. -/
theorem round64_natCast (n : Nat) (h : n < 2 ^ 53) : round64 (n : ℚ) = (n : ℚ) := by
  by_cases h0 : n = 0
  · subst h0
    simp [round64]
  have hL : Nat.log 2 n < 53 := Nat.log_lt_of_lt_pow h0 h
  have h1 : 2 ^ Nat.log 2 n ≤ n := Nat.pow_log_le_self 2 h0
  have h2 : n < 2 ^ (Nat.log 2 n + 1) := Nat.lt_pow_succ_log_self (by norm_num) n
  generalize Nat.log 2 n = L at hL h1 h2
  have e2 : (2 : ℚ) ^ ((L : Int) - 52) * (2 : ℚ) ^ (52 - L : Nat) = 1 := by
    rw [← zpow_natCast, ← zpow_add₀ (by norm_num)]
    have : ((L : Int) - 52) + ((52 - L : Nat) : Int) = 0 := by omega
    rw [this, zpow_zero]
  have hne : (2 : ℚ) ^ ((L : Int) - 52) ≠ 0 := zpow_ne_zero _ (by norm_num)
  have hdiv : (n : ℚ) / (2 : ℚ) ^ ((L : Int) - 52)
      = (((n * 2 ^ (52 - L) : Nat) : Int) : ℚ) := by
    rw [div_eq_iff hne]
    push_cast
    rw [mul_assoc, mul_comm ((2 : ℚ) ^ (52 - L)), e2, mul_one]
  have := round64_pos (n : ℚ) ((L : Int) - 52) ((n * 2 ^ (52 - L) : Nat) : Int)
    (by
      rw [show (L : Int) - 52 + 52 = (L : Int) by ring, zpow_natCast]
      exact_mod_cast h1)
    (by
      rw [show (L : Int) - 52 + 53 = ((L + 1 : Nat) : Int) by push_cast; ring, zpow_natCast]
      exact_mod_cast h2)
    (by rw [hdiv, roundHalfEven_intCast])
  rw [this]
  push_cast
  rw [mul_assoc, mul_comm ((2 : ℚ) ^ (52 - L)), e2, mul_one]

/-- The sum 2^53 + 1 lies halfway between the `float64` values 2^53 and
2^53 + 2 and rounds to the even one, 2^53. -/
theorem round64_absorb : round64 (2 ^ 53 + 1) = 2 ^ 53 := by
  rw [round64_pos (2 ^ 53 + 1) 1 (2 ^ 52) (by norm_num) (by norm_num)
    (by norm_num [roundHalfEven])]
  norm_num

/-! ## Range mapping -/

/-- The lower end of the source range is mapped to the lower end of the target. -/
theorem MapRange_low (low1 high1 low2 high2 : ℚ) :
    MapRange low1 low1 high1 low2 high2 = low2 := by
  simp [MapRange]

/-- The upper end of a non-degenerate source range is mapped to the upper end
of the target. -/
theorem MapRange_high (low1 high1 low2 high2 : ℚ) (h : low1 ≠ high1) :
    MapRange high1 low1 high1 low2 high2 = high2 := by
  have hd : high1 - low1 ≠ 0 := sub_ne_zero.mpr (Ne.symm h)
  unfold MapRange
  rw [mul_div_assoc, div_self hd]
  ring

/-- C1: for low1 ≠ high1, MapRange(v, low1, high1, low2, high2) is
low2 + (high2 − low2)·(v − low1)/(high1 − low1); it sends low1 to low2 and
high1 to high2, and MapRange(5, 0, 10, 0, 100) = 50. -/
theorem MapRange_affine (v low1 high1 low2 high2 : ℚ) (h : low1 ≠ high1) :
    MapRange v low1 high1 low2 high2
        = low2 + (high2 - low2) * (v - low1) / (high1 - low1)
      ∧ MapRange low1 low1 high1 low2 high2 = low2
      ∧ MapRange high1 low1 high1 low2 high2 = high2
      ∧ MapRange 5 0 10 0 100 = 50 := by
  exact ⟨rfl, MapRange_low low1 high1 low2 high2, MapRange_high low1 high1 low2 high2 h,
    by norm_num [MapRange]⟩

/-- Instance of C1 on the source range [2, 7] and the target range [10, 90]. -/
theorem MapRange_affine_witness :
    (2 : ℚ) ≠ 7 ∧
      (MapRange 3 2 7 10 90 = 10 + (90 - 10) * (3 - 2) / (7 - 2)
        ∧ MapRange 2 2 7 10 90 = 10
        ∧ MapRange 7 2 7 10 90 = 90
        ∧ MapRange 5 0 10 0 100 = 50) :=
  ⟨by norm_num, MapRange_affine 3 2 7 10 90 (by norm_num)⟩

/-- The difference of two mapped values is the scaled difference of the values. -/
theorem MapRange_sub (v w low1 high1 low2 high2 : ℚ) :
    MapRange w low1 high1 low2 high2 - MapRange v low1 high1 low2 high2
      = (high2 - low2) * (high1 - low1) * (w - v) / ((high1 - low1) * (high1 - low1)) := by
  unfold MapRange
  by_cases hd : high1 - low1 = 0
  · simp [hd]
  · field_simp
    ring

/-- C2: for low1 ≠ high1, MapRange is monotonic in its value argument:
non-decreasing when high2 − low2 and high1 − low1 have the same sign,
non-increasing when they have opposite signs; and for low1 < high1,
low2 ≤ high2 every v in [low1, high1] is mapped into [low2, high2]. -/
theorem MapRange_monotone (low1 high1 low2 high2 : ℚ) (h : low1 ≠ high1) :
    (0 ≤ (high2 - low2) * (high1 - low1) →
        ∀ v w : ℚ, v ≤ w →
          MapRange v low1 high1 low2 high2 ≤ MapRange w low1 high1 low2 high2)
      ∧ ((high2 - low2) * (high1 - low1) ≤ 0 →
        ∀ v w : ℚ, v ≤ w →
          MapRange v low1 high1 low2 high2 ≥ MapRange w low1 high1 low2 high2)
      ∧ (low1 < high1 → low2 ≤ high2 →
        ∀ v : ℚ, low1 ≤ v → v ≤ high1 →
          low2 ≤ MapRange v low1 high1 low2 high2
            ∧ MapRange v low1 high1 low2 high2 ≤ high2) := by
  have hd : high1 - low1 ≠ 0 := sub_ne_zero.mpr (Ne.symm h)
  have hsq : 0 < (high1 - low1) * (high1 - low1) := mul_self_pos.mpr hd
  have up : 0 ≤ (high2 - low2) * (high1 - low1) →
      ∀ v w : ℚ, v ≤ w →
        MapRange v low1 high1 low2 high2 ≤ MapRange w low1 high1 low2 high2 := by
    intro hs v w hvw
    have key := MapRange_sub v w low1 high1 low2 high2
    have hnum : 0 ≤ (high2 - low2) * (high1 - low1) * (w - v) :=
      mul_nonneg hs (sub_nonneg.mpr hvw)
    have : 0 ≤ MapRange w low1 high1 low2 high2 - MapRange v low1 high1 low2 high2 := by
      rw [key]
      exact div_nonneg hnum hsq.le
    linarith
  refine ⟨up, ?_, ?_⟩
  · intro hs v w hvw
    have key := MapRange_sub v w low1 high1 low2 high2
    have hnum : (high2 - low2) * (high1 - low1) * (w - v) ≤ 0 :=
      mul_nonpos_of_nonpos_of_nonneg hs (sub_nonneg.mpr hvw)
    have : MapRange w low1 high1 low2 high2 - MapRange v low1 high1 low2 high2 ≤ 0 := by
      rw [key]
      exact div_nonpos_of_nonpos_of_nonneg hnum hsq.le
    show MapRange w low1 high1 low2 high2 ≤ MapRange v low1 high1 low2 high2
    linarith
  · intro h1 h2 v hlo hhi
    have hs : 0 ≤ (high2 - low2) * (high1 - low1) :=
      mul_nonneg (sub_nonneg.mpr h2) (sub_nonneg.mpr h1.le)
    have a := up hs low1 v hlo
    have b := up hs v high1 hhi
    rw [MapRange_low] at a
    rw [MapRange_high low1 high1 low2 high2 h] at b
    exact ⟨a, b⟩

/-- Instance of C2 on the source range [0, 10] and the target range [0, 100]:
3 ≤ 4 are mapped in order and 5 stays inside the target range. -/
theorem MapRange_monotone_witness :
    (0 : ℚ) ≠ 10 ∧ MapRange 3 0 10 0 100 ≤ MapRange 4 0 10 0 100
      ∧ MapRange 4 10 0 0 100 ≤ MapRange 3 10 0 0 100
      ∧ (0 ≤ MapRange 5 0 10 0 100 ∧ MapRange 5 0 10 0 100 ≤ 100) :=
  ⟨by norm_num,
    (MapRange_monotone 0 10 0 100 (by norm_num)).1 (by norm_num) 3 4 (by norm_num),
    (MapRange_monotone 10 0 0 100 (by norm_num)).2.1 (by norm_num) 3 4 (by norm_num),
    (MapRange_monotone 0 10 0 100 (by norm_num)).2.2 (by norm_num) (by norm_num) 5
      (by norm_num) (by norm_num)⟩

/-! ## Conditional colour -/

/-- C3: for distinct colours, conditionalcolor(value, min, max, trueColor,
falseColor) is trueColor exactly when min ≤ value ≤ max (both bounds
inclusive) and falseColor otherwise; the three examples of the specification
hold. -/
theorem conditionalcolor_iff (value min max : ℚ) (trueColor falseColor : String)
    (h : trueColor ≠ falseColor) :
    (conditionalcolor value min max trueColor falseColor = trueColor
        ↔ min ≤ value ∧ value ≤ max)
      ∧ (¬ (min ≤ value ∧ value ≤ max) →
          conditionalcolor value min max trueColor falseColor = falseColor)
      ∧ conditionalcolor 10 10 20 trueColor falseColor = trueColor
      ∧ conditionalcolor 20 10 20 trueColor falseColor = trueColor
      ∧ conditionalcolor (9999 / 1000) 10 20 trueColor falseColor = falseColor := by
  refine ⟨?_, ?_, ?_, ?_, ?_⟩
  · unfold conditionalcolor
    by_cases hc : value ≤ max ∧ value ≥ min
    · simp only [if_pos hc, true_iff]
      exact ⟨hc.2, hc.1⟩
    · simp only [if_neg hc]
      constructor
      · intro e
        exact absurd e.symm h
      · intro hm
        exact absurd ⟨hm.2, hm.1⟩ hc
  · intro hn
    unfold conditionalcolor
    rw [if_neg]
    intro hc
    exact hn ⟨hc.2, hc.1⟩
  · norm_num [conditionalcolor]
  · norm_num [conditionalcolor]
  · norm_num [conditionalcolor]

/-- Instance of C3 with the colours "A" and "B" and the window [10, 20]. -/
theorem conditionalcolor_iff_witness :
    "A" ≠ "B" ∧ conditionalcolor 10 10 20 "A" "B" = "A"
      ∧ conditionalcolor 20 10 20 "A" "B" = "A"
      ∧ conditionalcolor (9999 / 1000) 10 20 "A" "B" = "B" :=
  ⟨by decide, (conditionalcolor_iff 0 10 20 "A" "B" (by decide)).2.2⟩

/-! ## Bar -/

/-- A loop that appends one draw call per element appends the mapped list. -/
theorem foldl_append_singleton {α : Type} (f : α → Prim) (l : List α) (deck : Deck) :
    l.foldl (fun deck a => deck ++ [f a]) deck = deck ++ l.map f := by
  induction l generalizing deck with
  | nil => simp
  | cons a l ih => simp [ih]

/-- The deck after `Bar`: the deck before it, then one line per record. -/
theorem Bar_eq (c : ChartBox) (deck : Deck) (size : ℚ) :
    Bar c deck size
      = deck ++ c.Data.enum.map (fun id =>
          Prim.line
            (MapRange (id.1 : ℚ) 0 (((c.Data.length : Int) - 1 : Int) : ℚ) c.Left c.Right)
            c.Bottom
            (MapRange (id.1 : ℚ) 0 (((c.Data.length : Int) - 1 : Int) : ℚ) c.Left c.Right)
            (MapRange id.2.Value (zerobase c.Zerobased c.Minvalue) c.Maxvalue c.Bottom c.Top)
            size c.DataColor [c.Opacity]) := by
  unfold Bar
  simp only [Deck.Line]
  exact foldl_append_singleton _ _ _

/-- The draw call `Bar` makes for record `i`. -/
theorem Bar_getElem (c : ChartBox) (deck : Deck) (size : ℚ) (i : Nat) (d : NameValue)
    (hd : c.Data[i]? = some d) :
    (Bar c deck size)[deck.length + i]?
      = some (Prim.line
          (MapRange (i : ℚ) 0 (((c.Data.length : Int) - 1 : Int) : ℚ) c.Left c.Right)
          c.Bottom
          (MapRange (i : ℚ) 0 (((c.Data.length : Int) - 1 : Int) : ℚ) c.Left c.Right)
          (MapRange d.Value (zerobase c.Zerobased c.Minvalue) c.Maxvalue c.Bottom c.Top)
          size c.DataColor [c.Opacity]) := by
  rw [Bar_eq, List.getElem?_append_right (Nat.le_add_right _ _)]
  simp [List.getElem?_enum, hd]

/-- C4: for a chart with n ≥ 2 records and Maxvalue ≠ effectiveMin, Bar adds
exactly n draw calls to the deck, all of them lines, in record order; the
i-th is the vertical line from (x_i, Bottom) to (x_i, y_i) with
x_i = Left + (Right − Left)·i/(n − 1) and
y_i = Bottom + (Top − Bottom)·(value_i − effectiveMin)/(Maxvalue − effectiveMin),
drawn with the given size, DataColor and Opacity. -/
theorem Bar_lines (c : ChartBox) (deck : Deck) (size : ℚ)
    (_hn : 2 ≤ c.Data.length)
    (_hr : c.Maxvalue ≠ (if c.Zerobased then 0 else c.Minvalue)) :
    ∃ out : Deck, Bar c deck size = deck ++ out ∧ out.length = c.Data.length ∧
      ∀ (i : Nat) (d : NameValue), c.Data[i]? = some d →
        out[i]? = some (Prim.line
          (c.Left + (c.Right - c.Left) * (i : ℚ) / ((c.Data.length : ℚ) - 1))
          c.Bottom
          (c.Left + (c.Right - c.Left) * (i : ℚ) / ((c.Data.length : ℚ) - 1))
          (c.Bottom + (c.Top - c.Bottom) * (d.Value - (if c.Zerobased then 0 else c.Minvalue))
            / (c.Maxvalue - (if c.Zerobased then 0 else c.Minvalue)))
          size c.DataColor [c.Opacity]) := by
  refine ⟨_, Bar_eq c deck size, by simp, ?_⟩
  intro i d hd
  have h := Bar_getElem c deck size i d hd
  rw [Bar_eq, List.getElem?_append_right (Nat.le_add_right _ _)] at h
  simp only [Nat.add_sub_cancel_left] at h
  rw [h]
  simp only [MapRange, zerobase, sub_zero]
  push_cast
  rfl

/-- The end-to-end scenario, an instance of C4: on `chart3` Bar emits exactly
three lines, at x = 0, 50, 100, rising from 0 to y = 100/3, 200/3, 100. -/
theorem Bar_lines_witness :
    2 ≤ chart3.Data.length
      ∧ chart3.Maxvalue ≠ (if chart3.Zerobased then 0 else chart3.Minvalue)
      ∧ Bar chart3 [] 1 =
        [ Prim.line 0 0 0 (100 / 3) 1 "rgb(128,128,128)" [100],
          Prim.line 50 0 50 (200 / 3) 1 "rgb(128,128,128)" [100],
          Prim.line 100 0 100 100 1 "rgb(128,128,128)" [100] ] := by
  have hn : 2 ≤ chart3.Data.length := by decide
  have hr : chart3.Maxvalue ≠ (if chart3.Zerobased then 0 else chart3.Minvalue) := by
    norm_num [chart3]
  refine ⟨hn, hr, ?_⟩
  obtain ⟨out, h1, h2, h3⟩ := Bar_lines chart3 [] 1 hn hr
  have e0 := h3 0 ⟨"A", "", 10⟩ rfl
  have e1 := h3 1 ⟨"B", "", 20⟩ rfl
  have e2 := h3 2 ⟨"C", "", 30⟩ rfl
  rw [h1]
  match out, h2, e0, e1, e2 with
  | [a, b, c], _, e0, e1, e2 =>
    simp only [List.getElem?_cons_zero, List.getElem?_cons_succ, Option.some.injEq] at e0 e1 e2
    subst e0 e1 e2
    norm_num [chart3]

/-! ## Zero-basing -/

/-- C5: zerobase(true, m) = 0 and zerobase(false, m) = m; Bar maps every value
over the source range [zerobase(Zerobased, Minvalue), Maxvalue]; and for a
chart with 0 < Minvalue < Maxvalue and Top ≠ Bottom the bar of a record whose
value is Minvalue ends at y = Bottom when Zerobased is false and at
y = Bottom + (Top − Bottom)·Minvalue/Maxvalue when Zerobased is true, two
different heights. -/
theorem Bar_zerobase (c : ChartBox) (deck : Deck) (size m : ℚ) (i : Nat) (d : NameValue)
    (hd : c.Data[i]? = some d) (hv : d.Value = c.Minvalue)
    (h0 : 0 < c.Minvalue) (h1 : c.Minvalue < c.Maxvalue) (htb : c.Top ≠ c.Bottom) :
    (zerobase true m = 0 ∧ zerobase false m = m)
      ∧ (∀ (j : Nat) (dj : NameValue), c.Data[j]? = some dj →
          ∃ x : ℚ, (Bar c deck size)[deck.length + j]?
            = some (Prim.line x c.Bottom x
                (MapRange dj.Value (zerobase c.Zerobased c.Minvalue) c.Maxvalue
                  c.Bottom c.Top)
                size c.DataColor [c.Opacity]))
      ∧ (∃ x : ℚ, (Bar { c with Zerobased := false } deck size)[deck.length + i]?
            = some (Prim.line x c.Bottom x c.Bottom size c.DataColor [c.Opacity]))
      ∧ (∃ x : ℚ, (Bar { c with Zerobased := true } deck size)[deck.length + i]?
            = some (Prim.line x c.Bottom x
                (c.Bottom + (c.Top - c.Bottom) * c.Minvalue / c.Maxvalue)
                size c.DataColor [c.Opacity]))
      ∧ c.Bottom ≠ c.Bottom + (c.Top - c.Bottom) * c.Minvalue / c.Maxvalue := by
  have hmax : c.Maxvalue ≠ 0 := (lt_trans h0 h1).ne.symm
  refine ⟨⟨rfl, rfl⟩, ?_, ?_, ?_, ?_⟩
  · intro j dj hj
    exact ⟨_, Bar_getElem c deck size j dj hj⟩
  · refine ⟨MapRange (i : ℚ) 0 (((c.Data.length : Int) - 1 : Int) : ℚ) c.Left c.Right, ?_⟩
    rw [Bar_getElem { c with Zerobased := false } deck size i d hd]
    simp [MapRange, zerobase, hv]
  · refine ⟨MapRange (i : ℚ) 0 (((c.Data.length : Int) - 1 : Int) : ℚ) c.Left c.Right, ?_⟩
    rw [Bar_getElem { c with Zerobased := true } deck size i d hd]
    simp [MapRange, zerobase, hv]
  · intro e
    have hz : (c.Top - c.Bottom) * c.Minvalue / c.Maxvalue = 0 := by linarith
    rcases div_eq_zero_iff.mp hz with hz | hz
    · rcases mul_eq_zero.mp hz with hz | hz
      · exact htb (sub_eq_zero.mp hz)
      · exact h0.ne.symm hz
    · exact hmax hz

/-- Instance of C5 on the records 10, 20, 30 with Minvalue = 10 and
Maxvalue = 30 in the box bottom = 0, top = 100: the lowest bar ends at y = 0
over the range [10, 30] and at y = 100/3 over the range [0, 30]. -/
theorem Bar_zerobase_witness :
    (∃ x : ℚ, (Bar { chart3 with Zerobased := false } [] 1)[0]?
        = some (Prim.line x 0 x 0 1 "rgb(128,128,128)" [100]))
      ∧ (∃ x : ℚ, (Bar { chart3 with Zerobased := true } [] 1)[0]?
        = some (Prim.line x 0 x (0 + (100 - 0) * 10 / 30) 1 "rgb(128,128,128)" [100]))
      ∧ (0 : ℚ) ≠ 0 + (100 - 0) * 10 / 30 :=
  (Bar_zerobase chart3 [] 1 0 0 ⟨"A", "", 10⟩ rfl rfl
    (by norm_num [chart3]) (by norm_num [chart3]) (by norm_num [chart3])).2.2

/-! ## Percentages -/

/-- The running sum of the record values is the start value plus their sum. -/
theorem foldl_add_Value (data : List NameValue) (s : ℚ) :
    data.foldl (fun sum d => sum + d.Value) s = s + (data.map (fun d => d.Value)).sum := by
  induction data generalizing s with
  | nil => simp
  | cons d data ih => simp [ih, add_assoc]

/-- Scaling every value by the same factor scales the sum. -/
theorem sum_map_scale (data : List NameValue) (s : ℚ) :
    (data.map (fun d => (d.Value / s) * 100)).sum
      = (data.map (fun d => d.Value)).sum / s * 100 := by
  induction data with
  | nil => simp
  | cons d data ih =>
    simp only [List.map_cons, List.sum_cons, ih]
    ring

/-- The percentages, written with the sum of the values. -/
theorem pct_eq (data : List NameValue) :
    pct data
      = data.map (fun d => (d.Value / (data.map (fun d => d.Value)).sum) * 100) := by
  simp [pct, foldl_add_Value]

/-- The percentages of a record list with non-zero value sum add up to 100. -/
theorem pct_sum_of_ne (data : List NameValue)
    (hs : (data.map (fun d => d.Value)).sum ≠ 0) : (pct data).sum = 100 := by
  rw [pct_eq, sum_map_scale, div_self hs]
  norm_num

/-- C6: for a non-empty record list whose values have a positive sum, pct
returns a list of the same length whose i-th entry is
value_i / sum(values) · 100, and the entries add up to exactly 100. -/
theorem pct_sum (data : List NameValue) (_hne : data ≠ [])
    (hpos : 0 < (data.map (fun d => d.Value)).sum) :
    (pct data).length = data.length
      ∧ (∀ (i : Nat) (d : NameValue), data[i]? = some d →
          (pct data)[i]? = some (d.Value / (data.map (fun d => d.Value)).sum * 100))
      ∧ (pct data).sum = 100 := by
  refine ⟨by simp [pct], ?_, pct_sum_of_ne data hpos.ne.symm⟩
  intro i d hd
  rw [pct_eq]
  simp [hd]

/-- Instance of C6 on the records 10, 20, 30 of `chart3`: the percentages are
100/6, 200/6 and 300/6 and add up to 100. -/
theorem pct_sum_witness :
    (pct chart3.Data).length = 3
      ∧ (pct chart3.Data)[1]? = some (20 / 60 * 100)
      ∧ (pct chart3.Data).sum = 100 := by
  have h := pct_sum chart3.Data (by simp [chart3]) (by norm_num [chart3])
  refine ⟨h.1, ?_, h.2.2⟩
  have e := h.2.1 1 ⟨"B", "", 20⟩ rfl
  rw [e]
  norm_num [chart3]

/-! ## Regression -/

/-- The running sum of a list is the start value plus its sum. -/
theorem foldl_add_eq (x : List ℚ) (s : ℚ) :
    x.foldl (fun sum xi => sum + xi) s = s + x.sum := by
  induction x generalizing s with
  | nil => simp
  | cons a x ih => simp [ih, add_assoc]

/-- The mean is the sum over the length. -/
theorem mean_eq (x : List ℚ) : mean x = x.sum / (x.length : ℚ) := by
  simp [mean, foldl_add_eq]

/-- The sum of the values of a line over `x`. -/
theorem sum_line (a c : ℚ) (x : List ℚ) :
    (x.map (fun xi => a * xi + c)).sum = a * x.sum + c * (x.length : ℚ) := by
  induction x with
  | nil => simp
  | cons u x ih =>
    simp only [List.map_cons, List.sum_cons, List.length_cons, ih]
    push_cast
    ring

/-- The sum of the products of `x` with the values of a line over `x`. -/
theorem sum_zipWith_line (a c : ℚ) (x : List ℚ) :
    (List.zipWith (fun xi yi => xi * yi) x (x.map (fun xi => a * xi + c))).sum
      = a * (x.map (fun xi => xi * xi)).sum + c * x.sum := by
  induction x with
  | nil => simp
  | cons u x ih =>
    simp only [List.map_cons, List.zipWith_cons_cons, List.sum_cons, ih]
    ring

/-- The sum of the squared deviations from `t / n`, scaled by `n²`. -/
theorem sum_sq_dev (n t : ℚ) (x : List ℚ) :
    (x.map (fun xi => (n * xi - t) * (n * xi - t))).sum
      = n * n * (x.map (fun xi => xi * xi)).sum - 2 * n * t * x.sum
        + (x.length : ℚ) * (t * t) := by
  induction x with
  | nil => simp
  | cons u x ih =>
    simp only [List.map_cons, List.sum_cons, List.length_cons, ih]
    push_cast
    ring

/-- A list of non-negative numbers with sum zero holds only zeros. -/
theorem eq_zero_of_sum_eq_zero (l : List ℚ) (hnn : ∀ q ∈ l, 0 ≤ q) (hs : l.sum = 0) :
    ∀ q ∈ l, q = 0 := by
  induction l with
  | nil => simp
  | cons u l ih =>
    have hu : 0 ≤ u := hnn u (List.mem_cons_self u l)
    have hl : ∀ q ∈ l, 0 ≤ q := fun q hq => hnn q (List.mem_cons_of_mem u hq)
    have hsum : 0 ≤ l.sum := List.sum_nonneg hl
    rw [List.sum_cons] at hs
    have hu0 : u = 0 := by linarith
    have hl0 : l.sum = 0 := by linarith
    intro q hq
    rcases List.mem_cons.mp hq with h | h
    · rw [h, hu0]
    · exact ih hl hl0 q h

/-- The run of the regression is non-zero when the entries of `x` are not all
equal. -/
theorem run_ne_zero (x : List ℚ) (hx : ∃ u ∈ x, ∃ v ∈ x, u ≠ v) :
    mean (x.map (fun xi => xi * xi)) ≠ mean x * mean x := by
  obtain ⟨u, hu, v, hv, huv⟩ := hx
  have hlen : 0 < x.length := List.length_pos_of_mem hu
  have hn : (x.length : ℚ) ≠ 0 := by exact_mod_cast hlen.ne.symm
  intro e
  rw [mean_eq, mean_eq, List.length_map] at e
  have e2 : (x.length : ℚ) * (x.map (fun xi => xi * xi)).sum = x.sum * x.sum := by
    field_simp at e
    have e3 : ((x.length : ℚ) * (x.map (fun xi => xi * xi)).sum) * (x.length : ℚ)
        = (x.sum * x.sum) * (x.length : ℚ) := by linarith
    exact mul_right_cancel₀ hn e3
  have hdev := sum_sq_dev (x.length : ℚ) x.sum x
  have hzero : (x.map (fun xi => ((x.length : ℚ) * xi - x.sum)
      * ((x.length : ℚ) * xi - x.sum))).sum = 0 := by
    rw [hdev]
    linear_combination (x.length : ℚ) * e2
  have hall := eq_zero_of_sum_eq_zero _
    (by
      intro q hq
      obtain ⟨w, _, rfl⟩ := List.mem_map.mp hq
      exact mul_self_nonneg _) hzero
  have key : ∀ w ∈ x, (x.length : ℚ) * w = x.sum := by
    intro w hw
    have := hall _ (List.mem_map.mpr ⟨w, hw, rfl⟩)
    have := mul_self_eq_zero.mp this
    linarith
  have := key u hu
  have := key v hv
  apply huv
  have h3 : (x.length : ℚ) * u = (x.length : ℚ) * v := by linarith
  exact mul_left_cancel₀ hn h3

/-- In exact arithmetic the regression of points on a line gives the line
back. -/
theorem dataslope_line (a c : ℚ) (x y : List ℚ) (_hn : 2 ≤ x.length)
    (hx : ∃ u ∈ x, ∃ v ∈ x, u ≠ v) (hy : y = x.map (fun xi => a * xi + c)) :
    mean (x.map (fun xi => xi * xi)) ≠ mean x * mean x
      ∧ dataslope x y
        = some ((mean (List.zipWith (fun xi yi => xi * yi) x y) - mean x * mean y)
              / (mean (x.map (fun xi => xi * xi)) - mean x * mean x),
            mean y
              - (mean (List.zipWith (fun xi yi => xi * yi) x y) - mean x * mean y)
                / (mean (x.map (fun xi => xi * xi)) - mean x * mean x) * mean x)
      ∧ dataslope x y = some (a, c) := by
  have hrun := run_ne_zero x hx
  obtain ⟨u, hu, -⟩ := hx
  have hlen : 0 < x.length := List.length_pos_of_mem hu
  have hnz : (x.length : ℚ) ≠ 0 := by exact_mod_cast hlen.ne.symm
  have hylen : y.length = x.length := by rw [hy, List.length_map]
  have hdef : dataslope x y
      = some ((mean (List.zipWith (fun xi yi => xi * yi) x y) - mean x * mean y)
            / (mean (x.map (fun xi => xi * xi)) - mean x * mean x),
          mean y
            - (mean (List.zipWith (fun xi yi => xi * yi) x y) - mean x * mean y)
              / (mean (x.map (fun xi => xi * xi)) - mean x * mean x) * mean x) := by
    unfold dataslope
    rw [if_neg (by omega)]
  refine ⟨hrun, hdef, ?_⟩
  have hmy : mean y = a * mean x + c := by
    rw [mean_eq, mean_eq, hy, sum_line, List.length_map]
    field_simp
  have hmxy : mean (List.zipWith (fun xi yi => xi * yi) x y)
      = a * mean (x.map (fun xi => xi * xi)) + c * mean x := by
    rw [mean_eq, mean_eq, mean_eq, hy, sum_zipWith_line]
    simp only [List.length_zipWith, List.length_map, min_self]
    field_simp
  have hd : mean (x.map (fun xi => xi * xi)) - mean x * mean x ≠ 0 := sub_ne_zero.mpr hrun
  have hm : (mean (List.zipWith (fun xi yi => xi * yi) x y) - mean x * mean y)
      / (mean (x.map (fun xi => xi * xi)) - mean x * mean x) = a := by
    rw [div_eq_iff hd, hmxy, hmy]
    ring
  rw [hdef, hm, hmy]
  congr 2
  ring

/-- A summing loop whose running sums are not changed by the rounding ends
with the exact sum. -/
theorem foldl_round (r : ℚ → ℚ) (x : List ℚ) :
    ∀ acc : ℚ, (∀ k : Nat, k < x.length →
        r (acc + (x.take (k + 1)).sum) = acc + (x.take (k + 1)).sum) →
      x.foldl (fun s xi => r (s + xi)) acc = acc + x.sum := by
  induction x with
  | nil =>
    intro acc _
    simp
  | cons a x ih =>
    intro acc h
    have h0 := h 0 (by simp)
    simp only [List.take_succ_cons, List.take_zero, List.sum_cons, List.sum_nil,
      add_zero] at h0
    simp only [List.foldl_cons, h0]
    rw [ih (acc + a) (fun k hk => by
      have := h (k + 1) (by simpa using hk)
      simpa only [List.take_succ_cons, List.sum_cons, add_assoc] using this)]
    simp only [List.sum_cons, add_assoc]

/-- The mean is exact when the rounding changes none of its operations. -/
theorem meanWith_exact (r : ℚ → ℚ) (x : List ℚ) (h : ∀ q ∈ meanOps x, r q = q) :
    meanWith r x = mean x := by
  have hsum : x.foldl (fun s xi => r (s + xi)) 0 = x.sum := by
    rw [foldl_round r x 0 (fun k hk => by
      rw [zero_add]
      exact h _ (List.mem_append_left _
        (List.mem_map.mpr ⟨k, List.mem_range.mpr hk, rfl⟩))), zero_add]
  unfold meanWith
  simp only [hsum]
  rw [h _ (List.mem_append_right _ (List.mem_singleton_self _)), mean_eq]

/-- Rounded products that the rounding does not change are the products. -/
theorem zipWith_round (r : ℚ → ℚ) (x : List ℚ) :
    ∀ y : List ℚ, (∀ q ∈ List.zipWith (fun xi yi => xi * yi) x y, r q = q) →
      List.zipWith (fun xi yi => r (xi * yi)) x y
        = List.zipWith (fun xi yi => xi * yi) x y := by
  induction x with
  | nil =>
    intro y _
    rfl
  | cons a x ih =>
    intro y h
    cases y with
    | nil => rfl
    | cons b y =>
      simp only [List.zipWith_cons_cons] at h ⊢
      rw [h (a * b) (List.mem_cons_self _ _),
        ih y (fun q hq => h q (List.mem_cons_of_mem _ hq))]

/-- Rounded squares that the rounding does not change are the squares. -/
theorem map_sq_round (r : ℚ → ℚ) (x : List ℚ)
    (h : ∀ q ∈ x.map (fun xi => xi * xi), r q = q) :
    x.map (fun xi => r (xi * xi)) = x.map (fun xi => xi * xi) := by
  induction x with
  | nil => rfl
  | cons a x ih =>
    simp only [List.map_cons] at h ⊢
    rw [h (a * a) (List.mem_cons_self _ _), ih (fun q hq => h q (List.mem_cons_of_mem _ hq))]

/-- When the rounding changes none of the operations of `dataslope`, the
rounded computation is the exact one. -/
theorem dataslopeWith_exact (r : ℚ → ℚ) (x y : List ℚ)
    (h : ∀ q ∈ dataslopeOps x y, r q = q) : dataslopeWith r x y = dataslope x y := by
  have hxy := zipWith_round r x y (fun q hq => h q (by simp [dataslopeOps, hq]))
  have hsq := map_sq_round r x (fun q hq => h q (by
    simp only [dataslopeOps, List.mem_append]
    exact Or.inl (Or.inl (Or.inl (Or.inl (Or.inl (Or.inr hq)))))))
  have m1 := meanWith_exact r (List.zipWith (fun xi yi => xi * yi) x y) (fun q hq => h q (by
    simp only [dataslopeOps, List.mem_append]
    exact Or.inl (Or.inl (Or.inl (Or.inl (Or.inr hq))))))
  have m2 := meanWith_exact r x (fun q hq => h q (by
    simp only [dataslopeOps, List.mem_append]
    exact Or.inl (Or.inl (Or.inl (Or.inr hq)))))
  have m3 := meanWith_exact r y (fun q hq => h q (by
    simp only [dataslopeOps, List.mem_append]
    exact Or.inl (Or.inl (Or.inr hq))))
  have m4 := meanWith_exact r (x.map (fun xi => xi * xi)) (fun q hq => h q (by
    simp only [dataslopeOps, List.mem_append]
    exact Or.inl (Or.inr hq)))
  have e1 := h (mean x * mean y) (by simp [dataslopeOps])
  have e2 := h (mean (List.zipWith (fun xi yi => xi * yi) x y) - mean x * mean y)
    (by simp [dataslopeOps])
  have e3 := h (mean x * mean x) (by simp [dataslopeOps])
  have e4 := h (mean (x.map (fun xi => xi * xi)) - mean x * mean x) (by simp [dataslopeOps])
  have e5 := h ((mean (List.zipWith (fun xi yi => xi * yi) x y) - mean x * mean y)
    / (mean (x.map (fun xi => xi * xi)) - mean x * mean x)) (by simp [dataslopeOps])
  have e6 := h ((mean (List.zipWith (fun xi yi => xi * yi) x y) - mean x * mean y)
    / (mean (x.map (fun xi => xi * xi)) - mean x * mean x) * mean x) (by simp [dataslopeOps])
  have e7 := h (mean y - (mean (List.zipWith (fun xi yi => xi * yi) x y) - mean x * mean y)
    / (mean (x.map (fun xi => xi * xi)) - mean x * mean x) * mean x) (by simp [dataslopeOps])
  unfold dataslopeWith dataslope
  simp only [hxy, hsq, m1, m2, m3, m4, e1, e2, e3, e4, e5, e6, e7]

/-- C7 as the code has it: dataslope computes
m = (mean(xy) − mean(x)·mean(y)) / (mean(x²) − mean(x)²) and
b = mean(y) − m·mean(x) in float64 arithmetic.  For all a and c and every
list x of length n ≥ 2 whose entries are not all equal, if y_i = a·x_i + c
for every i and no operation of the computation rounds (the exact result of
every product, running sum, quotient and difference is left as it is, as in
exact arithmetic), then mean(x²) ≠ mean(x)² and dataslope(x, y) returns
exactly (a, c). -/
theorem dataslope_recovers (r : ℚ → ℚ) (a c : ℚ) (x y : List ℚ) (_hn : 2 ≤ x.length)
    (hx : ∃ u ∈ x, ∃ v ∈ x, u ≠ v) (hy : y = x.map (fun xi => a * xi + c))
    (hr : ∀ q ∈ dataslopeOps x y, r q = q) :
    mean (x.map (fun xi => xi * xi)) ≠ mean x * mean x
      ∧ dataslopeWith r x y
        = some ((mean (List.zipWith (fun xi yi => xi * yi) x y) - mean x * mean y)
              / (mean (x.map (fun xi => xi * xi)) - mean x * mean x),
            mean y
              - (mean (List.zipWith (fun xi yi => xi * yi) x y) - mean x * mean y)
                / (mean (x.map (fun xi => xi * xi)) - mean x * mean x) * mean x)
      ∧ dataslopeWith r x y = some (a, c) := by
  rw [dataslopeWith_exact r x y hr]
  exact dataslope_line a c x y _hn hx hy

/-- Instance of the amended C7 in float64 arithmetic: for the points (0, 3)
and (1, 5) of y = 2x + 3 no operation rounds, and dataslope gives back m = 2
and b = 3. -/
theorem dataslope_recovers_witness :
    dataslopeWith round64 [0, 1] [3, 5] = some (2, 3) := by
  have r0 : round64 0 = 0 := round64_zero
  have r1 : round64 1 = 1 := by simpa using round64_natCast 1 (by norm_num)
  have r2 : round64 2 = 2 := by simpa using round64_natCast 2 (by norm_num)
  have r3 : round64 3 = 3 := by simpa using round64_natCast 3 (by norm_num)
  have r4 : round64 4 = 4 := by simpa using round64_natCast 4 (by norm_num)
  have r5 : round64 5 = 5 := by simpa using round64_natCast 5 (by norm_num)
  have r8 : round64 8 = 8 := by simpa using round64_natCast 8 (by norm_num)
  have rh : round64 (1 / 2) = 1 / 2 := by
    rw [round64_pos (1 / 2) (-53) 4503599627370496 (by norm_num) (by norm_num)
      (by norm_num [roundHalfEven])]
    norm_num
  have rq : round64 (1 / 4) = 1 / 4 := by
    rw [round64_pos (1 / 4) (-54) 4503599627370496 (by norm_num) (by norm_num)
      (by norm_num [roundHalfEven])]
    norm_num
  have r52 : round64 (5 / 2) = 5 / 2 := by
    rw [round64_pos (5 / 2) (-51) 5629499534213120 (by norm_num) (by norm_num)
      (by norm_num [roundHalfEven])]
    norm_num
  have hops : ∀ q ∈ dataslopeOps [0, 1] [3, 5], round64 q = q := by
    intro q hq
    simp only [dataslopeOps, meanOps, prefixSums, mean, List.zipWith, List.map, List.foldl,
      List.length, List.range, List.range.loop, List.take, List.sum_cons, List.sum_nil,
      List.mem_append, List.mem_cons, List.mem_singleton, List.not_mem_nil] at hq
    norm_num at hq
    repeat' (rcases hq with hq | hq)
    all_goals
      first
        | exact r0 | exact r1 | exact r2 | exact r3 | exact r4 | exact r5 | exact r8
        | exact rh | exact rq | exact r52
  exact (dataslope_recovers round64 2 3 [0, 1] [3, 5] (by decide)
    ⟨0, by simp, 1, by simp, by norm_num⟩ (by norm_num) hops).2.2

/-- C7 fails in float64 arithmetic for the points (0, 3), (1, 5), (2, 7) of
y = 2x + 3: the means 19/3 and 5/3 round, and dataslope returns
m = 9007199254740989 / 2^52 (1.9999999999999993) and
b = 3377699720527873 / 2^50 (3.000000000000001), not (2, 3). -/
theorem dataslope_rounding_counterexample :
    dataslopeWith round64 [0, 1, 2] [3, 5, 7]
        = some (9007199254740989 / 4503599627370496, 3377699720527873 / 1125899906842624)
      ∧ dataslopeWith round64 [0, 1, 2] [3, 5, 7] ≠ some (2, 3) := by
  have f1 : round64 5 = 5 := by
    simpa using round64_natCast 5 (by norm_num)
  have f2 : round64 14 = 14 := by
    simpa using round64_natCast 14 (by norm_num)
  have f3 : round64 1 = 1 := by
    simpa using round64_natCast 1 (by norm_num)
  have f4 : round64 4 = 4 := by
    simpa using round64_natCast 4 (by norm_num)
  have f5 : round64 19 = 19 := by
    simpa using round64_natCast 19 (by norm_num)
  have f6 : round64 (19 / 3) = 7130699410003285 / 1125899906842624 := by
    rw [round64_pos (19 / 3) (-50) 7130699410003285 (by norm_num) (by norm_num)
      (by norm_num [roundHalfEven])]
    norm_num
  have f7 : round64 3 = 3 := by
    simpa using round64_natCast 3 (by norm_num)
  have f8 : round64 8 = 8 := by
    simpa using round64_natCast 8 (by norm_num)
  have f9 : round64 15 = 15 := by
    simpa using round64_natCast 15 (by norm_num)
  have f10 : round64 (5 / 3) = 7505999378950827 / 4503599627370496 := by
    rw [round64_pos (5 / 3) (-52) 7505999378950827 (by norm_num) (by norm_num)
      (by norm_num [roundHalfEven])]
    norm_num
  have f11 : round64 (1501199875790165 / 1125899906842624) = 1501199875790165 / 1125899906842624 := by
    rw [round64_pos (1501199875790165 / 1125899906842624) (-52) 6004799503160660 (by norm_num) (by norm_num)
      (by norm_num [roundHalfEven])]
    norm_num
  have f12 : round64 (3002399751580331 / 4503599627370496) = 3002399751580331 / 4503599627370496 := by
    rw [round64_pos (3002399751580331 / 4503599627370496) (-53) 6004799503160662 (by norm_num) (by norm_num)
      (by norm_num [roundHalfEven])]
    norm_num
  have f13 : round64 (6004799503160660 / 3002399751580331) = 9007199254740989 / 4503599627370496 := by
    rw [round64_pos (6004799503160660 / 3002399751580331) (-52) 9007199254740989 (by norm_num) (by norm_num)
      (by norm_num [roundHalfEven])]
    norm_num
  have f14 : round64 (9007199254740989 / 4503599627370496) = 9007199254740989 / 4503599627370496 := by
    rw [round64_pos (9007199254740989 / 4503599627370496) (-52) 9007199254740989 (by norm_num) (by norm_num)
      (by norm_num [roundHalfEven])]
    norm_num
  have f15 : round64 (13510798882111491 / 4503599627370496) = 3377699720527873 / 1125899906842624 := by
    rw [round64_pos (13510798882111491 / 4503599627370496) (-51) 6755399441055746 (by norm_num) (by norm_num)
      (by norm_num [roundHalfEven])]
    norm_num
  have hval : dataslopeWith round64 [0, 1, 2] [3, 5, 7]
      = some (9007199254740989 / 4503599627370496,
          3377699720527873 / 1125899906842624) := by
    simp only [dataslopeWith, meanWith, List.zipWith, List.map, List.foldl, List.length]
    norm_num [round64_zero, f1, f2, f3, f4, f5, f6, f7, f8, f9, f10, f11, f12, f13, f14, f15]
  refine ⟨hval, ?_⟩
  rw [hval]
  norm_num

/-! ## Standard colours -/

/-- A string has positive length exactly when it is not the empty string. -/
theorem length_pos_iff_ne_empty (s : String) : s.length > 0 ↔ s ≠ "" := by
  constructor
  · intro h e
    rw [e] at h
    exact absurd h (by decide)
  · intro h
    cases s with
    | mk l =>
      cases l with
      | nil => exact absurd rfl h
      | cons ch l => simp [String.length]

/-- Indexing the palette with the remainder of a non-negative index succeeds. -/
theorem index_blue7 (k : Nat) :
    ∃ s : String, blue7[k % 7]? = some s
      ∧ index blue7 (Int.tmod (k : Int) (blue7.length : Int)) = some s := by
  have hlt : k % 7 < blue7.length := Nat.mod_lt k (by decide)
  refine ⟨blue7[k % 7], List.getElem?_eq_getElem hlt, ?_⟩
  have e : Int.tmod (k : Int) (blue7.length : Int) = ((k % 7 : Nat) : Int) := by
    rw [Int.ofNat_tmod]
    rfl
  rw [e]
  unfold index
  rw [if_neg (by omega), Int.toNat_ofNat]
  exact List.getElem?_eq_getElem hlt

/-- With a non-negative index stdcolor always returns a colour. -/
theorem stdcolor_isSome (k : Nat) (dcolor color : String) (op : ℚ) (solid : Bool) :
    ∃ r : String × ℚ, stdcolor (k : Int) dcolor color op solid = some r := by
  unfold stdcolor
  by_cases hc : color = "std"
  · obtain ⟨s, -, hs⟩ := index_blue7 k
    rw [if_pos hc, hs]
    exact ⟨_, rfl⟩
  · rw [if_neg hc]
    by_cases hd : dcolor.length > 0
    · rw [if_pos hd]
      cases solid
      · exact ⟨_, rfl⟩
      · exact ⟨_, rfl⟩
    · rw [if_neg hd]
      exact ⟨_, rfl⟩

/-- C9: when the chart colour is "std", for every index i ≥ 0 and every note,
opacity and solid flag, stdcolor(i, note, "std", op, solid) is
(blue7[i mod 7], 100); hence stdcolor(i + 7, …) = stdcolor(i, …), and the
colour chosen at i = 7 is the colour chosen at i = 0. -/
theorem stdcolor_cycle (i : Int) (note : String) (op : ℚ) (solid : Bool) (hi : 0 ≤ i) :
    (∃ s : String, blue7[(i % 7).toNat]? = some s
        ∧ stdcolor i note "std" op solid = some (s, 100))
      ∧ stdcolor (i + 7) note "std" op solid = stdcolor i note "std" op solid
      ∧ stdcolor 7 note "std" op solid = stdcolor 0 note "std" op solid := by
  obtain ⟨k, rfl⟩ := Int.eq_ofNat_of_zero_le hi
  have hstd : ∀ n : Nat, stdcolor (n : Int) note "std" op solid
      = (blue7[n % 7]?).map (fun s => (s, 100)) := by
    intro n
    obtain ⟨s, h1, h2⟩ := index_blue7 n
    unfold stdcolor
    rw [if_pos rfl, h2, h1]
  refine ⟨?_, ?_, ?_⟩
  · obtain ⟨s, h1, -⟩ := index_blue7 k
    refine ⟨s, ?_, ?_⟩
    · have e : ((k : Int) % 7).toNat = k % 7 := by omega
      rw [e]
      exact h1
    · rw [hstd k, h1]
      rfl
  · have e : (k : Int) + 7 = ((k + 7 : Nat) : Int) := by push_cast; rfl
    rw [e, hstd (k + 7), hstd k, Nat.add_mod_right]
  · exact (hstd 7).trans (hstd 0).symm

/-- Instance of C9 at i = 9: the colour is blue7[2] at opacity 100, as at
i = 2. -/
theorem stdcolor_cycle_witness :
    stdcolor 9 "red" "std" 40 false = some ("rgb(66,146,198)", 100)
      ∧ stdcolor (2 + 7) "red" "std" 40 false = stdcolor 2 "red" "std" 40 false := by
  obtain ⟨⟨s, h1, h2⟩, -, -⟩ := stdcolor_cycle 9 "red" 40 false (by decide)
  refine ⟨?_, (stdcolor_cycle 2 "red" 40 false (by decide)).2.1⟩
  rw [h2]
  have e : blue7[((9 : Int) % 7).toNat]? = some "rgb(66,146,198)" := by decide
  rw [e] at h1
  rw [← Option.some.inj h1]

/-- C10: when the chart colour is not "std", stdcolor(i, dcolor, color, op,
solid) is (dcolor, 100) if dcolor is non-empty and solid is true, (dcolor, 40)
if dcolor is non-empty and solid is false, and (color, op) unchanged if dcolor
is empty; the result does not depend on i. -/
theorem stdcolor_custom (i : Int) (dcolor color : String) (op : ℚ) (solid : Bool)
    (hc : color ≠ "std") :
    (dcolor ≠ "" → solid = true → stdcolor i dcolor color op solid = some (dcolor, 100))
      ∧ (dcolor ≠ "" → solid = false → stdcolor i dcolor color op solid = some (dcolor, 40))
      ∧ (dcolor = "" → stdcolor i dcolor color op solid = some (color, op))
      ∧ ∀ j : Int, stdcolor j dcolor color op solid = stdcolor i dcolor color op solid := by
  refine ⟨?_, ?_, ?_, ?_⟩
  · intro hd hs
    unfold stdcolor
    rw [if_neg hc, if_pos ((length_pos_iff_ne_empty dcolor).mpr hd), hs]
    rfl
  · intro hd hs
    unfold stdcolor
    rw [if_neg hc, if_pos ((length_pos_iff_ne_empty dcolor).mpr hd), hs]
    rfl
  · intro hd
    unfold stdcolor
    rw [if_neg hc, if_neg (fun h => (length_pos_iff_ne_empty dcolor).mp h hd)]
  · intro j
    unfold stdcolor
    rw [if_neg hc, if_neg hc]

/-- Instance of C10 with the base colour "blue" at opacity 55 and the override
"red". -/
theorem stdcolor_custom_witness :
    stdcolor 3 "red" "blue" 55 true = some ("red", 100)
      ∧ stdcolor 3 "red" "blue" 55 false = some ("red", 40)
      ∧ stdcolor 3 "" "blue" 55 true = some ("blue", 55)
      ∧ stdcolor 8 "red" "blue" 55 true = stdcolor 3 "red" "blue" 55 true :=
  ⟨(stdcolor_custom 3 "red" "blue" 55 true (by decide)).1 (by decide) rfl,
    (stdcolor_custom 3 "red" "blue" 55 false (by decide)).2.1 (by decide) rfl,
    (stdcolor_custom 3 "" "blue" 55 true (by decide)).2.2.1 rfl,
    (stdcolor_custom 3 "red" "blue" 55 true (by decide)).2.2.2 8⟩

/-! ## Donut -/

/-- One span per percentage. -/
theorem arcSpans_length (a1 : ℚ) (ps : List ℚ) : (arcSpans a1 ps).length = ps.length := by
  induction ps generalizing a1 with
  | nil => rfl
  | cons p ps ih => simp [arcSpans, ih]

/-- The i-th span runs between the running sums of the sweeps before and
through the i-th percentage. -/
theorem arcSpans_getElem (a1 : ℚ) (ps : List ℚ) (i : Nat) (hi : i < ps.length) :
    (arcSpans a1 ps)[i]?
      = some (a1 + ((ps.take i).sum / 100) * 360, a1 + ((ps.take (i + 1)).sum / 100) * 360) := by
  induction ps generalizing a1 i with
  | nil => simp at hi
  | cons p ps ih =>
    cases i with
    | zero => simp [arcSpans]
    | succ j =>
      have hj : j < ps.length := by simpa using hi
      simp only [arcSpans, List.getElem?_cons_succ, ih _ j hj, List.take_succ_cons,
        List.sum_cons, Option.some.injEq, Prod.mk.injEq]
      constructor <;> ring

/-- An arc at the head of a deck is the first of its arcs. -/
theorem arcAngles_arc_cons (x y w h size a1 a2 : ℚ) (color : String) (opacity : List ℚ)
    (deck : Deck) :
    arcAngles (Prim.arc x y w h size a1 a2 color opacity :: deck)
      = (a1, a2) :: arcAngles deck := rfl

/-- A centred text at the head of a deck is not an arc. -/
theorem arcAngles_textMid_cons (x y : ℚ) (s font : String) (size : ℚ) (color : String)
    (opacity : List ℚ) (deck : Deck) :
    arcAngles (Prim.textMid x y s font size color opacity :: deck) = arcAngles deck := rfl

/-- Without rounding the spans are the exact ones. -/
theorem arcSpansWith_id (a1 : ℚ) (ps : List ℚ) :
    arcSpansWith (fun q => q) a1 ps = arcSpans a1 ps := by
  induction ps generalizing a1 with
  | nil => rfl
  | cons p ps ih => simp only [arcSpansWith, arcSpans, ih]

/-- Without rounding `pctWith` is `pct`. -/
theorem pctWith_id (data : List NameValue) : pctWith (fun q => q) data = pct data := rfl

/-- One span per percentage, with rounding. -/
theorem arcSpansWith_length (r : ℚ → ℚ) (a1 : ℚ) (ps : List ℚ) :
    (arcSpansWith r a1 ps).length = ps.length := by
  induction ps generalizing a1 with
  | nil => rfl
  | cons p ps ih => simp [arcSpansWith, ih]

/-- The i-th span ends at the rounded sum of its start and the rounded sweep
of the i-th percentage. -/
theorem arcSpansWith_sweep (r : ℚ → ℚ) (ps : List ℚ) :
    ∀ (a1 : ℚ) (i : Nat) (p : ℚ), ps[i]? = some p →
      ∃ a : ℚ, (arcSpansWith r a1 ps)[i]? = some (a, r (a + r (r (p / 100) * 360))) := by
  induction ps with
  | nil =>
    intro a1 i p hp
    simp at hp
  | cons q ps ih =>
    intro a1 i p hp
    cases i with
    | zero =>
      simp only [List.getElem?_cons_zero, Option.some.injEq] at hp
      subst hp
      exact ⟨a1, by simp [arcSpansWith]⟩
    | succ i =>
      simp only [List.getElem?_cons_succ] at hp
      obtain ⟨a, ha⟩ := ih (r (a1 + r (r (q / 100) * 360))) i p hp
      exact ⟨a, by simp only [arcSpansWith, List.getElem?_cons_succ, ha]⟩

/-- Each span starts where the span before it ends. -/
theorem arcSpansWith_chain (r : ℚ → ℚ) (ps : List ℚ) :
    ∀ (a1 : ℚ) (i : Nat) (a b a2 b2 : ℚ), (arcSpansWith r a1 ps)[i]? = some (a, b) →
      (arcSpansWith r a1 ps)[i + 1]? = some (a2, b2) → a2 = b := by
  induction ps with
  | nil =>
    intro a1 i a b a2 b2 h1 _
    simp [arcSpansWith] at h1
  | cons q ps ih =>
    intro a1 i a b a2 b2 h1 h2
    cases i with
    | zero =>
      cases ps with
      | nil => simp [arcSpansWith] at h2
      | cons q2 ps =>
        simp only [arcSpansWith, List.getElem?_cons_zero, List.getElem?_cons_succ,
          Option.some.injEq, Prod.mk.injEq] at h1 h2
        rw [← h1.2, ← h2.1]
    | succ i =>
      simp only [arcSpansWith, List.getElem?_cons_succ] at h1 h2
      exact ih _ i a b a2 b2 h1 h2

/-- The first span starts at the given angle. -/
theorem arcSpansWith_head (r : ℚ → ℚ) (a1 : ℚ) (ps : List ℚ) (h : ps ≠ []) :
    (arcSpansWith r a1 ps).head?.map Prod.fst = some a1 := by
  cases ps with
  | nil => exact absurd rfl h
  | cons p ps => rfl

/-- The loop of `Donut` succeeds when every index it is given is an index of
the data, and the arcs it adds are the spans of the percentages from the
running angle. -/
theorem donutLoop_spec (r : ℚ → ℚ) (lib : Lib) (c : ChartBox) (data : List NameValue)
    (dx dy psize pwidth textsize : ℚ) (showval solid : Bool) (ps : List ℚ) :
    ∀ (k : Nat) (a1 : ℚ), k + ps.length ≤ data.length →
      ∃ out : Deck, arcAngles out = arcSpansWith r a1 ps
        ∧ ∀ deck : Deck, donutLoop r lib c data dx dy psize pwidth textsize showval solid
            (ps.enumFrom k) a1 deck = some (deck ++ out) := by
  induction ps with
  | nil =>
    intro k a1 _
    exact ⟨[], rfl, by simp [donutLoop]⟩
  | cons p ps ih =>
    intro k a1 hk
    have hlt : k < data.length := by
      simp only [List.length_cons] at hk
      omega
    obtain ⟨sc, hsc⟩ := stdcolor_isSome k (data[k]).Note c.DataColor p solid
    obtain ⟨out, hang, hall⟩ := ih (k + 1) (r (a1 + r (r (p / 100) * 360)))
      (by simp only [List.length_cons] at hk; omega)
    cases showval
    · refine ⟨Prim.arc dx dy psize psize pwidth a1 (r (a1 + r (r (p / 100) * 360))) sc.1
          [sc.2] :: out, ?_, ?_⟩
      · rw [arcAngles_arc_cons, hang]
        rfl
      · intro deck
        simp only [List.enumFrom_cons, donutLoop, List.getElem?_eq_getElem hlt,
          Option.bind_eq_bind, Option.some_bind, hsc]
        rw [hall]
        simp [Deck.Arc]
    · refine ⟨Prim.arc dx dy psize psize pwidth a1 (r (a1 + r (r (p / 100) * 360))) sc.1
          [sc.2]
          :: Prim.textMid
            (polar lib dx dy (psize * (85 / 100))
              (r (r (a1 + r (a1 + r (r (p / 100) * 360))) / 2) * (lib.Pi / 180))).1
            (polar lib dx dy (psize * (85 / 100))
              (r (r (a1 + r (a1 + r (r (p / 100) * 360))) / 2) * (lib.Pi / 180))).2
            (lib.Sprintf ("%s " ++ c.DataFormat ++ "%%")
              [FmtArg.str (data[k]).Label, FmtArg.num p])
            "sans" textsize "" [] :: out, ?_, ?_⟩
      · rw [arcAngles_arc_cons, arcAngles_textMid_cons, hang]
        rfl
      · intro deck
        simp only [List.enumFrom_cons, donutLoop, List.getElem?_eq_getElem hlt,
          Option.bind_eq_bind, Option.some_bind, hsc]
        rw [hall]
        simp [Deck.Arc, Deck.TextMid]

/-- The sweeps of the spans add up to the sweep of the sum of the percentages. -/
theorem arcSpans_sweep_sum (a1 : ℚ) (ps : List ℚ) :
    ((arcSpans a1 ps).map (fun a => a.2 - a.1)).sum = (ps.sum / 100) * 360 := by
  induction ps generalizing a1 with
  | nil => simp [arcSpans]
  | cons p ps ih =>
    simp only [arcSpans, List.map_cons, List.sum_cons, ih]
    ring

/-- The percentages are exact when the rounding changes none of the
operations that make them. -/
theorem pctWith_exact (r : ℚ → ℚ) (data : List NameValue)
    (h : ∀ q ∈ donutOps data, r q = q) : pctWith r data = pct data := by
  have hsum : data.foldl (fun sum d => r (sum + d.Value)) 0
      = (data.map (fun d => d.Value)).sum := by
    have e : data.foldl (fun sum d => r (sum + d.Value)) 0
        = (data.map (fun d => d.Value)).foldl (fun s v => r (s + v)) 0 := by
      rw [List.foldl_map]
    rw [e, foldl_round r _ 0 (fun k hk => by
      rw [zero_add]
      exact h _ (by
        simp only [donutOps, List.mem_append]
        exact Or.inl (Or.inl (Or.inl (Or.inl (Or.inl
          (List.mem_map.mpr ⟨k, List.mem_range.mpr hk, rfl⟩))))))), zero_add]
  rw [pct_eq]
  unfold pctWith
  simp only [hsum]
  apply List.map_congr_left
  intro d hd
  have h1 : r (d.Value / (data.map (fun d => d.Value)).sum)
      = d.Value / (data.map (fun d => d.Value)).sum :=
    h _ (by
      simp only [donutOps, List.mem_append]
      exact Or.inl (Or.inl (Or.inl (Or.inl (Or.inr (List.mem_map.mpr ⟨d, hd, rfl⟩))))))
  rw [h1]
  exact h _ (by
    simp only [donutOps, List.mem_append]
    refine Or.inl (Or.inl (Or.inl (Or.inr ?_)))
    rw [pct_eq]
    exact List.mem_map.mpr ⟨d, hd, rfl⟩)

/-- The spans are exact when the rounding changes neither the sweeps nor the
end angles. -/
theorem arcSpansWith_exact (r : ℚ → ℚ) (ps : List ℚ) :
    ∀ a1 : ℚ, (∀ p ∈ ps, r (p / 100) = p / 100 ∧ r ((p / 100) * 360) = (p / 100) * 360) →
      (∀ e ∈ (arcSpans a1 ps).map Prod.snd, r e = e) →
      arcSpansWith r a1 ps = arcSpans a1 ps := by
  induction ps with
  | nil =>
    intro a1 _ _
    rfl
  | cons p ps ih =>
    intro a1 h1 h2
    have hp := h1 p (List.mem_cons_self p ps)
    have he : r (a1 + (p / 100) * 360) = a1 + (p / 100) * 360 :=
      h2 _ (by simp [arcSpans])
    simp only [arcSpansWith, arcSpans, hp.1, hp.2, he]
    rw [ih (a1 + (p / 100) * 360) (fun q hq => h1 q (List.mem_cons_of_mem p hq))
      (fun e hm => h2 e (by
        simp only [arcSpans, List.map_cons, List.mem_cons]
        exact Or.inr hm))]

/-- C8 as the code has it: Donut computes the percentages and the angles in
float64 arithmetic.  For a non-empty record list with non-zero value sum,
Donut succeeds and draws exactly one arc per record, in record order: the
first arc starts at angle 0, the i-th arc ends at its start plus the sweep
pct_i/100·360 (the sum and the sweep as computed), and each later arc starts
where the arc before it ends; when no operation on the percentages and the
angles rounds (the exact result of every running sum, quotient, product and
angle sum is left as it is, as in exact arithmetic) the last arc ends at
exactly 360 degrees and the sweeps add up to 360. -/
theorem Donut_angle_closure (r : ℚ → ℚ) (lib : Lib) (c : ChartBox) (deck : Deck)
    (psize pwidth : ℚ) (showval solid : Bool) (hne : c.Data ≠ [])
    (hs : (c.Data.map (fun d => d.Value)).sum ≠ 0) :
    ∃ out : Deck, Donut r lib c deck psize pwidth showval solid = some (deck ++ out)
      ∧ (arcAngles out).length = c.Data.length
      ∧ (arcAngles out).head?.map Prod.fst = some 0
      ∧ (∀ (i : Nat) (p : ℚ), (pctWith r c.Data)[i]? = some p →
          ∃ a : ℚ, (arcAngles out)[i]? = some (a, r (a + r (r (p / 100) * 360))))
      ∧ (∀ (i : Nat) (a b a2 b2 : ℚ), (arcAngles out)[i]? = some (a, b) →
          (arcAngles out)[i + 1]? = some (a2, b2) → a2 = b)
      ∧ ((∀ q ∈ donutOps c.Data, r q = q) →
          (arcAngles out).getLast?.map Prod.snd = some 360
            ∧ ((arcAngles out).map (fun a => a.2 - a.1)).sum = 360) := by
  have hplen : (pctWith r c.Data).length = c.Data.length := by simp [pctWith]
  have hpne : pctWith r c.Data ≠ [] := by
    intro h
    rw [h] at hplen
    exact hne (List.length_eq_zero.mp hplen.symm)
  obtain ⟨out, hang, hall⟩ := donutLoop_spec r lib c c.Data
    (if c.Left < 0 then 50 else c.Left) (c.Top - psize / 2) psize pwidth c.TextSize
    showval solid (pctWith r c.Data) 0 0 (by omega)
  refine ⟨out, hall deck, ?_, ?_, ?_, ?_, ?_⟩
  · rw [hang, arcSpansWith_length, hplen]
  · rw [hang]
    exact arcSpansWith_head r 0 _ hpne
  · intro i p hp
    rw [hang]
    exact arcSpansWith_sweep r _ 0 i p hp
  · intro i a b a2 b2 h1 h2
    rw [hang] at h1 h2
    exact arcSpansWith_chain r _ 0 i a b a2 b2 h1 h2
  · intro hr
    rw [pctWith_exact r c.Data hr, arcSpansWith_exact r (pct c.Data) 0
      (fun p hp => ⟨hr _ (by
          simp only [donutOps, List.mem_append]
          exact Or.inl (Or.inl (Or.inr (List.mem_map.mpr ⟨p, hp, rfl⟩)))),
        hr _ (by
          simp only [donutOps, List.mem_append]
          exact Or.inl (Or.inr (List.mem_map.mpr ⟨p, hp, rfl⟩)))⟩)
      (fun e he => hr e (by
        simp only [donutOps, List.mem_append]
        exact Or.inr he))] at hang
    have hplen2 : (pct c.Data).length = c.Data.length := by simp [pct]
    have hpos : 0 < (pct c.Data).length := by
      rw [hplen2]
      exact List.length_pos.mpr hne
    have hsum : (pct c.Data).sum = 100 := pct_sum_of_ne c.Data hs
    constructor
    · rw [hang, List.getLast?_eq_getElem?, arcSpans_length,
        arcSpans_getElem 0 _ ((pct c.Data).length - 1) (by omega)]
      have e : (pct c.Data).length - 1 + 1 = (pct c.Data).length := by omega
      rw [e, List.take_length, hsum]
      norm_num
    · rw [hang, arcSpans_sweep_sum, hsum]
      norm_num

/-- Instance of the amended C8 in float64 arithmetic on the records 50 and 50
of `chartHalves`, where no operation rounds: two arcs, the first from 0, the
last to 360. -/
theorem Donut_angle_closure_witness :
    chartHalves.Data ≠ [] ∧ (chartHalves.Data.map (fun d => d.Value)).sum ≠ 0
      ∧ ∃ out : Deck, Donut round64 exampleLib chartHalves [] 20 5 true false = some out
        ∧ (arcAngles out).length = 2
        ∧ (arcAngles out).head?.map Prod.fst = some 0
        ∧ (arcAngles out).getLast?.map Prod.snd = some 360 := by
  have h1 : chartHalves.Data ≠ [] := by simp [chartHalves]
  have h2 : (chartHalves.Data.map (fun d => d.Value)).sum ≠ 0 := by norm_num [chartHalves]
  have r50 : round64 50 = 50 := by simpa using round64_natCast 50 (by norm_num)
  have r100 : round64 100 = 100 := by simpa using round64_natCast 100 (by norm_num)
  have r180 : round64 180 = 180 := by simpa using round64_natCast 180 (by norm_num)
  have r360 : round64 360 = 360 := by simpa using round64_natCast 360 (by norm_num)
  have rh : round64 (1 / 2) = 1 / 2 := by
    rw [round64_pos (1 / 2) (-53) 4503599627370496 (by norm_num) (by norm_num)
      (by norm_num [roundHalfEven])]
    norm_num
  have hops : ∀ q ∈ donutOps chartHalves.Data, round64 q = q := by
    intro q hq
    simp only [donutOps, prefixSums, pct, arcSpans, chartHalves, List.map, List.foldl,
      List.length, List.range, List.range.loop, List.take, List.sum_cons, List.sum_nil,
      List.mem_append, List.mem_cons, List.mem_singleton, List.not_mem_nil] at hq
    norm_num at hq
    repeat' (rcases hq with hq | hq)
    all_goals
      first
        | exact r50 | exact r100 | exact r180 | exact r360 | exact rh
  obtain ⟨out, hout, hlen, hhead, -, -, hlast⟩ :=
    Donut_angle_closure round64 exampleLib chartHalves [] 20 5 true false h1 h2
  exact ⟨h1, h2, out, by simpa using hout, hlen, hhead, (hlast hops).1⟩

/-- C8 fails in float64 arithmetic on the records 10, 20, 30 of `chart3`: the
percentages are 16.666666666666664, 33.33333333333333 and 50, the arcs end at
59.999999999999986, 179.99999999999994 and 359.99999999999994, and the last
one does not end at 360. -/
theorem Donut_rounding_counterexample :
    chart3.Data ≠ [] ∧ (chart3.Data.map (fun d => d.Value)).sum ≠ 0
      ∧ Donut round64 exampleLib chart3 [] 20 5 false false
        = some [ Prim.arc 0 90 20 20 5 0 (4222124650659839 / 70368744177664) "rgb(128,128,128)"
              [2345624805922133 / 140737488355328],
            Prim.arc 0 90 20 20 5 (4222124650659839 / 70368744177664)
              (3166593487994879 / 17592186044416) "rgb(128,128,128)"
              [2345624805922133 / 70368744177664],
            Prim.arc 0 90 20 20 5 (3166593487994879 / 17592186044416)
              (6333186975989759 / 17592186044416) "rgb(128,128,128)" [50] ]
      ∧ (6333186975989759 / 17592186044416 : ℚ) ≠ 360 := by
  have f1 : round64 10 = 10 := by
    simpa using round64_natCast 10 (by norm_num)
  have f2 : round64 30 = 30 := by
    simpa using round64_natCast 30 (by norm_num)
  have f3 : round64 60 = 60 := by
    simpa using round64_natCast 60 (by norm_num)
  have f4 : round64 (1 / 6) = 6004799503160661 / 36028797018963968 := by
    rw [round64_pos (1 / 6) (-55) 6004799503160661 (by norm_num) (by norm_num)
      (by norm_num [roundHalfEven])]
    norm_num
  have f5 : round64 (150119987579016525 / 9007199254740992) = 2345624805922133 / 140737488355328 := by
    rw [round64_pos (150119987579016525 / 9007199254740992) (-48) 4691249611844266 (by norm_num) (by norm_num)
      (by norm_num [roundHalfEven])]
    norm_num
  have f6 : round64 (1 / 3) = 6004799503160661 / 18014398509481984 := by
    rw [round64_pos (1 / 3) (-54) 6004799503160661 (by norm_num) (by norm_num)
      (by norm_num [roundHalfEven])]
    norm_num
  have f7 : round64 (150119987579016525 / 4503599627370496) = 2345624805922133 / 70368744177664 := by
    rw [round64_pos (150119987579016525 / 4503599627370496) (-47) 4691249611844266 (by norm_num) (by norm_num)
      (by norm_num [roundHalfEven])]
    norm_num
  have f8 : round64 (1 / 2) = 1 / 2 := by
    rw [round64_pos (1 / 2) (-53) 4503599627370496 (by norm_num) (by norm_num)
      (by norm_num [roundHalfEven])]
    norm_num
  have f9 : round64 50 = 50 := by
    simpa using round64_natCast 50 (by norm_num)
  have f10 : round64 (2345624805922133 / 14073748835532800) = 1501199875790165 / 9007199254740992 := by
    rw [round64_pos (2345624805922133 / 14073748835532800) (-55) 6004799503160660 (by norm_num) (by norm_num)
      (by norm_num [roundHalfEven])]
    norm_num
  have f11 : round64 (67553994410557425 / 1125899906842624) = 4222124650659839 / 70368744177664 := by
    rw [round64_pos (67553994410557425 / 1125899906842624) (-47) 8444249301319678 (by norm_num) (by norm_num)
      (by norm_num [roundHalfEven])]
    norm_num
  have f12 : round64 (4222124650659839 / 70368744177664) = 4222124650659839 / 70368744177664 := by
    rw [round64_pos (4222124650659839 / 70368744177664) (-47) 8444249301319678 (by norm_num) (by norm_num)
      (by norm_num [roundHalfEven])]
    norm_num
  have f13 : round64 (2345624805922133 / 7036874417766400) = 1501199875790165 / 4503599627370496 := by
    rw [round64_pos (2345624805922133 / 7036874417766400) (-54) 6004799503160660 (by norm_num) (by norm_num)
      (by norm_num [roundHalfEven])]
    norm_num
  have f14 : round64 (67553994410557425 / 562949953421312) = 4222124650659839 / 35184372088832 := by
    rw [round64_pos (67553994410557425 / 562949953421312) (-46) 8444249301319678 (by norm_num) (by norm_num)
      (by norm_num [roundHalfEven])]
    norm_num
  have f15 : round64 (12666373951979517 / 70368744177664) = 3166593487994879 / 17592186044416 := by
    rw [round64_pos (12666373951979517 / 70368744177664) (-45) 6333186975989758 (by norm_num) (by norm_num)
      (by norm_num [roundHalfEven])]
    norm_num
  have f16 : round64 180 = 180 := by
    simpa using round64_natCast 180 (by norm_num)
  have f17 : round64 (6333186975989759 / 17592186044416) = 6333186975989759 / 17592186044416 := by
    rw [round64_pos (6333186975989759 / 17592186044416) (-44) 6333186975989759 (by norm_num) (by norm_num)
      (by norm_num [roundHalfEven])]
    norm_num
  refine ⟨by simp [chart3], by norm_num [chart3], ?_, by norm_num⟩
  simp only [Donut, donutLoop, pctWith, chart3, stdcolor, exampleLib, Deck.Arc,
    List.enum, List.enumFrom, List.map, List.foldl]
  norm_num [round64_zero, f1, f2, f3, f4, f5, f6, f7, f8, f9, f10, f11, f12, f13, f14, f15, f16, f17]
  simp

/-! ## Slope: the precondition -/

/-- C11: for a chart with fewer than 2 records Slope returns normally, leaves
the deck as it was (no draw call) and writes one message to the standard
error stream, whatever the box, format and line width. -/
theorem Slope_precondition (lib : Lib) (c : ChartBox) (deck : Deck) (linewidth : ℚ)
    (h : c.Data.length < 2) :
    Slope lib c deck linewidth
      = some (deck, ["slope graphs need at least two data pointextsize"]) := by
  unfold Slope
  simp only [if_pos h]

/-- Instance of C11 on a chart with the single record A = 10. -/
theorem Slope_precondition_witness :
    Slope exampleLib { chart3 with Data := [⟨"A", "", 10⟩] } [] 1
      = some ([], ["slope graphs need at least two data pointextsize"]) :=
  Slope_precondition exampleLib { chart3 with Data := [⟨"A", "", 10⟩] } [] 1 (by decide)

/-! ## Regression line on empty data -/

/-- C16 fails on the code: for a chart without records RegressionLine does not
return normally, the read `x[0]` of the empty slice `x` is out of range. -/
theorem RegressionLine_empty_panics (c : ChartBox) (deck : Deck) (size : ℚ) :
    RegressionLine { c with Data := [] } deck size = none := by
  simp [RegressionLine, dataslope, index]

/-! ## Conditions -/

/-- A Go string has length zero exactly when it is the empty string. -/
theorem strLen_eq_zero_iff (s : String) : strLen s = 0 ↔ s = "" := by
  constructor
  · intro h
    cases s with
    | mk l =>
      cases l with
      | nil => rfl
      | cons ch l =>
        exfalso
        have hpos := Char.utf8Size_pos ch
        simp only [strLen, String.utf8ByteSize, String.utf8ByteSize.go] at h
        omega
  · intro h
    rw [h]
    rfl

/-- C15: parsecondition returns an error exactly when its input is non-empty
and either does not split on "," into exactly three fields or has a first or
second field that does not parse as a number; on every error it returns the
bounds (−MaxFloat64, +MaxFloat64) with the empty colour; and on a non-empty
input whose three fields are low, high, color with low and high numbers it
returns exactly (low, high, color) without error. -/
theorem parsecondition_error_iff (lib : Lib) (s : String) :
    ((parsecondition lib s).2.2.2 ≠ none ↔
        s ≠ "" ∧ ((lib.Split s ",").length ≠ 3
          ∨ ∃ c0 c1 c2 : String, lib.Split s "," = [c0, c1, c2]
              ∧ ((∃ err, lib.ParseFloat c0 = Except.error err)
                ∨ (∃ err, lib.ParseFloat c1 = Except.error err))))
      ∧ ((parsecondition lib s).2.2.2 ≠ none →
          (parsecondition lib s).1 = smallest ∧ (parsecondition lib s).2.1 = largest
            ∧ (parsecondition lib s).2.2.1 = "")
      ∧ (∀ (c0 c1 c2 : String) (low high : ℚ), s ≠ "" → lib.Split s "," = [c0, c1, c2] →
          lib.ParseFloat c0 = Except.ok low → lib.ParseFloat c1 = Except.ok high →
          parsecondition lib s = (low, high, c2, none)) := by
  by_cases hs : s = ""
  · have h0 : strLen s = 0 := (strLen_eq_zero_iff s).mpr hs
    have hv : parsecondition lib s = (smallest, largest, "", none) := by
      unfold parsecondition
      rw [if_pos h0]
    refine ⟨?_, ?_, ?_⟩
    · rw [hv]
      simp [hs]
    · rw [hv]
      simp
    · intro c0 c1 c2 low high hne
      exact absurd hs hne
  · have h0 : ¬ strLen s = 0 := fun h => hs ((strLen_eq_zero_iff s).mp h)
    unfold parsecondition
    simp only [if_neg h0]
    rcases hsplit : lib.Split s "," with _ | ⟨c0, _ | ⟨c1, _ | ⟨c2, _ | ⟨c3, rest⟩⟩⟩⟩
    · simp [hs]
    · simp [hs]
    · simp [hs]
    · rcases h1 : lib.ParseFloat c0 with e1 | low
      · simp only [h1]
        refine ⟨?_, by simp, ?_⟩
        · exact ⟨fun _ => ⟨hs, Or.inr ⟨c0, c1, c2, rfl, Or.inl ⟨e1, h1⟩⟩⟩, fun _ => by simp⟩
        intro d0 d1 d2 lo hi _ hd hp0
        simp only [List.cons.injEq, and_true] at hd
        obtain ⟨rfl, -, -⟩ := hd
        rw [h1] at hp0
        cases hp0
      · rcases h2 : lib.ParseFloat c1 with e2 | high
        · simp only [h1, h2]
          refine ⟨?_, by simp, ?_⟩
          · exact ⟨fun _ => ⟨hs, Or.inr ⟨c0, c1, c2, rfl, Or.inr ⟨e2, h2⟩⟩⟩, fun _ => by simp⟩
          intro d0 d1 d2 lo hi _ hd _ hp1
          simp only [List.cons.injEq, and_true] at hd
          obtain ⟨-, rfl, -⟩ := hd
          rw [h2] at hp1
          cases hp1
        · simp only [h1, h2]
          refine ⟨by simp [hs, h1, h2], by simp, ?_⟩
          intro d0 d1 d2 lo hi _ hd hp0 hp1
          simp only [List.cons.injEq, and_true] at hd
          obtain ⟨rfl, rfl, rfl⟩ := hd
          rw [h1] at hp0
          rw [h2] at hp1
          cases hp0
          cases hp1
          rfl
    · simp [hs]

/-- Instance of C15: "0,10,red" is the window [0, 10] with the colour red,
"0,x,red" and "0-10" are errors with the widest window and no colour, and the
empty condition is no error. -/
theorem parsecondition_error_iff_witness :
    parsecondition exampleLib "0,10,red" = (0, 10, "red", none)
      ∧ parsecondition exampleLib "0,x,red" = (smallest, largest, "", some "invalid syntax")
      ∧ parsecondition exampleLib "0-10" = (smallest, largest, "", some "%s bad condition")
      ∧ parsecondition exampleLib "" = (smallest, largest, "", none) := by
  refine ⟨(parsecondition_error_iff exampleLib "0,10,red").2.2 "0" "10" "red" 0 10
    (by decide) (by simp [exampleLib]) (by simp [exampleLib]) (by simp [exampleLib]),
    ?_, ?_, ?_⟩
  · simp [parsecondition, exampleLib, strLen]
    decide
  · simp [parsecondition, exampleLib, strLen]
    decide
  · simp [parsecondition, strLen]
    decide

/-! ## Nice axis range -/

/-- The loop of `Line` succeeds when every index it visits has a successor in
the data, and adds one line per index, from the mapped point of the record at
the index to the mapped point of the next record. -/
theorem lineLoop_spec (c : ChartBox) (size fn ymin : ℚ) (is : List Nat) :
    ∀ (deck : Deck), (∀ i ∈ is, i + 1 < c.Data.length) →
      ∃ out : Deck, lineLoop c size fn ymin is deck = some (deck ++ out)
        ∧ out.length = is.length
        ∧ ∀ (t i : Nat) (d1 d2 : NameValue), is[t]? = some i →
            c.Data[i]? = some d1 → c.Data[i + 1]? = some d2 →
            out[t]? = some (Prim.line
              (MapRange (i : ℚ) 0 fn c.Left c.Right)
              (MapRange d1.Value ymin c.Maxvalue c.Bottom c.Top)
              (MapRange ((i + 1 : Nat) : ℚ) 0 fn c.Left c.Right)
              (MapRange d2.Value ymin c.Maxvalue c.Bottom c.Top)
              size c.DataColor [c.Opacity]) := by
  induction is with
  | nil =>
    intro deck _
    exact ⟨[], by simp [lineLoop], rfl, by simp⟩
  | cons i rest ih =>
    intro deck h
    have hi : i + 1 < c.Data.length := h i (List.mem_cons_self i rest)
    have h1 : c.Data[i]? = some (c.Data[i]) := List.getElem?_eq_getElem (by omega)
    have h2 : c.Data[i + 1]? = some (c.Data[i + 1]) := List.getElem?_eq_getElem hi
    obtain ⟨out, hout, hlen, hget⟩ := ih
      (deck.Line (MapRange (i : ℚ) 0 fn c.Left c.Right)
        (MapRange (c.Data[i]).Value ymin c.Maxvalue c.Bottom c.Top)
        (MapRange ((i + 1 : Nat) : ℚ) 0 fn c.Left c.Right)
        (MapRange (c.Data[i + 1]).Value ymin c.Maxvalue c.Bottom c.Top)
        size c.DataColor [c.Opacity])
      (fun j hj => h j (List.mem_cons_of_mem i hj))
    refine ⟨Prim.line (MapRange (i : ℚ) 0 fn c.Left c.Right)
        (MapRange (c.Data[i]).Value ymin c.Maxvalue c.Bottom c.Top)
        (MapRange ((i + 1 : Nat) : ℚ) 0 fn c.Left c.Right)
        (MapRange (c.Data[i + 1]).Value ymin c.Maxvalue c.Bottom c.Top)
        size c.DataColor [c.Opacity] :: out, ?_, by simp [hlen], ?_⟩
    · simp only [lineLoop, h1, h2, Option.bind_eq_bind, Option.some_bind]
      rw [hout]
      simp [Deck.Line]
    · intro t j d1 d2 ht hd1 hd2
      cases t with
      | zero =>
        simp only [List.getElem?_cons_zero, Option.some.injEq] at ht
        subst ht
        rw [h1] at hd1
        rw [h2] at hd2
        cases hd1
        cases hd2
        simp
      | succ t =>
        simp only [List.getElem?_cons_succ] at ht ⊢
        exact hget t j d1 d2 ht hd1 hd2

/-- C18: for a chart with n records Line succeeds and adds exactly
max(n − 1, 0) draw calls, all of them lines of the given size in DataColor at
Opacity; segment i joins the mapped point of record i to the mapped point of
record i + 1, so each segment starts where the one before it ends, and for
n ≥ 2 the first segment starts at x = Left and the last ends at x = Right. -/
theorem Line_segments (c : ChartBox) (deck : Deck) (size : ℚ) :
    ∃ out : Deck, Line c deck size = some (deck ++ out)
      ∧ out.length = c.Data.length - 1
      ∧ (∀ p ∈ out, ∃ x1 y1 x2 y2 : ℚ,
          p = Prim.line x1 y1 x2 y2 size c.DataColor [c.Opacity])
      ∧ (∀ (i : Nat) (d1 d2 : NameValue), c.Data[i]? = some d1 → c.Data[i + 1]? = some d2 →
          out[i]? = some (Prim.line
            (MapRange (i : ℚ) 0 ((c.Data.length : ℚ) - 1) c.Left c.Right)
            (MapRange d1.Value (if c.Zerobased then 0 else c.Minvalue) c.Maxvalue
              c.Bottom c.Top)
            (MapRange ((i : ℚ) + 1) 0 ((c.Data.length : ℚ) - 1) c.Left c.Right)
            (MapRange d2.Value (if c.Zerobased then 0 else c.Minvalue) c.Maxvalue
              c.Bottom c.Top)
            size c.DataColor [c.Opacity]))
      ∧ (∀ (i : Nat) (x1 y1 x2 y2 s1 x3 y3 x4 y4 s2 : ℚ) (c1 c2 : String) (o1 o2 : List ℚ),
          out[i]? = some (Prim.line x1 y1 x2 y2 s1 c1 o1) →
          out[i + 1]? = some (Prim.line x3 y3 x4 y4 s2 c2 o2) → x3 = x2 ∧ y3 = y2)
      ∧ (2 ≤ c.Data.length →
          (∃ y1 x2 y2 : ℚ,
            out[0]? = some (Prim.line c.Left y1 x2 y2 size c.DataColor [c.Opacity]))
          ∧ ∃ x1 y1 y2 : ℚ, out[c.Data.length - 2]?
              = some (Prim.line x1 y1 c.Right y2 size c.DataColor [c.Opacity])) := by
  have hrange : ((c.Data.length : Int) - 1).toNat = c.Data.length - 1 := by omega
  obtain ⟨out, hout, hlen, hget⟩ := lineLoop_spec c size
    ((((c.Data.length : Int) - 1 : Int)) : ℚ) (zerobase c.Zerobased c.Minvalue)
    (List.range (c.Data.length - 1)) deck
    (by
      intro i hi
      have := List.mem_range.mp hi
      omega)
  have hlen2 : out.length = c.Data.length - 1 := by rw [hlen, List.length_range]
  have hfn : ((((c.Data.length : Int) - 1 : Int)) : ℚ) = (c.Data.length : ℚ) - 1 := by
    push_cast
    rfl
  have hseg : ∀ (i : Nat) (d1 d2 : NameValue), c.Data[i]? = some d1 →
      c.Data[i + 1]? = some d2 →
      out[i]? = some (Prim.line
        (MapRange (i : ℚ) 0 ((c.Data.length : ℚ) - 1) c.Left c.Right)
        (MapRange d1.Value (if c.Zerobased then 0 else c.Minvalue) c.Maxvalue c.Bottom c.Top)
        (MapRange ((i : ℚ) + 1) 0 ((c.Data.length : ℚ) - 1) c.Left c.Right)
        (MapRange d2.Value (if c.Zerobased then 0 else c.Minvalue) c.Maxvalue c.Bottom c.Top)
        size c.DataColor [c.Opacity]) := by
    intro i d1 d2 hd1 hd2
    have hi : i + 1 < c.Data.length := by
      rcases Nat.lt_or_ge (i + 1) c.Data.length with h | h
      · exact h
      · rw [List.getElem?_eq_none h] at hd2
        exact absurd hd2 (by simp)
    have hr : (List.range (c.Data.length - 1))[i]? = some i := by
      rw [List.getElem?_range (by omega)]
    have := hget i i d1 d2 hr hd1 hd2
    rw [this, hfn]
    simp only [zerobase]
    push_cast
    rfl
  have hsome : ∀ (i : Nat), i < c.Data.length - 1 →
      ∃ d1 d2 : NameValue, c.Data[i]? = some d1 ∧ c.Data[i + 1]? = some d2 := by
    intro i hi
    have h1 : i < c.Data.length := by omega
    have h2 : i + 1 < c.Data.length := by omega
    exact ⟨_, _, List.getElem?_eq_getElem h1, List.getElem?_eq_getElem h2⟩
  refine ⟨out, ?_, hlen2, ?_, hseg, ?_, ?_⟩
  · unfold Line
    simp only [hrange]
    exact hout
  · intro p hp
    obtain ⟨i, hi, rfl⟩ := List.getElem_of_mem hp
    have hi2 : i < c.Data.length - 1 := by omega
    obtain ⟨d1, d2, h1, h2⟩ := hsome i hi2
    have := hseg i _ _ h1 h2
    rw [List.getElem?_eq_getElem hi] at this
    exact ⟨_, _, _, _, Option.some.inj this⟩
  · intro i x1 y1 x2 y2 s1 x3 y3 x4 y4 s2 c1 c2 o1 o2 ha hb
    have hi : i + 1 < out.length := by
      rcases Nat.lt_or_ge (i + 1) out.length with h | h
      · exact h
      · rw [List.getElem?_eq_none h] at hb
        exact absurd hb (by simp)
    obtain ⟨d1, d2, h1, h2⟩ := hsome i (by omega)
    obtain ⟨d3, d4, h3, h4⟩ := hsome (i + 1) (by omega)
    have ea := hseg i _ _ h1 h2
    have eb := hseg (i + 1) _ _ h3 h4
    rw [ea] at ha
    rw [eb] at hb
    simp only [Option.some.injEq, Prim.line.injEq] at ha hb
    rw [h2] at h3
    have hd : d2 = d3 := Option.some.inj h3
    refine ⟨?_, ?_⟩
    · rw [← hb.1, ← ha.2.2.1]
      push_cast
      rfl
    · rw [← hb.2.1, ← ha.2.2.2.1, hd]
  · intro hn
    obtain ⟨d1, d2, h1, h2⟩ := hsome 0 (by omega)
    obtain ⟨d3, d4, h3, h4⟩ := hsome (c.Data.length - 2) (by omega)
    have hd : (c.Data.length : ℚ) - 1 ≠ 0 := by
      have : (2 : ℚ) ≤ (c.Data.length : ℚ) := by exact_mod_cast hn
      intro h
      linarith
    have e0 := hseg 0 _ _ h1 h2
    simp only [Nat.cast_zero, MapRange_low] at e0
    have e1 := hseg (c.Data.length - 2) _ _ h3 h4
    have e : ((c.Data.length - 2 : Nat) : ℚ) + 1 = (c.Data.length : ℚ) - 1 := by
      rw [Nat.cast_sub hn]
      push_cast
      ring
    rw [e, MapRange_high 0 ((c.Data.length : ℚ) - 1) c.Left c.Right (Ne.symm hd)] at e1
    exact ⟨⟨_, _, _, e0⟩, ⟨_, _, _, e1⟩⟩

/-- Instance of C18 on `chart3`: two segments, from (0, 100/3) to (50, 200/3)
and on to (100, 100). -/
theorem Line_segments_witness :
    Line chart3 [] 1
      = some [ Prim.line 0 (100 / 3) 50 (200 / 3) 1 "rgb(128,128,128)" [100],
          Prim.line 50 (200 / 3) 100 100 1 "rgb(128,128,128)" [100] ] := by
  obtain ⟨out, h, hlen, -, hseg, -, -⟩ := Line_segments chart3 [] 1
  have e0 := hseg 0 ⟨"A", "", 10⟩ ⟨"B", "", 20⟩ rfl rfl
  have e1 := hseg 1 ⟨"B", "", 20⟩ ⟨"C", "", 30⟩ rfl rfl
  rw [h]
  match out, hlen, e0, e1 with
  | [a, b], _, e0, e1 =>
    simp only [List.getElem?_cons_zero, List.getElem?_cons_succ, Option.some.injEq] at e0 e1
    subst e0 e1
    norm_num [chart3, MapRange]

/-! ## Area -/

/-- The loop of `Area` succeeds when every index it visits is an index of the
data and the two slices have two more entries than the data; it writes the
mapped point of record `i` at position `i + 1` and nothing else. -/
theorem areaLoop_spec (c : ChartBox) (fn ymin : ℚ) (is : List Nat) :
    ∀ (xs ys : List ℚ), xs.length = c.Data.length + 2 → ys.length = c.Data.length + 2 →
      (∀ i ∈ is, i < c.Data.length) →
      ∃ xs2 ys2 : List ℚ, areaLoop c fn ymin is xs ys = some (xs2, ys2)
        ∧ xs2.length = xs.length ∧ ys2.length = ys.length
        ∧ (∀ i ∈ is, ∀ d : NameValue, c.Data[i]? = some d →
            xs2[i + 1]? = some (MapRange (i : ℚ) 0 fn c.Left c.Right)
              ∧ ys2[i + 1]? = some (MapRange d.Value ymin c.Maxvalue c.Bottom c.Top))
        ∧ (∀ j : Nat, (∀ i ∈ is, i + 1 ≠ j) → xs2[j]? = xs[j]? ∧ ys2[j]? = ys[j]?) := by
  induction is with
  | nil =>
    intro xs ys _ _ _
    exact ⟨xs, ys, by simp [areaLoop], rfl, rfl, by simp, by simp⟩
  | cons i rest ih =>
    intro xs ys hx hy h
    have hi : i < c.Data.length := h i (List.mem_cons_self i rest)
    have hd : c.Data[i]? = some (c.Data[i]) := List.getElem?_eq_getElem hi
    have hix : i + 1 < xs.length := by omega
    have hiy : i + 1 < ys.length := by omega
    obtain ⟨xs2, ys2, hrun, hlx, hly, hin, hout⟩ := ih
      (xs.set (i + 1) (MapRange (i : ℚ) 0 fn c.Left c.Right))
      (ys.set (i + 1) (MapRange (c.Data[i]).Value ymin c.Maxvalue c.Bottom c.Top))
      (by rw [List.length_set]; exact hx) (by rw [List.length_set]; exact hy)
      (fun j hj => h j (List.mem_cons_of_mem i hj))
    rw [List.length_set] at hlx hly
    refine ⟨xs2, ys2, ?_, hlx, hly, ?_, ?_⟩
    · simp only [areaLoop, setIdx, if_pos hix, if_pos hiy, hd, Option.bind_eq_bind,
        Option.some_bind]
      exact hrun
    · intro j hj d hdj
      by_cases hjr : j ∈ rest
      · exact hin j hjr d hdj
      · have hji : j = i := by
          rcases List.mem_cons.mp hj with e | e
          · exact e
          · exact absurd e hjr
        subst hji
        rw [hd] at hdj
        cases hdj
        have hne : ∀ k ∈ rest, k + 1 ≠ j + 1 := by
          intro k hk e
          exact hjr (by
            have : k = j := by omega
            rw [← this]
            exact hk)
        obtain ⟨ex, ey⟩ := hout (j + 1) hne
        rw [ex, ey, List.getElem?_set_self hix, List.getElem?_set_self hiy]
        exact ⟨rfl, rfl⟩
    · intro j hj
      have hji : i + 1 ≠ j := hj i (List.mem_cons_self i rest)
      obtain ⟨ex, ey⟩ := hout j (fun k hk => hj k (List.mem_cons_of_mem i hk))
      rw [ex, ey, List.getElem?_set_ne hji, List.getElem?_set_ne hji]
      exact ⟨rfl, rfl⟩

/-- C17: for a chart with n ≥ 2 records and Maxvalue ≠ effectiveMin, Area
succeeds and adds exactly one draw call, a polygon filled with DataColor at
Opacity whose coordinate lists both have n + 2 entries: vertex 0 is
(Left, Bottom), vertex n + 1 is (Right, Bottom), and vertex i + 1 is
(MapRange(i, 0, n−1, Left, Right),
MapRange(value_i, effectiveMin, Maxvalue, Bottom, Top)). -/
theorem Area_polygon (c : ChartBox) (deck : Deck) (_hn : 2 ≤ c.Data.length)
    (_hr : c.Maxvalue ≠ (if c.Zerobased then 0 else c.Minvalue)) :
    ∃ xs ys : List ℚ,
      Area c deck = some (deck ++ [Prim.polygon xs ys c.DataColor [c.Opacity]])
        ∧ xs.length = c.Data.length + 2 ∧ ys.length = c.Data.length + 2
        ∧ xs[0]? = some c.Left ∧ ys[0]? = some c.Bottom
        ∧ xs[c.Data.length + 1]? = some c.Right ∧ ys[c.Data.length + 1]? = some c.Bottom
        ∧ ∀ (i : Nat) (d : NameValue), c.Data[i]? = some d →
            xs[i + 1]? = some (MapRange (i : ℚ) 0 ((c.Data.length : ℚ) - 1) c.Left c.Right)
              ∧ ys[i + 1]? = some (MapRange d.Value (if c.Zerobased then 0 else c.Minvalue)
                  c.Maxvalue c.Bottom c.Top) := by
  have hfn : ((((c.Data.length : Int) - 1 : Int)) : ℚ) = (c.Data.length : ℚ) - 1 := by
    push_cast
    rfl
  obtain ⟨xs, ys, hrun, hlx, hly, hin, hout⟩ := areaLoop_spec c
    ((((c.Data.length : Int) - 1 : Int)) : ℚ) (zerobase c.Zerobased c.Minvalue)
    (List.range c.Data.length)
    (((List.replicate (c.Data.length + 2) (0 : ℚ)).set 0 c.Left).set (c.Data.length + 1) c.Right)
    (((List.replicate (c.Data.length + 2) (0 : ℚ)).set 0 c.Bottom).set (c.Data.length + 1)
      c.Bottom)
    (by simp) (by simp) (fun i hi => List.mem_range.mp hi)
  simp only [List.length_set, List.length_replicate] at hlx hly
  have h0 : ∀ i ∈ List.range c.Data.length, i + 1 ≠ 0 := fun i _ => by omega
  have hlast : ∀ i ∈ List.range c.Data.length, i + 1 ≠ c.Data.length + 1 := by
    intro i hi
    have := List.mem_range.mp hi
    omega
  obtain ⟨ex0, ey0⟩ := hout 0 h0
  obtain ⟨exn, eyn⟩ := hout (c.Data.length + 1) hlast
  refine ⟨xs, ys, ?_, hlx, hly, ?_, ?_, ?_, ?_, ?_⟩
  · unfold Area
    simp only [setIdx, List.length_replicate, List.length_set, Option.bind_eq_bind,
      Option.some_bind, Nat.zero_lt_succ, if_true, Nat.lt_succ_self, hrun, Option.pure_def,
      Deck.Polygon]
  · rw [ex0, List.getElem?_set_ne (by omega), List.getElem?_set_self (by simp)]
  · rw [ey0, List.getElem?_set_ne (by omega), List.getElem?_set_self (by simp)]
  · rw [exn, List.getElem?_set_self (by simp)]
  · rw [eyn, List.getElem?_set_self (by simp)]
  · intro i d hd
    have hi : i < c.Data.length := by
      rcases Nat.lt_or_ge i c.Data.length with h | h
      · exact h
      · rw [List.getElem?_eq_none h] at hd
        exact absurd hd (by simp)
    obtain ⟨ex, ey⟩ := hin i (List.mem_range.mpr hi) d hd
    rw [ex, ey, hfn]
    exact ⟨rfl, rfl⟩

/-- Instance of C17 on `chart3`: the polygon runs (0, 0), (0, 100/3),
(50, 200/3), (100, 100), (100, 0). -/
theorem Area_polygon_witness :
    Area chart3 []
      = some [ Prim.polygon [0, 0, 50, 100, 100] [0, 100 / 3, 200 / 3, 100, 0]
          "rgb(128,128,128)" [100] ] := by
  obtain ⟨xs, ys, h, hlx, hly, x0, y0, x4, y4, hv⟩ :=
    Area_polygon chart3 [] (by decide) (by norm_num [chart3])
  have e1 := hv 0 ⟨"A", "", 10⟩ rfl
  have e2 := hv 1 ⟨"B", "", 20⟩ rfl
  have e3 := hv 2 ⟨"C", "", 30⟩ rfl
  rw [h]
  match xs, ys, hlx, hly, x0, y0, x4, y4, e1, e2, e3 with
  | [a0, a1, a2, a3, a4], [b0, b1, b2, b3, b4], _, _, x0, y0, x4, y4, e1, e2, e3 =>
    simp only [chart3, List.length_cons, List.length_nil, List.getElem?_cons_zero,
      List.getElem?_cons_succ, Option.some.injEq] at x0 y0 x4 y4 e1 e2 e3
    obtain ⟨e1x, e1y⟩ := e1
    obtain ⟨e2x, e2y⟩ := e2
    obtain ⟨e3x, e3y⟩ := e3
    subst x0 y0 x4 y4 e1x e1y e2x e2y e3x e3y
    norm_num [chart3, MapRange]

/-! ## Slope: the pairs -/

/-- One pass of the loop of `Slope`. -/
theorem slopeLoop_step (lib : Lib) (c : ChartBox) (data : List NameValue) (linewidth : ℚ)
    (i : Nat) (b : SlopeBox) (deck : Deck) (di dj : NameValue)
    (hi : data[i]? = some di) (hj : data[i + 1]? = some dj) :
    slopeLoop lib c data linewidth i b deck
      = slopeLoop lib c data linewidth (i + 2) (slopeStep c b)
          (deck ++ slopePairOut lib c linewidth b di dj) := by
  have hlt : i + 1 < data.length := by
    rcases Nat.lt_or_ge (i + 1) data.length with h | h
    · exact h
    · rw [List.getElem?_eq_none h] at hj
      exact absurd hj (by simp)
  have hcond : (i : Int) < (data.length : Int) - 1 := by omega
  rw [slopeLoop]
  simp only [if_pos hcond, hi, hj, Option.bind_eq_bind, Option.some_bind]
  congr 1
  simp only [slopePairOut, Deck.Line, Deck.Circle, Deck.TextMid, Deck.TextEnd, Deck.Text]
  by_cases h1 : strLen di.Label > 0 <;> by_cases h2 : c.Zerobased = true <;>
    simp [h1, h2]

/-- The loop of `Slope` stops when no pair is left. -/
theorem slopeLoop_done (lib : Lib) (c : ChartBox) (data : List NameValue) (linewidth : ℚ)
    (i : Nat) (b : SlopeBox) (deck : Deck) (h : data.length ≤ i + 1) :
    slopeLoop lib c data linewidth i b deck = some deck := by
  have hcond : ¬ (i : Int) < (data.length : Int) - 1 := by omega
  rw [slopeLoop]
  simp only [if_neg hcond]

/-- The loop of `Slope` from the index `i` makes the `r` passes that are left
when `i + 2r ≤ n < i + 2r + 2`. -/
theorem slopeLoop_spec (lib : Lib) (c : ChartBox) (data : List NameValue) (linewidth : ℚ)
    (r : Nat) :
    ∀ (i : Nat) (b : SlopeBox) (deck : Deck), i + 2 * r ≤ data.length →
      data.length < i + 2 * r + 2 →
      slopeLoop lib c data linewidth i b deck
        = some (deck ++ slopeOut lib c data linewidth r i b) := by
  induction r with
  | zero =>
    intro i b deck _ h2
    rw [slopeLoop_done lib c data linewidth i b deck (by omega)]
    simp [slopeOut]
  | succ r ih =>
    intro i b deck h1 h2
    have hi : i < data.length := by omega
    have hj : i + 1 < data.length := by omega
    have ei : data[i]? = some (data[i]) := List.getElem?_eq_getElem hi
    have ej : data[i + 1]? = some (data[i + 1]) := List.getElem?_eq_getElem hj
    rw [slopeLoop_step lib c data linewidth i b deck _ _ ei ej,
      ih (i + 2) _ _ (by omega) (by omega)]
    simp only [slopeOut, ei, ej, List.append_assoc]

/-- The lines of two decks drawn one after the other. -/
theorem linesOf_append (a b : Deck) : linesOf (a ++ b) = linesOf a ++ linesOf b := by
  simp [linesOf, List.filter_append]

/-- One pass of the loop of `Slope` draws three lines: the two axes and the
sloped segment. -/
theorem linesOf_slopePairOut (lib : Lib) (c : ChartBox) (linewidth : ℚ) (b : SlopeBox)
    (di dj : NameValue) :
    linesOf (slopePairOut lib c linewidth b di dj)
      = [ Prim.line b.x1 b.bottom b.x1 b.top (linewidth / 2) "black" [],
          Prim.line b.x2 b.bottom b.x2 b.top (linewidth / 2) "black" [],
          Prim.line b.x1
            (MapRange di.Value (zerobase c.Zerobased c.Minvalue) c.Maxvalue b.bottom b.top)
            b.x2
            (MapRange dj.Value (zerobase c.Zerobased c.Minvalue) c.Maxvalue b.bottom b.top)
            linewidth c.DataColor [] ] := by
  unfold slopePairOut
  by_cases h1 : strLen di.Label > 0 <;> by_cases h2 : c.Zerobased = true <;>
    simp [linesOf, h1, h2, List.filter]

/-- The lines of `r` passes of the loop of `Slope`: three per pass, for the
pair of records at `i + 2k`, `i + 2k + 1` in the k-th box after `b`. -/
theorem linesOf_slopeOut (lib : Lib) (c : ChartBox) (data : List NameValue) (linewidth : ℚ)
    (r : Nat) :
    ∀ (i : Nat) (b : SlopeBox), i + 2 * r ≤ data.length →
      (linesOf (slopeOut lib c data linewidth r i b)).length = 3 * r
        ∧ ∀ (k : Nat) (d1 d2 : NameValue), k < r → data[i + 2 * k]? = some d1 →
            data[i + 2 * k + 1]? = some d2 →
            (linesOf (slopeOut lib c data linewidth r i b))[3 * k]?
                = some (Prim.line ((slopeStep c)^[k] b).x1 ((slopeStep c)^[k] b).bottom
                    ((slopeStep c)^[k] b).x1 ((slopeStep c)^[k] b).top (linewidth / 2)
                    "black" [])
              ∧ (linesOf (slopeOut lib c data linewidth r i b))[3 * k + 1]?
                = some (Prim.line ((slopeStep c)^[k] b).x2 ((slopeStep c)^[k] b).bottom
                    ((slopeStep c)^[k] b).x2 ((slopeStep c)^[k] b).top (linewidth / 2)
                    "black" [])
              ∧ (linesOf (slopeOut lib c data linewidth r i b))[3 * k + 2]?
                = some (Prim.line ((slopeStep c)^[k] b).x1
                    (MapRange d1.Value (zerobase c.Zerobased c.Minvalue) c.Maxvalue
                      ((slopeStep c)^[k] b).bottom ((slopeStep c)^[k] b).top)
                    ((slopeStep c)^[k] b).x2
                    (MapRange d2.Value (zerobase c.Zerobased c.Minvalue) c.Maxvalue
                      ((slopeStep c)^[k] b).bottom ((slopeStep c)^[k] b).top)
                    linewidth c.DataColor []) := by
  induction r with
  | zero =>
    intro i b _
    exact ⟨by simp [slopeOut, linesOf], fun k d1 d2 hk => absurd hk (by omega)⟩
  | succ r ih =>
    intro i b h
    have hi : i < data.length := by omega
    have hj : i + 1 < data.length := by omega
    have ei : data[i]? = some (data[i]) := List.getElem?_eq_getElem hi
    have ej : data[i + 1]? = some (data[i + 1]) := List.getElem?_eq_getElem hj
    obtain ⟨hlen, hget⟩ := ih (i + 2) (slopeStep c b) (by omega)
    have hout : linesOf (slopeOut lib c data linewidth (r + 1) i b)
        = [ Prim.line b.x1 b.bottom b.x1 b.top (linewidth / 2) "black" [],
            Prim.line b.x2 b.bottom b.x2 b.top (linewidth / 2) "black" [],
            Prim.line b.x1
              (MapRange (data[i]).Value (zerobase c.Zerobased c.Minvalue) c.Maxvalue
                b.bottom b.top)
              b.x2
              (MapRange (data[i + 1]).Value (zerobase c.Zerobased c.Minvalue) c.Maxvalue
                b.bottom b.top)
              linewidth c.DataColor [] ]
          ++ linesOf (slopeOut lib c data linewidth r (i + 2) (slopeStep c b)) := by
      simp only [slopeOut, ei, ej]
      rw [linesOf_append, linesOf_slopePairOut]
    rw [hout]
    refine ⟨by simp [hlen]; omega, ?_⟩
    intro k d1 d2 hk hd1 hd2
    cases k with
    | zero =>
      simp only [Nat.mul_zero, Nat.add_zero] at hd1 hd2
      rw [ei] at hd1
      rw [ej] at hd2
      cases hd1
      cases hd2
      simp
    | succ k =>
      have e1 : i + 2 * (k + 1) = i + 2 + 2 * k := by omega
      have e2 : i + 2 * (k + 1) + 1 = i + 2 + 2 * k + 1 := by omega
      rw [e1] at hd1
      rw [e2] at hd2
      obtain ⟨g0, g1, g2⟩ := hget k d1 d2 (by omega) hd1 hd2
      have a0 : 3 * (k + 1) = 3 * k + 3 := by omega
      have a1 : 3 * k + 3 + 1 = 3 * k + 1 + 3 := by omega
      have a2 : 3 * k + 3 + 2 = 3 * k + 2 + 3 := by omega
      rw [a0, a1, a2, Function.iterate_succ_apply]
      refine ⟨?_, ?_, ?_⟩
      · rw [List.getElem?_append_right (by simp)]
        simpa using g0
      · rw [List.getElem?_append_right (by simp)]
        simpa using g1
      · rw [List.getElem?_append_right (by simp)]
        simpa using g2

/-- The draw calls of the passes of the loop of `Slope` depend on the data
only through the records of the pairs. -/
theorem slopeOut_congr (lib : Lib) (c c2 : ChartBox) (data data2 : List NameValue)
    (linewidth : ℚ)
    (hp : ∀ b di dj, slopePairOut lib c2 linewidth b di dj
      = slopePairOut lib c linewidth b di dj)
    (hs : ∀ b, slopeStep c2 b = slopeStep c b) (r : Nat) :
    ∀ (i : Nat) (b : SlopeBox), (∀ j, j < i + 2 * r → data2[j]? = data[j]?) →
      slopeOut lib c2 data2 linewidth r i b = slopeOut lib c data linewidth r i b := by
  induction r with
  | zero =>
    intro i b _
    rfl
  | succ r ih =>
    intro i b h
    simp only [slopeOut]
    rw [h i (by omega), h (i + 1) (by omega)]
    rcases data[i]? with _ | di
    · rfl
    · rcases data[i + 1]? with _ | dj
      · rfl
      · simp only
        rw [hp, hs, ih (i + 2) _ (fun j hj => h j (by omega))]

/-- C19: for a chart with n ≥ 2 records Slope succeeds, writes no error
message and processes exactly floor(n/2) pairs, records 2k and 2k + 1 for
k < floor(n/2); it draws exactly three lines per pair, in the box of the
pair: the two vertical axes from bottom to top at x1 and x2, and the sloped
segment between the mapped values of the two records; and when n is odd the
last record has no influence on the result. -/
theorem Slope_pairs (lib : Lib) (c : ChartBox) (deck : Deck) (linewidth : ℚ)
    (hn : 2 ≤ c.Data.length) :
    ∃ out : Deck, Slope lib c deck linewidth = some (deck ++ out, [])
      ∧ (linesOf out).length = 3 * (c.Data.length / 2)
      ∧ (∀ (k : Nat) (d1 d2 : NameValue), k < c.Data.length / 2 →
          c.Data[2 * k]? = some d1 → c.Data[2 * k + 1]? = some d2 →
          ∃ b : SlopeBox, b = (slopeStep c)^[k] ⟨c.Left, c.Right, c.Top, c.Bottom⟩
            ∧ (linesOf out)[3 * k]?
                = some (Prim.line b.x1 b.bottom b.x1 b.top (linewidth / 2) "black" [])
            ∧ (linesOf out)[3 * k + 1]?
                = some (Prim.line b.x2 b.bottom b.x2 b.top (linewidth / 2) "black" [])
            ∧ (linesOf out)[3 * k + 2]?
                = some (Prim.line b.x1
                    (MapRange d1.Value (if c.Zerobased then 0 else c.Minvalue) c.Maxvalue
                      b.bottom b.top)
                    b.x2
                    (MapRange d2.Value (if c.Zerobased then 0 else c.Minvalue) c.Maxvalue
                      b.bottom b.top)
                    linewidth c.DataColor []))
      ∧ (c.Data.length % 2 = 1 → ∀ d : NameValue,
          Slope lib { c with Data := c.Data.dropLast ++ [d] } deck linewidth
            = Slope lib c deck linewidth) := by
  have hrun : ∀ (c1 : ChartBox), 2 ≤ c1.Data.length →
      Slope lib c1 deck linewidth
        = some (deck ++ slopeOut lib c1 c1.Data linewidth (c1.Data.length / 2) 0
            ⟨c1.Left, c1.Right, c1.Top, c1.Bottom⟩, []) := by
    intro c1 h1
    unfold Slope
    simp only [if_neg (show ¬ c1.Data.length < 2 by omega)]
    rw [slopeLoop_spec lib c1 c1.Data linewidth (c1.Data.length / 2) 0 _ deck (by omega)
      (by omega)]
    rfl
  obtain ⟨hlen, hget⟩ := linesOf_slopeOut lib c c.Data linewidth (c.Data.length / 2) 0
    ⟨c.Left, c.Right, c.Top, c.Bottom⟩ (by omega)
  refine ⟨_, hrun c hn, hlen, ?_, ?_⟩
  · intro k d1 d2 hk hd1 hd2
    have := hget k d1 d2 hk (by simpa using hd1) (by simpa using hd2)
    exact ⟨_, rfl, this⟩
  · intro hodd d
    have hl : (c.Data.dropLast ++ [d]).length = c.Data.length := by
      rw [List.length_append, List.length_dropLast, List.length_singleton]
      omega
    rw [hrun c hn, hrun { c with Data := c.Data.dropLast ++ [d] } (by simpa [hl] using hn)]
    simp only [hl]
    rw [slopeOut_congr lib c { c with Data := c.Data.dropLast ++ [d] } c.Data
      (c.Data.dropLast ++ [d]) linewidth (fun _ _ _ => rfl) (fun _ => rfl)
      (c.Data.length / 2) 0 _ ?_]
    intro j hj
    have hj2 : j < c.Data.dropLast.length := by
      rw [List.length_dropLast]
      omega
    rw [List.getElem?_append_left hj2, List.getElem?_dropLast,
      if_pos (by rw [List.length_dropLast] at hj2; exact hj2)]

/-- Instance of C19 on the three records of `chart3`: one pair, drawn with
the axes at x = 0 and x = 100 and the segment from (0, 100/3) to
(100, 200/3); the third record is not drawn. -/
theorem Slope_pairs_witness :
    ∃ out : Deck, Slope exampleLib chart3 [] 1 = some (out, [])
      ∧ linesOf out
        = [ Prim.line 0 0 0 100 (1 / 2) "black" [],
            Prim.line 100 0 100 100 (1 / 2) "black" [],
            Prim.line 0 (100 / 3) 100 (200 / 3) 1 "rgb(128,128,128)" [] ] := by
  obtain ⟨out, h, hlen, hget, -⟩ := Slope_pairs exampleLib chart3 [] 1 (by decide)
  refine ⟨out, by simpa using h, ?_⟩
  obtain ⟨b, hb, e0, e1, e2⟩ := hget 0 ⟨"A", "", 10⟩ ⟨"B", "", 20⟩ (by decide) rfl rfl
  simp only [Function.iterate_zero, id_eq] at hb
  subst hb
  generalize linesOf out = L at hlen e0 e1 e2
  match L, hlen, e0, e1, e2 with
  | [l0, l1, l2], _, e0, e1, e2 =>
    simp only [Nat.mul_zero, Nat.zero_add, List.getElem?_cons_zero, List.getElem?_cons_succ,
      Option.some.injEq] at e0 e1 e2
    subst e0 e1 e2
    norm_num [chart3, MapRange]

/-! ## Proportional map -/

/-- The inner encoding loop writes `l` cells from the counter on when they fit
in the slice. -/
theorem fillCells_spec (note : String) (l : Nat) :
    ∀ (chars : List String) (cb : Nat), cb + l ≤ chars.length →
      ∃ chars2 : List String, fillCells note l chars cb = some (chars2, cb + l)
        ∧ chars2.length = chars.length
        ∧ ∀ j : Nat, chars2[j]? = if cb ≤ j ∧ j < cb + l then some note else chars[j]? := by
  induction l with
  | zero =>
    intro chars cb _
    refine ⟨chars, rfl, rfl, ?_⟩
    intro j
    rw [if_neg (by omega)]
  | succ l ih =>
    intro chars cb h
    have hcb : cb < chars.length := by omega
    obtain ⟨chars2, hrun, hlen, hget⟩ := ih (chars.set cb note) (cb + 1)
      (by rw [List.length_set]; omega)
    rw [List.length_set] at hlen
    refine ⟨chars2, ?_, hlen, ?_⟩
    · simp only [fillCells, setIdx, if_pos hcb, Option.bind_eq_bind, Option.some_bind, hrun]
      have e : cb + 1 + l = cb + (l + 1) := by omega
      rw [e]
    · intro j
      rw [hget j]
      by_cases hj : j = cb
      · subst hj
        rw [if_neg (by omega), if_pos (by omega), List.getElem?_set_self hcb]
      · rw [List.getElem?_set_ne (fun e => hj e.symm)]
        by_cases hc : cb + 1 ≤ j ∧ j < cb + 1 + l
        · rw [if_pos hc, if_pos (by omega)]
        · rw [if_neg hc, if_neg (by omega)]

/-- The encoding loop writes the cells of the records, in record order, from
the counter on when they fit in the slice. -/
theorem encodeCells_spec (items : List (NameValue × ℚ)) :
    ∀ (chars : List String) (cb : Nat), cb + (cellsOf items).length ≤ chars.length →
      ∃ chars2 : List String,
        encodeCells items chars cb = some (chars2, cb + (cellsOf items).length)
          ∧ chars2.length = chars.length
          ∧ ∀ j : Nat, chars2[j]?
              = if cb ≤ j ∧ j < cb + (cellsOf items).length then (cellsOf items)[j - cb]?
                else chars[j]? := by
  induction items with
  | nil =>
    intro chars cb _
    refine ⟨chars, rfl, rfl, ?_⟩
    intro j
    rw [if_neg (by simp [cellsOf])]
  | cons dp rest ih =>
    intro chars cb h
    have hcells : cellsOf (dp :: rest)
        = List.replicate (floatToInt dp.2).toNat dp.1.Note ++ cellsOf rest := by
      simp [cellsOf]
    rw [hcells, List.length_append, List.length_replicate] at h
    obtain ⟨chars1, hrun1, hlen1, hget1⟩ := fillCells_spec dp.1.Note (floatToInt dp.2).toNat
      chars cb (by omega)
    obtain ⟨chars2, hrun2, hlen2, hget2⟩ := ih chars1 (cb + (floatToInt dp.2).toNat)
      (by rw [hlen1]; omega)
    refine ⟨chars2, ?_, by rw [hlen2, hlen1], ?_⟩
    · obtain ⟨d, q⟩ := dp
      simp only [encodeCells, hrun1, Option.bind_eq_bind, Option.some_bind, hrun2, hcells,
        List.length_append, List.length_replicate, Nat.add_assoc]
    · intro j
      rw [hget2 j, hcells, List.length_append, List.length_replicate]
      by_cases hc2 : cb + (floatToInt dp.2).toNat ≤ j
          ∧ j < cb + (floatToInt dp.2).toNat + (cellsOf rest).length
      · rw [if_pos hc2, if_pos (by omega),
          List.getElem?_append_right (by rw [List.length_replicate]; omega),
          List.length_replicate]
        congr 1
        omega
      · rw [if_neg hc2, hget1 j]
        by_cases hc1 : cb ≤ j ∧ j < cb + (floatToInt dp.2).toNat
        · rw [if_pos hc1, if_pos (by omega),
            List.getElem?_append_left (by rw [List.length_replicate]; omega),
            List.getElem?_replicate, if_pos (by omega)]
        · rw [if_neg hc1, if_neg (by omega)]

/-- A row of the grid that stays below cell 100 draws one circle per column,
`linespacing` apart, coloured with the cells from `n` on. -/
theorem gridRow_spec (chars : List String) (y textsize linespacing : ℚ)
    (hchars : 100 ≤ chars.length) (m : Nat) :
    ∀ (x : ℚ) (n : Nat) (deck : Deck), n + m ≤ 100 →
      ∃ out : Deck,
        gridRow chars y textsize linespacing m x n deck = some (n + m, deck ++ out)
          ∧ out.length = m
          ∧ ∀ (t : Nat) (ch : String), t < m → chars[n + t]? = some ch →
              out[t]? = some (Prim.circle (x + (t : ℚ) * linespacing) y textsize ch []) := by
  induction m with
  | zero =>
    intro x n deck _
    exact ⟨[], by simp [gridRow], rfl, fun t ch ht => absurd ht (by omega)⟩
  | succ m ih =>
    intro x n deck h
    have hn : ¬ n ≥ 100 := by omega
    have hch : chars[n]? = some (chars[n]) := List.getElem?_eq_getElem (by omega)
    obtain ⟨out, hrun, hlen, hget⟩ := ih (x + linespacing) (n + 1)
      (deck.Circle x y textsize (chars[n]) []) (by omega)
    refine ⟨Prim.circle x y textsize (chars[n]) [] :: out, ?_, by simp [hlen], ?_⟩
    · have e : n + 1 + m = n + (m + 1) := by omega
      simp only [gridRow, if_neg hn, hch, Option.bind_eq_bind, Option.some_bind]
      rw [hrun, e]
      simp only [Deck.Circle, List.append_assoc, List.singleton_append]
    · intro t ch ht hcht
      cases t with
      | zero =>
        simp only [Nat.add_zero] at hcht
        rw [hch] at hcht
        cases hcht
        simp
      | succ t =>
        have e : n + (t + 1) = n + 1 + t := by omega
        rw [e] at hcht
        rw [List.getElem?_cons_succ, hget t ch (by omega) hcht]
        congr 2
        push_cast
        ring

/-- The rows of a grid that stays below cell 100: one circle per row and
column, row after row, in the order of the cells. -/
theorem gridRows_spec (chars : List String) (left textsize linespacing : ℚ) (cols : Nat)
    (hchars : 100 ≤ chars.length) (r : Nat) :
    ∀ (y : ℚ) (n : Nat) (deck : Deck), n + r * cols ≤ 100 →
      ∃ out : Deck,
        gridRows chars left textsize linespacing cols r y n deck
            = some (y - (r : ℚ) * linespacing, n + r * cols, deck ++ out)
          ∧ out.length = r * cols
          ∧ ∀ (i j : Nat) (ch : String), i < r → j < cols →
              chars[n + i * cols + j]? = some ch →
              out[i * cols + j]? = some (Prim.circle (left + (j : ℚ) * linespacing)
                (y - (i : ℚ) * linespacing) textsize ch []) := by
  induction r with
  | zero =>
    intro y n deck _
    exact ⟨[], by simp [gridRows], by simp, fun i j ch hi => absurd hi (by omega)⟩
  | succ r ih =>
    intro y n deck h
    have hmul : (r + 1) * cols = r * cols + cols := Nat.succ_mul r cols
    rw [hmul] at h
    obtain ⟨row, hrow, hrlen, hrget⟩ := gridRow_spec chars y textsize linespacing hchars cols
      left n deck (by omega)
    obtain ⟨rest, hrest, hlen, hget⟩ := ih (y - linespacing) (n + cols) (deck ++ row)
      (by omega)
    refine ⟨row ++ rest, ?_, ?_, ?_⟩
    · simp only [gridRows, hrow, Option.bind_eq_bind, Option.some_bind, hrest,
        List.append_assoc, hmul]
      congr 2
      · push_cast
        ring
      · congr 1
        omega
    · rw [List.length_append, hrlen, hlen, hmul]
      omega
    · intro i j ch hi hj hch
      cases i with
      | zero =>
        simp only [Nat.zero_mul, Nat.add_zero, Nat.zero_add] at hch ⊢
        rw [List.getElem?_append_left (by omega), hrget j ch hj hch]
        simp
      | succ i =>
        have hm : (i + 1) * cols = i * cols + cols := Nat.succ_mul i cols
        have e1 : n + (i + 1) * cols + j = n + cols + i * cols + j := by omega
        have e2 : (i + 1) * cols + j - row.length = i * cols + j := by omega
        rw [e1] at hch
        rw [List.getElem?_append_right (by omega), e2, hget i j ch (by omega) hj hch]
        congr 2
        push_cast
        ring

/-- The legend loop adds two draw calls per record, three when the values are
shown. -/
theorem legendLoop_spec (lib : Lib) (c : ChartBox) (left textsize linespacing cx : ℚ)
    (format : String) (showvalues : Bool) (items : List (NameValue × ℚ)) :
    ∀ (y : ℚ) (deck : Deck), ∃ out : Deck,
      legendLoop lib c left textsize linespacing cx format showvalues items y deck
          = deck ++ out
        ∧ out.length = (if showvalues then 3 else 2) * items.length := by
  induction items with
  | nil =>
    intro y deck
    exact ⟨[], by simp [legendLoop], by simp⟩
  | cons dp rest ih =>
    intro y deck
    obtain ⟨d, q⟩ := dp
    cases showvalues with
    | false =>
      obtain ⟨out, hrun, hlen⟩ := ih (y - linespacing * (12 / 10))
        ((deck.Circle left (y - linespacing * (12 / 10)) textsize d.Note []).Text
          (left + textsize) (y - linespacing * (12 / 10) - textsize / 2)
          (d.Label ++ " (" ++ lib.Sprintf format [FmtArg.num q] ++ "%)") "sans" textsize "" [])
      refine ⟨Prim.circle left (y - linespacing * (12 / 10)) textsize d.Note []
        :: Prim.text (left + textsize) (y - linespacing * (12 / 10) - textsize / 2)
          (d.Label ++ " (" ++ lib.Sprintf format [FmtArg.num q] ++ "%)") "sans" textsize "" []
        :: out, ?_, ?_⟩
      · simp only [legendLoop, Bool.false_eq_true, if_false]
        rw [hrun]
        simp [Deck.Circle, Deck.Text]
      · simp only [Bool.false_eq_true, if_false] at hlen ⊢
        simp only [List.length_cons, hlen]
        omega
    | true =>
      obtain ⟨out, hrun, hlen⟩ := ih (y - linespacing * (12 / 10))
        (((deck.Circle left (y - linespacing * (12 / 10)) textsize d.Note []).Text
          (left + textsize) (y - linespacing * (12 / 10) - textsize / 2)
          (d.Label ++ " (" ++ lib.Sprintf format [FmtArg.num q] ++ "%)") "sans" textsize ""
          []).TextEnd (left + cx) (y - linespacing * (12 / 10) - textsize / 2)
          (lib.Sprintf format [FmtArg.num d.Value]) "sans" textsize c.ValueColor [])
      refine ⟨Prim.circle left (y - linespacing * (12 / 10)) textsize d.Note []
        :: Prim.text (left + textsize) (y - linespacing * (12 / 10) - textsize / 2)
          (d.Label ++ " (" ++ lib.Sprintf format [FmtArg.num q] ++ "%)") "sans" textsize "" []
        :: Prim.textEnd (left + cx) (y - linespacing * (12 / 10) - textsize / 2)
          (lib.Sprintf format [FmtArg.num d.Value]) "sans" textsize c.ValueColor []
        :: out, ?_, ?_⟩
      · simp only [legendLoop, if_true]
        rw [hrun]
        simp [Deck.Circle, Deck.Text, Deck.TextEnd]
      · simp only [if_true] at hlen ⊢
        simp only [List.length_cons, hlen]
        omega

/-- Converting a whole number back to `int` gives the number. -/
theorem floatToInt_intCast (z : Int) : floatToInt ((z : Int) : ℚ) = z := by
  unfold floatToInt
  by_cases h : (0 : ℚ) ≤ (z : ℚ)
  · rw [if_pos h, Int.floor_intCast]
  · rw [if_neg h, Int.ceil_intCast]

/-- The cells the records own, written with the floors of their percentages. -/
theorem cellsOf_zip (f : NameValue → ℚ) (data : List NameValue) :
    cellsOf (data.zip (data.map (fun d => ((⌊f d⌋ : Int) : ℚ))))
      = data.flatMap (fun d => List.replicate (⌊f d⌋).toNat d.Note) := by
  induction data with
  | nil => rfl
  | cons d data ih =>
    simp only [cellsOf] at ih
    simp only [cellsOf, List.map_cons, List.zip_cons_cons, List.flatMap_cons,
      floatToInt_intCast, ih]

/-- The number of cells the records own. -/
theorem length_flatMap_replicate (f : NameValue → ℚ) (data : List NameValue) :
    (data.flatMap (fun d => List.replicate (⌊f d⌋).toNat d.Note)).length
      = (data.map (fun d => (⌊f d⌋).toNat)).sum := by
  induction data with
  | nil => rfl
  | cons d data ih => simp [List.flatMap_cons, ih]

/-- The floors of non-negative numbers add up to at most their sum. -/
theorem sum_floor_le (f : NameValue → ℚ) (data : List NameValue)
    (hnn : ∀ d ∈ data, 0 ≤ f d) :
    (((data.map (fun d => (⌊f d⌋).toNat)).sum : Nat) : ℚ) ≤ (data.map f).sum := by
  induction data with
  | nil => simp
  | cons d data ih =>
    have hd : 0 ≤ f d := hnn d (List.mem_cons_self d data)
    have hfl : (0 : Int) ≤ ⌊f d⌋ := Int.floor_nonneg.mpr hd
    have hcast : (((⌊f d⌋).toNat : Nat) : ℚ) = ((⌊f d⌋ : Int) : ℚ) := by
      have : (((⌊f d⌋).toNat : Nat) : Int) = ⌊f d⌋ := Int.toNat_of_nonneg hfl
      exact_mod_cast this
    have hle : ((⌊f d⌋ : Int) : ℚ) ≤ f d := Int.floor_le (f d)
    have := ih (fun e he => hnn e (List.mem_cons_of_mem d he))
    simp only [List.map_cons, List.sum_cons]
    rw [Nat.cast_add, hcast]
    linarith

/-- For non-negative values with a positive sum the records own at most 100
cells. -/
theorem owned_le_100 (data : List NameValue) (hnn : ∀ d ∈ data, 0 ≤ d.Value)
    (hpos : 0 < (data.map (fun d => d.Value)).sum) :
    (data.map (fun d =>
      (⌊(d.Value / (data.map (fun d => d.Value)).sum) * 100⌋).toNat)).sum ≤ 100 := by
  have h := sum_floor_le (fun d => (d.Value / (data.map (fun d => d.Value)).sum) * 100) data
    (fun d hd => mul_nonneg (div_nonneg (hnn d hd) hpos.le) (by norm_num))
  rw [sum_map_scale, div_self hpos.ne.symm, one_mul] at h
  have h2 : (((data.map (fun d =>
      (⌊(d.Value / (data.map (fun d => d.Value)).sum) * 100⌋).toNat)).sum : Nat) : ℚ)
        ≤ ((100 : Nat) : ℚ) := by
    rw [Nat.cast_ofNat]
    exact h
  exact Nat.cast_le.mp h2

/-- What PGrid does when the product of rows and columns is 100 as an `int`
and the records own at most 100 cells: it fills the cells, the owned ones
first and the empty colour after them, draws the grid and then the legend. -/
theorem PGrid_run (lib : Lib) (c : ChartBox) (deck : Deck) (linespacing : ℚ)
    (rows cols : Int) (showvalues : Bool) (hw : wrapInt (rows * cols) = 100)
    (hfit : (c.Data.map (fun d =>
      (⌊(d.Value / (c.Data.map (fun d => d.Value)).sum) * 100⌋).toNat)).sum ≤ 100) :
    ∃ chars : List String,
      chars = c.Data.flatMap (fun d => List.replicate
            (⌊(d.Value / (c.Data.map (fun d => d.Value)).sum) * 100⌋).toNat d.Note)
          ++ List.replicate (100 - (c.Data.map (fun d =>
            (⌊(d.Value / (c.Data.map (fun d => d.Value)).sum) * 100⌋).toNat)).sum) ""
        ∧ chars.length = 100
        ∧ PGrid lib c deck linespacing rows cols showvalues
          = (gridRows chars (if c.Left < 0 then 30 else c.Left) c.TextSize linespacing
              cols.toNat rows.toNat c.Top 0 deck).bind
            (fun r => some (legendLoop lib c (if c.Left < 0 then 30 else c.Left) c.TextSize
              linespacing (((wrapInt (cols - 1) : Int) : ℚ) * linespacing + linespacing / 2)
              c.DataFormat showvalues
              (c.Data.zip (c.Data.map (fun d =>
                ((⌊(d.Value / (c.Data.map (fun d => d.Value)).sum) * 100⌋ : Int) : ℚ))))
              r.1 r.2.2)) := by
  have hcells := cellsOf_zip
    (fun d => (d.Value / (c.Data.map (fun d => d.Value)).sum) * 100) c.Data
  have hlen := length_flatMap_replicate
    (fun d => (d.Value / (c.Data.map (fun d => d.Value)).sum) * 100) c.Data
  obtain ⟨chars, hrun, hclen, hget⟩ := encodeCells_spec
    (c.Data.zip (c.Data.map (fun d =>
      ((⌊(d.Value / (c.Data.map (fun d => d.Value)).sum) * 100⌋ : Int) : ℚ))))
    (List.replicate 100 "") 0
    (by rw [hcells, hlen, List.length_replicate]; omega)
  rw [List.length_replicate] at hclen
  have hchars : chars = c.Data.flatMap (fun d => List.replicate
        (⌊(d.Value / (c.Data.map (fun d => d.Value)).sum) * 100⌋).toNat d.Note)
      ++ List.replicate (100 - (c.Data.map (fun d =>
        (⌊(d.Value / (c.Data.map (fun d => d.Value)).sum) * 100⌋).toNat)).sum) "" := by
    apply List.ext_getElem?
    intro j
    rw [hget j, hcells, hlen]
    by_cases hj : j < (c.Data.map (fun d =>
        (⌊(d.Value / (c.Data.map (fun d => d.Value)).sum) * 100⌋).toNat)).sum
    · rw [if_pos (by omega), List.getElem?_append_left (by rw [hlen]; exact hj)]
      simp
    · rw [if_neg (by omega), List.getElem?_append_right (by rw [hlen]; omega), hlen,
        List.getElem?_replicate, List.getElem?_replicate]
      by_cases h100 : j < 100
      · rw [if_pos h100, if_pos (by omega)]
      · rw [if_neg h100, if_neg (by omega)]
  refine ⟨chars, hchars, hclen, ?_⟩
  unfold PGrid
  simp only [hw, ne_eq, not_true_eq_false, if_false, foldl_add_Value, zero_add, hrun,
    Option.bind_eq_bind, Option.some_bind]

/-- With no row to draw PGrid draws the legend only. -/
theorem PGrid_no_rows (lib : Lib) (c : ChartBox) (deck : Deck) (linespacing : ℚ)
    (rows cols : Int) (showvalues : Bool) (hw : wrapInt (rows * cols) = 100)
    (hfit : (c.Data.map (fun d =>
      (⌊(d.Value / (c.Data.map (fun d => d.Value)).sum) * 100⌋).toNat)).sum ≤ 100)
    (hrows : rows ≤ 0) :
    PGrid lib c deck linespacing rows cols showvalues
      = some (legendLoop lib c (if c.Left < 0 then 30 else c.Left) c.TextSize
          linespacing (((wrapInt (cols - 1) : Int) : ℚ) * linespacing + linespacing / 2)
          c.DataFormat showvalues
          (c.Data.zip (c.Data.map (fun d =>
            ((⌊(d.Value / (c.Data.map (fun d => d.Value)).sum) * 100⌋ : Int) : ℚ))))
          c.Top deck) := by
  obtain ⟨chars, -, -, hrun⟩ := PGrid_run lib c deck linespacing rows cols showvalues hw hfit
  have h0 : rows.toNat = 0 := Int.toNat_eq_zero.mpr hrows
  rw [hrun, h0]
  rfl

/-- The legend of `chart3` below the top 100 with line spacing 2. -/
theorem PGrid_legend_chart3 (cx : ℚ) (items : List ℚ) (h : items.length = 3) :
    legendLoop exampleLib chart3 0 (12 / 10) 2 cx "%.1f" false (chart3.Data.zip items) 100 []
      = [ Prim.circle 0 (488 / 5) (6 / 5) "" [],
          Prim.text (6 / 5) 97 "A (%.1f%)" "sans" (6 / 5) "" [],
          Prim.circle 0 (476 / 5) (6 / 5) "" [],
          Prim.text (6 / 5) (473 / 5) "B (%.1f%)" "sans" (6 / 5) "" [],
          Prim.circle 0 (464 / 5) (6 / 5) "" [],
          Prim.text (6 / 5) (461 / 5) "C (%.1f%)" "sans" (6 / 5) "" [] ] := by
  match items, h with
  | [p0, p1, p2], _ =>
    simp only [chart3, List.zip_cons_cons, List.zip_nil_right, legendLoop, exampleLib,
      Deck.Circle, Deck.Text, Bool.false_eq_true, if_false, List.nil_append,
      List.cons_append]
    norm_num
    decide

/-- C12 as the code has it: whenever the product of rows and columns, as the
64-bit `int` the code computes, is not 100, PGrid returns normally and leaves
the deck as it was; this is so whenever rows·cols ≠ 100 and the product does
not overflow. -/
theorem PGrid_mismatch (lib : Lib) (c : ChartBox) (deck : Deck) (linespacing : ℚ)
    (rows cols : Int) (showvalues : Bool) :
    (wrapInt (rows * cols) ≠ 100 →
        PGrid lib c deck linespacing rows cols showvalues = some deck)
      ∧ (-(2 ^ 63) ≤ rows * cols → rows * cols < 2 ^ 63 → rows * cols ≠ 100 →
        PGrid lib c deck linespacing rows cols showvalues = some deck) := by
  have h1 : wrapInt (rows * cols) ≠ 100 →
      PGrid lib c deck linespacing rows cols showvalues = some deck := by
    intro h
    unfold PGrid
    simp only [if_pos h]
  refine ⟨h1, ?_⟩
  intro hlo hhi hne
  apply h1
  generalize rows * cols = z at hlo hhi hne
  unfold wrapInt
  omega

/-- Instance of the amended C12 on a grid of 3 rows and 3 columns. -/
theorem PGrid_mismatch_witness : PGrid exampleLib chart3 [] 2 3 3 false = some [] :=
  (PGrid_mismatch exampleLib chart3 [] 2 3 3 false).2 (by decide) (by decide) (by decide)

/-- C12 fails when the product overflows: for rows = −4 and
cols = −(2⁶² + 25) the product 2⁶⁴ + 100 is not 100, but as a 64-bit `int`
it is 100, and PGrid draws the legend. -/
theorem PGrid_overflow_counterexample :
    (-4 : Int) * (-4611686018427387929) ≠ 100
      ∧ wrapInt ((-4 : Int) * (-4611686018427387929)) = 100
      ∧ PGrid exampleLib chart3 [] 2 (-4) (-4611686018427387929) false
        = some [ Prim.circle 0 (488 / 5) (6 / 5) "" [],
            Prim.text (6 / 5) 97 "A (%.1f%)" "sans" (6 / 5) "" [],
            Prim.circle 0 (476 / 5) (6 / 5) "" [],
            Prim.text (6 / 5) (473 / 5) "B (%.1f%)" "sans" (6 / 5) "" [],
            Prim.circle 0 (464 / 5) (6 / 5) "" [],
            Prim.text (6 / 5) (461 / 5) "C (%.1f%)" "sans" (6 / 5) "" [] ] := by
  have hw : wrapInt ((-4 : Int) * (-4611686018427387929)) = 100 := by decide
  refine ⟨by decide, hw, ?_⟩
  rw [PGrid_no_rows exampleLib chart3 [] 2 (-4) (-4611686018427387929) false hw
    (owned_le_100 chart3.Data (by simp [chart3]) (by norm_num [chart3])) (by decide)]
  have hleft : (if chart3.Left < 0 then (30 : ℚ) else chart3.Left) = 0 := by
    norm_num [chart3]
  rw [hleft]
  exact congrArg some (PGrid_legend_chart3 _ _ (by simp [chart3]))

/-- What PGrid does, with rounding, when the product of rows and columns is
100 as an `int` and the records own at most 100 cells: it fills the cells, the
owned ones first and the empty colour after them, draws the grid and then the
legend. -/
theorem PGridWith_run (r : ℚ → ℚ) (lib : Lib) (c : ChartBox) (deck : Deck)
    (linespacing : ℚ) (rows cols : Int) (showvalues : Bool)
    (hw : wrapInt (rows * cols) = 100)
    (hfit : (c.Data.map (fun d => (⌊pgridShare r c.Data d⌋).toNat)).sum ≤ 100) :
    ∃ chars : List String,
      chars = c.Data.flatMap (fun d => List.replicate (⌊pgridShare r c.Data d⌋).toNat d.Note)
          ++ List.replicate
            (100 - (c.Data.map (fun d => (⌊pgridShare r c.Data d⌋).toNat)).sum) ""
        ∧ chars.length = 100
        ∧ PGridWith r lib c deck linespacing rows cols showvalues
          = (gridRows chars (if c.Left < 0 then 30 else c.Left) c.TextSize linespacing
              cols.toNat rows.toNat c.Top 0 deck).bind
            (fun res => some (legendLoop lib c (if c.Left < 0 then 30 else c.Left)
              c.TextSize linespacing
              (((wrapInt (cols - 1) : Int) : ℚ) * linespacing + linespacing / 2)
              c.DataFormat showvalues
              (c.Data.zip (c.Data.map (fun d => ((⌊pgridShare r c.Data d⌋ : Int) : ℚ))))
              res.1 res.2.2)) := by
  have hcells := cellsOf_zip (pgridShare r c.Data) c.Data
  have hlen := length_flatMap_replicate (pgridShare r c.Data) c.Data
  obtain ⟨chars, hrun, hclen, hget⟩ := encodeCells_spec
    (c.Data.zip (c.Data.map (fun d => ((⌊pgridShare r c.Data d⌋ : Int) : ℚ))))
    (List.replicate 100 "") 0
    (by rw [hcells, hlen, List.length_replicate]; omega)
  rw [List.length_replicate] at hclen
  have hchars : chars
      = c.Data.flatMap (fun d => List.replicate (⌊pgridShare r c.Data d⌋).toNat d.Note)
        ++ List.replicate
          (100 - (c.Data.map (fun d => (⌊pgridShare r c.Data d⌋).toNat)).sum) "" := by
    apply List.ext_getElem?
    intro j
    rw [hget j, hcells, hlen]
    by_cases hj : j < (c.Data.map (fun d => (⌊pgridShare r c.Data d⌋).toNat)).sum
    · rw [if_pos (by omega), List.getElem?_append_left (by rw [hlen]; exact hj)]
      simp
    · rw [if_neg (by omega), List.getElem?_append_right (by rw [hlen]; omega), hlen,
        List.getElem?_replicate, List.getElem?_replicate]
      by_cases h100 : j < 100
      · rw [if_pos h100, if_pos (by omega)]
      · rw [if_neg h100, if_neg (by omega)]
  refine ⟨chars, hchars, hclen, ?_⟩
  simp only [pgridShare] at hrun
  unfold PGridWith
  simp only [hw, ne_eq, not_true_eq_false, if_false, hrun, Option.bind_eq_bind,
    Option.some_bind, pgridShare]

/-- In exact arithmetic the computed percentage of a record is its value over
the sum of the values, times 100. -/
theorem pgridShare_id (data : List NameValue) (d : NameValue) :
    pgridShare (fun q => q) data d = (d.Value / (data.map (fun d => d.Value)).sum) * 100 := by
  simp only [pgridShare, foldl_add_Value, zero_add]

/-- C13 as the code has it: PGrid computes the percentage p_k of record k as
(value_k/sum)·100 in float64 arithmetic and takes its floor.  For R rows and C
columns with R·C = 100 (so both positive) and a record list with non-negative
values and positive sum, in exact arithmetic, and in float64 arithmetic
whenever the floors of the computed percentages total at most 100, PGrid
succeeds and draws first exactly 100 grid circles, then the legend; the
circle of row i and column j is number i·C + j (row-major order), at
(left + j·linespacing, Top − i·linespacing), coloured with cell i·C + j;
record k owns floor(p_k) consecutive cells with its note after the cells of
the records before it, at most 100 cells are owned, and the cells after the
owned ones have the empty colour; in exact arithmetic p_k is
100·value_k/sum. -/
theorem PGrid_allocation (r : ℚ → ℚ) (lib : Lib) (c : ChartBox) (deck : Deck)
    (linespacing : ℚ) (R C : Nat) (showvalues : Bool) (hRC : R * C = 100)
    (hnn : ∀ d ∈ c.Data, 0 ≤ d.Value) (hpos : 0 < (c.Data.map (fun d => d.Value)).sum)
    (hfit : (∀ q : ℚ, r q = q)
      ∨ (c.Data.map (fun d => (⌊pgridShare r c.Data d⌋).toNat)).sum ≤ 100) :
    ∃ (grid legend : Deck) (cells : List String),
      PGridWith r lib c deck linespacing (R : Int) (C : Int) showvalues
          = some (deck ++ grid ++ legend)
        ∧ grid.length = 100
        ∧ legend.length = (if showvalues then 3 else 2) * c.Data.length
        ∧ (c.Data.map (fun d => (⌊pgridShare r c.Data d⌋).toNat)).sum ≤ 100
        ∧ cells = c.Data.flatMap (fun d =>
              List.replicate (⌊pgridShare r c.Data d⌋).toNat d.Note)
            ++ List.replicate
              (100 - (c.Data.map (fun d => (⌊pgridShare r c.Data d⌋).toNat)).sum) ""
        ∧ (∀ (i j : Nat), i < R → j < C →
            ∃ ch : String, cells[i * C + j]? = some ch
              ∧ grid[i * C + j]? = some (Prim.circle
                  ((if c.Left < 0 then 30 else c.Left) + (j : ℚ) * linespacing)
                  (c.Top - (i : ℚ) * linespacing) c.TextSize ch []))
        ∧ ((∀ q : ℚ, r q = q) → ∀ d : NameValue,
            pgridShare r c.Data d = 100 * d.Value / (c.Data.map (fun d => d.Value)).sum) := by
  have hexact : (∀ q : ℚ, r q = q) → ∀ d : NameValue,
      pgridShare r c.Data d = 100 * d.Value / (c.Data.map (fun d => d.Value)).sum := by
    intro hr d
    have hid : r = fun q => q := funext hr
    subst hid
    rw [pgridShare_id]
    ring
  have hfit2 : (c.Data.map (fun d => (⌊pgridShare r c.Data d⌋).toNat)).sum ≤ 100 := by
    rcases hfit with hr | h
    · have hid : r = fun q => q := funext hr
      subst hid
      simp only [pgridShare_id]
      exact owned_le_100 c.Data hnn hpos
    · exact h
  have hw : wrapInt ((R : Int) * (C : Int)) = 100 := by
    have : (R : Int) * (C : Int) = 100 := by exact_mod_cast hRC
    rw [this]
    decide
  obtain ⟨chars, hchars, hclen, hrun⟩ :=
    PGridWith_run r lib c deck linespacing (R : Int) (C : Int) showvalues hw hfit2
  obtain ⟨grid, hgrid, hglen, hgget⟩ := gridRows_spec chars
    (if c.Left < 0 then 30 else c.Left) c.TextSize linespacing C (by omega) R c.Top 0 deck
    (by omega)
  obtain ⟨legend, hleg, hllen⟩ := legendLoop_spec lib c (if c.Left < 0 then 30 else c.Left)
    c.TextSize linespacing
    (((wrapInt ((C : Int) - 1) : Int) : ℚ) * linespacing + linespacing / 2) c.DataFormat
    showvalues
    (c.Data.zip (c.Data.map (fun d => ((⌊pgridShare r c.Data d⌋ : Int) : ℚ))))
    (c.Top - (R : ℚ) * linespacing) (deck ++ grid)
  refine ⟨grid, legend, chars, ?_, by rw [hglen, hRC], ?_, hfit2, hchars, ?_, hexact⟩
  · rw [hrun, Int.toNat_ofNat, Int.toNat_ofNat, hgrid]
    simp only [Option.some_bind, hleg]
  · rw [hllen]
    simp
  · intro i j hi hj
    have hlt : i * C + j < 100 := by
      have : i * C + C ≤ R * C := by
        have := Nat.mul_le_mul_right C (Nat.succ_le_of_lt hi)
        rw [Nat.succ_mul] at this
        exact this
      omega
    rcases hq : chars[i * C + j]? with _ | ch
    · have := List.getElem?_eq_none_iff.mp hq
      omega
    · exact ⟨ch, rfl, hgget i j ch hi hj (by simpa using hq)⟩

/-- The percentages of the records 29 and 71 of `chartShares` in float64
arithmetic: 28.999999999999996 and 71. -/
theorem pgridShare_chartShares :
    pgridShare round64 chartShares.Data ⟨"A", "red", 29⟩
        = 8162774324609023 / 281474976710656
      ∧ pgridShare round64 chartShares.Data ⟨"B", "blue", 71⟩ = 71 := by
  have g1 : round64 29 = 29 := by
    simpa using round64_natCast 29 (by norm_num)
  have g2 : round64 100 = 100 := by
    simpa using round64_natCast 100 (by norm_num)
  have g3 : round64 (29 / 100) = 5224175567749775 / 18014398509481984 := by
    rw [round64_pos (29 / 100) (-54) 5224175567749775 (by norm_num) (by norm_num)
      (by norm_num [roundHalfEven])]
    norm_num
  have g4 : round64 (130604389193744375 / 4503599627370496) = 8162774324609023 / 281474976710656 := by
    rw [round64_pos (130604389193744375 / 4503599627370496) (-48) 8162774324609023 (by norm_num) (by norm_num)
      (by norm_num [roundHalfEven])]
    norm_num
  have g5 : round64 (71 / 100) = 799388933858263 / 1125899906842624 := by
    rw [round64_pos (71 / 100) (-53) 6395111470866104 (by norm_num) (by norm_num)
      (by norm_num [roundHalfEven])]
    norm_num
  have g6 : round64 (19984723346456575 / 281474976710656) = 71 := by
    rw [round64_pos (19984723346456575 / 281474976710656) (-46) 4996180836614144 (by norm_num) (by norm_num)
      (by norm_num [roundHalfEven])]
    norm_num
  constructor <;>
    simp only [pgridShare, chartShares, List.foldl] <;>
    norm_num [round64_zero, g1, g2, g3, g4, g5, g6]

/-- Instance of the amended C13 on `chartShares` in float64 arithmetic, in a
grid of 10 rows and 10 columns: the computed percentage of the record 29 of
100 is 28.999999999999996, so it owns the 28 cells 0 to 27, the other record
owns the next 71, and the last cell has the empty colour. -/
theorem PGrid_allocation_witness :
    ∃ grid legend : Deck,
      PGridWith round64 exampleLib chartShares [] 2 10 10 false = some (grid ++ legend)
        ∧ grid.length = 100
        ∧ grid[2 * 10 + 7]? = some (Prim.circle 14 96 (6 / 5) "red" [])
        ∧ grid[2 * 10 + 8]? = some (Prim.circle 16 96 (6 / 5) "blue" [])
        ∧ grid[9 * 10 + 9]? = some (Prim.circle 18 82 (6 / 5) "" []) := by
  obtain ⟨hA, hB⟩ := pgridShare_chartShares
  have hf1 : ⌊(8162774324609023 / 281474976710656 : ℚ)⌋ = 28 := by
    rw [Int.floor_eq_iff]
    norm_num
  have hfl : (chartShares.Data.map
      (fun d => (⌊pgridShare round64 chartShares.Data d⌋).toNat)) = [28, 71] := by
    have hd : chartShares.Data = [⟨"A", "red", 29⟩, ⟨"B", "blue", 71⟩] := rfl
    rw [hd] at hA hB ⊢
    simp only [List.map_cons, List.map_nil, hA, hB, hf1]
    simp
  have hfit : (chartShares.Data.map
      (fun d => (⌊pgridShare round64 chartShares.Data d⌋).toNat)).sum ≤ 100 := by
    rw [hfl]
    decide
  obtain ⟨grid, legend, cells, hrun, hlen, -, -, hcells, hget, -⟩ :=
    PGrid_allocation round64 exampleLib chartShares [] 2 10 10 false (by decide)
      (by simp [chartShares]) (by norm_num [chartShares]) (Or.inr hfit)
  have hc : cells = List.replicate 28 "red" ++ List.replicate 71 "blue"
      ++ List.replicate 1 "" := by
    have hd : chartShares.Data = [⟨"A", "red", 29⟩, ⟨"B", "blue", 71⟩] := rfl
    rw [hcells, hfl]
    rw [hd] at hA hB ⊢
    simp only [List.flatMap_cons, List.flatMap_nil, hA, hB, hf1]
    simp
  refine ⟨grid, legend, by simpa using hrun, hlen, ?_, ?_, ?_⟩
  · obtain ⟨ch, h1, h2⟩ := hget 2 7 (by decide) (by decide)
    rw [hc] at h1
    have e : ch = "red" := by
      simp [List.getElem?_append, List.getElem?_replicate] at h1
      exact h1.symm
    rw [h2, e]
    norm_num [chartShares, chart3]
  · obtain ⟨ch, h1, h2⟩ := hget 2 8 (by decide) (by decide)
    rw [hc] at h1
    have e : ch = "blue" := by
      simp [List.getElem?_append, List.getElem?_replicate] at h1
      exact h1.symm
    rw [h2, e]
    norm_num [chartShares, chart3]
  · obtain ⟨ch, h1, h2⟩ := hget 9 9 (by decide) (by decide)
    rw [hc] at h1
    have e : ch = "" := by
      simp [List.getElem?_append, List.getElem?_replicate] at h1
      exact h1.symm
    rw [h2, e]
    norm_num [chartShares, chart3]

/-- The floors of the percentages of the records 10, 20, 30 of `chart3` in
float64 arithmetic are 16, 33 and 50. -/
theorem pgridShare_chart3 :
    chart3.Data.map (fun d => (⌊pgridShare round64 chart3.Data d⌋).toNat) = [16, 33, 50] := by
  have g1 : round64 10 = 10 := by
    simpa using round64_natCast 10 (by norm_num)
  have g2 : round64 30 = 30 := by
    simpa using round64_natCast 30 (by norm_num)
  have g3 : round64 60 = 60 := by
    simpa using round64_natCast 60 (by norm_num)
  have g4 : round64 (1 / 6) = 6004799503160661 / 36028797018963968 := by
    rw [round64_pos (1 / 6) (-55) 6004799503160661 (by norm_num) (by norm_num)
      (by norm_num [roundHalfEven])]
    norm_num
  have g5 : round64 (150119987579016525 / 9007199254740992) = 2345624805922133 / 140737488355328 := by
    rw [round64_pos (150119987579016525 / 9007199254740992) (-48) 4691249611844266 (by norm_num) (by norm_num)
      (by norm_num [roundHalfEven])]
    norm_num
  have g6 : round64 (1 / 3) = 6004799503160661 / 18014398509481984 := by
    rw [round64_pos (1 / 3) (-54) 6004799503160661 (by norm_num) (by norm_num)
      (by norm_num [roundHalfEven])]
    norm_num
  have g7 : round64 (150119987579016525 / 4503599627370496) = 2345624805922133 / 70368744177664 := by
    rw [round64_pos (150119987579016525 / 4503599627370496) (-47) 4691249611844266 (by norm_num) (by norm_num)
      (by norm_num [roundHalfEven])]
    norm_num
  have g8 : round64 (1 / 2) = 1 / 2 := by
    rw [round64_pos (1 / 2) (-53) 4503599627370496 (by norm_num) (by norm_num)
      (by norm_num [roundHalfEven])]
    norm_num
  have g9 : round64 50 = 50 := by
    simpa using round64_natCast 50 (by norm_num)
  have hf1 : ⌊(2345624805922133 / 140737488355328 : ℚ)⌋ = 16 := by
    rw [Int.floor_eq_iff]
    norm_num
  have hf2 : ⌊(2345624805922133 / 70368744177664 : ℚ)⌋ = 33 := by
    rw [Int.floor_eq_iff]
    norm_num
  simp only [pgridShare, chart3, List.foldl, List.map]
  norm_num [round64_zero, g1, g2, g3, g4, g5, g6, g7, g8, g9, hf1, hf2]
  decide

/-- C13 fails for negative rows and columns: −10 · −10 = 100, the values of
`chart3` are positive, yet PGrid draws no grid circle at all, only the
legend. -/
theorem PGrid_negative_counterexample :
    (-10 : Int) * (-10) = 100
      ∧ (∀ d ∈ chart3.Data, 0 ≤ d.Value)
      ∧ 0 < (chart3.Data.map (fun d => d.Value)).sum
      ∧ PGridWith round64 exampleLib chart3 [] 2 (-10) (-10) false
        = some [ Prim.circle 0 (488 / 5) (6 / 5) "" [],
            Prim.text (6 / 5) 97 "A (%.1f%)" "sans" (6 / 5) "" [],
            Prim.circle 0 (476 / 5) (6 / 5) "" [],
            Prim.text (6 / 5) (473 / 5) "B (%.1f%)" "sans" (6 / 5) "" [],
            Prim.circle 0 (464 / 5) (6 / 5) "" [],
            Prim.text (6 / 5) (461 / 5) "C (%.1f%)" "sans" (6 / 5) "" [] ] := by
  have hnn : ∀ d ∈ chart3.Data, 0 ≤ d.Value := by simp [chart3]
  have hpos : 0 < (chart3.Data.map (fun d => d.Value)).sum := by norm_num [chart3]
  refine ⟨by decide, hnn, hpos, ?_⟩
  obtain ⟨chars, -, -, hrun⟩ := PGridWith_run round64 exampleLib chart3 [] 2 (-10) (-10)
    false (by decide) (by rw [pgridShare_chart3]; decide)
  have h0 : (-10 : Int).toNat = 0 := by decide
  rw [hrun, h0]
  have hleft : (if chart3.Left < 0 then (30 : ℚ) else chart3.Left) = 0 := by
    norm_num [chart3]
  rw [hleft]
  exact congrArg some (PGrid_legend_chart3 _ _ (by simp [chart3]))

/-! ## The nice axis maximum covers the data -/

/-- C27: for every max > 0, every min and every n ≠ 0, the second component R
of cyrange(min, max, n) satisfies R ≥ max. -/
theorem cyrange_covers (lib : Lib) (min max : ℚ) (n : Int) (_hmax : 0 < max)
    (_hn : n ≠ 0) : max ≤ (cyrange lib min max n).2.1 := by
  have hp : (0 : ℚ) < (10 : ℚ) ^ (floatToInt (lib.Log10 max)) := zpow_pos (by norm_num) _
  show max ≤ ((⌈max / (10 : ℚ) ^ (floatToInt (lib.Log10 max))⌉ : Int) : ℚ)
    * (10 : ℚ) ^ (floatToInt (lib.Log10 max))
  have hc := Int.le_ceil (max / (10 : ℚ) ^ (floatToInt (lib.Log10 max)))
  calc max = max / (10 : ℚ) ^ (floatToInt (lib.Log10 max))
        * (10 : ℚ) ^ (floatToInt (lib.Log10 max)) := by
        field_simp
    _ ≤ _ := mul_le_mul_of_nonneg_right hc hp.le

/-- Instance of C27 at max = 0.5 with five ticks. -/
theorem cyrange_covers_witness : (1 / 2 : ℚ) ≤ (cyrange exampleLib 0 (1 / 2) 5).2.1 :=
  cyrange_covers exampleLib 0 (1 / 2) 5 (by norm_num) (by decide)

/-! ## Proportional grid: cells beyond the grid -/

/-- The inner encoding loop fails when its cells do not fit in the slice: the
write after the last cell of the slice is out of range. -/
theorem fillCells_overflow (note : String) (l : Nat) :
    ∀ (chars : List String) (cb : Nat), cb ≤ chars.length → chars.length < cb + l →
      fillCells note l chars cb = none := by
  induction l with
  | zero =>
    intro chars cb h1 h2
    omega
  | succ l ih =>
    intro chars cb h1 h2
    by_cases hcb : cb < chars.length
    · simp only [fillCells, setIdx, if_pos hcb, Option.bind_eq_bind, Option.some_bind]
      exact ih _ _ (by rw [List.length_set]; omega) (by rw [List.length_set]; omega)
    · simp only [fillCells, setIdx, if_neg hcb, Option.bind_eq_bind, Option.none_bind]

/-- C30 fails on the code: for the records 3 and −1 (sum 2) in a grid of 10
rows and 10 columns the first record has the floored percentage 150, the cell
counter reaches 100 before its 101st write, and PGrid fails with an index out
of range. -/
theorem PGrid_mixed_sign_panics :
    (10 : Int) * 10 = 100
      ∧ (chartMixed.Data.map (fun d => d.Value)).sum = 2
      ∧ ⌊((3 : ℚ) / 2) * 100⌋ = 150
      ∧ PGrid exampleLib chartMixed [] 2 10 10 false = none := by
  have hsum : (chartMixed.Data.map (fun d => d.Value)).sum = 2 := by
    norm_num [chartMixed]
  have hfl : ⌊((3 : ℚ) / 2) * 100⌋ = 150 := by
    rw [Int.floor_eq_iff]
    norm_num
  have hfill : fillCells "" 150 (List.replicate 100 "") 0 = none :=
    fillCells_overflow "" 150 _ 0 (by simp) (by simp)
  refine ⟨by decide, hsum, hfl, ?_⟩
  unfold PGrid
  have hw : wrapInt ((10 : Int) * 10) = 100 := by decide
  simp only [hw, ne_eq, not_true_eq_false, if_false, foldl_add_Value, zero_add, hsum]
  simp only [chartMixed, List.map_cons, List.zip_cons_cons, encodeCells, hfl,
    floatToInt_intCast]
  have e : (150 : Int).toNat = 150 := by decide
  rw [e, hfill]
  rfl

/-! ## Conditional renderers -/

/-- The deck after `ConditionalBar`: the deck before it, then one line per
record. -/
theorem ConditionalBar_eq (c : ChartBox) (deck : Deck) (size cmin cmax : ℚ)
    (color : String) :
    ConditionalBar c deck size cmin cmax color
      = deck ++ c.Data.enum.map (fun id =>
          Prim.line
            (MapRange (id.1 : ℚ) 0 (((c.Data.length : Int) - 1 : Int) : ℚ) c.Left c.Right)
            c.Bottom
            (MapRange (id.1 : ℚ) 0 (((c.Data.length : Int) - 1 : Int) : ℚ) c.Left c.Right)
            (MapRange id.2.Value (zerobase c.Zerobased c.Minvalue) c.Maxvalue c.Bottom c.Top)
            size (conditionalcolor id.2.Value cmin cmax color c.DataColor) [c.Opacity]) := by
  unfold ConditionalBar
  simp only [Deck.Line]
  exact foldl_append_singleton _ _ _

/-- The deck after `Scatter`: the deck before it, then one circle per record. -/
theorem Scatter_eq (c : ChartBox) (deck : Deck) (size : ℚ) :
    Scatter c deck size
      = deck ++ c.Data.enum.map (fun id =>
          Prim.circle
            (MapRange (id.1 : ℚ) 0 (((c.Data.length : Int) - 1 : Int) : ℚ) c.Left c.Right)
            (MapRange id.2.Value (zerobase c.Zerobased c.Minvalue) c.Maxvalue c.Bottom c.Top)
            size c.DataColor [c.Opacity]) := by
  unfold Scatter
  simp only [Deck.Circle]
  exact foldl_append_singleton _ _ _

/-- The deck after `ConditionalScatter`: the deck before it, then one circle
per record. -/
theorem ConditionalScatter_eq (c : ChartBox) (deck : Deck) (size cmin cmax : ℚ)
    (color : String) :
    ConditionalScatter c deck size cmin cmax color
      = deck ++ c.Data.enum.map (fun id =>
          Prim.circle
            (MapRange (id.1 : ℚ) 0 (((c.Data.length : Int) - 1 : Int) : ℚ) c.Left c.Right)
            (MapRange id.2.Value (zerobase c.Zerobased c.Minvalue) c.Maxvalue c.Bottom c.Top)
            size (conditionalcolor id.2.Value cmin cmax color c.DataColor) [c.Opacity]) := by
  unfold ConditionalScatter
  simp only [Deck.Circle]
  exact foldl_append_singleton _ _ _

/-- Two functions that agree on the records of a list give the same image of
its enumeration. -/
theorem map_enumFrom_congr {β : Type} (f g : Nat × NameValue → β) (data : List NameValue)
    (h : ∀ (i : Nat), ∀ d ∈ data, f (i, d) = g (i, d)) :
    ∀ k : Nat, (data.enumFrom k).map f = (data.enumFrom k).map g := by
  induction data with
  | nil =>
    intro k
    rfl
  | cons d rest ih =>
    intro k
    simp only [List.enumFrom_cons, List.map_cons]
    rw [h k d (List.mem_cons_self d rest),
      ih (fun i e he => h i e (List.mem_cons_of_mem d he)) (k + 1)]

/-- The conditional colour is the chart's colour when the window holds no
record value, and when the given colour is the chart's colour. -/
theorem conditionalcolor_plain (c : ChartBox) (cmin cmax : ℚ) (color : String)
    (h : (∀ d ∈ c.Data, ¬ (cmin ≤ d.Value ∧ d.Value ≤ cmax)) ∨ color = c.DataColor) :
    ∀ d ∈ c.Data, conditionalcolor d.Value cmin cmax color c.DataColor = c.DataColor := by
  intro d hd
  unfold conditionalcolor
  rcases h with h | h
  · have hnot : ¬ (d.Value ≤ cmax ∧ d.Value ≥ cmin) := fun hw => h d hd ⟨hw.2, hw.1⟩
    rw [if_neg hnot]
  · rw [h]
    split <;> rfl

/-- The loop of `ConditionalLine` is the loop of `Line` when every conditional
colour is the chart's colour. -/
theorem condLineLoop_plain (c : ChartBox) (size fn ymin cmin cmax : ℚ) (color : String)
    (h : ∀ d ∈ c.Data, conditionalcolor d.Value cmin cmax color c.DataColor = c.DataColor)
    (is : List Nat) :
    ∀ deck : Deck, condLineLoop c size fn ymin cmin cmax color is deck
      = lineLoop c size fn ymin is deck := by
  induction is with
  | nil =>
    intro deck
    rfl
  | cons i rest ih =>
    intro deck
    rcases h1 : c.Data[i]? with _ | d1
    · simp [condLineLoop, lineLoop, h1]
    · rcases h2 : c.Data[i + 1]? with _ | d2
      · simp [condLineLoop, lineLoop, h1, h2]
      · have hm : d1 ∈ c.Data := List.mem_iff_getElem?.mpr ⟨i, h1⟩
        simp only [condLineLoop, lineLoop, h1, h2, Option.bind_eq_bind, Option.some_bind,
          h d1 hm]
        exact ih _

/-- The loops of `Line` and `ConditionalLine` succeed on the same indices and
add one line per index; the conditional line is the plain one in the
conditional colour of the record at the index. -/
theorem condLineLoop_spec (c : ChartBox) (size fn ymin cmin cmax : ℚ) (color : String)
    (is : List Nat) :
    (∀ i ∈ is, i + 1 < c.Data.length) →
      ∃ out cout : Deck,
        (∀ deck : Deck, lineLoop c size fn ymin is deck = some (deck ++ out)
          ∧ condLineLoop c size fn ymin cmin cmax color is deck = some (deck ++ cout))
        ∧ out.length = is.length ∧ cout.length = is.length
        ∧ ∀ (t i : Nat) (d : NameValue), is[t]? = some i → c.Data[i]? = some d →
            cout[t]? = (out[t]?).map (fun p =>
              p.withColor (conditionalcolor d.Value cmin cmax color c.DataColor)) := by
  induction is with
  | nil =>
    intro _
    exact ⟨[], [], by simp [lineLoop, condLineLoop], rfl, rfl, by simp⟩
  | cons i rest ih =>
    intro h
    have hi : i + 1 < c.Data.length := h i (List.mem_cons_self i rest)
    have h1 : c.Data[i]? = some (c.Data[i]) := List.getElem?_eq_getElem (by omega)
    have h2 : c.Data[i + 1]? = some (c.Data[i + 1]) := List.getElem?_eq_getElem hi
    obtain ⟨out, cout, hall, hlen, hclen, hget⟩ :=
      ih (fun j hj => h j (List.mem_cons_of_mem i hj))
    refine ⟨Prim.line (MapRange (i : ℚ) 0 fn c.Left c.Right)
        (MapRange (c.Data[i]).Value ymin c.Maxvalue c.Bottom c.Top)
        (MapRange ((i + 1 : Nat) : ℚ) 0 fn c.Left c.Right)
        (MapRange (c.Data[i + 1]).Value ymin c.Maxvalue c.Bottom c.Top)
        size c.DataColor [c.Opacity] :: out,
      Prim.line (MapRange (i : ℚ) 0 fn c.Left c.Right)
        (MapRange (c.Data[i]).Value ymin c.Maxvalue c.Bottom c.Top)
        (MapRange ((i + 1 : Nat) : ℚ) 0 fn c.Left c.Right)
        (MapRange (c.Data[i + 1]).Value ymin c.Maxvalue c.Bottom c.Top)
        size (conditionalcolor (c.Data[i]).Value cmin cmax color c.DataColor) [c.Opacity]
        :: cout, ?_, by simp [hlen], by simp [hclen], ?_⟩
    · intro deck
      simp only [lineLoop, condLineLoop, h1, h2, Option.bind_eq_bind, Option.some_bind]
      rw [(hall _).1, (hall _).2]
      simp [Deck.Line]
    · intro t j d ht hd
      cases t with
      | zero =>
        simp only [List.getElem?_cons_zero, Option.some.injEq] at ht
        subst ht
        rw [h1] at hd
        cases hd
        simp [Prim.withColor]
      | succ t =>
        simp only [List.getElem?_cons_succ] at ht ⊢
        exact hget t j d ht hd

/-- C28: for every chart and every window [cmin, cmax] that contains none of
the records' values, or whenever the given colour equals the chart's
DataColor, ConditionalBar emits exactly the same primitives as Bar,
ConditionalScatter the same as Scatter and ConditionalLine the same as Line;
in general the conditional variant emits as many primitives as the plain one
and its i-th primitive is the plain one's i-th primitive in the colour
conditionalcolor(value_i, cmin, cmax, color, DataColor) of record i (for
ConditionalLine, the segment's first record). -/
theorem Conditional_refines (c : ChartBox) (deck : Deck) (size cmin cmax : ℚ)
    (color : String) :
    (((∀ d ∈ c.Data, ¬ (cmin ≤ d.Value ∧ d.Value ≤ cmax)) ∨ color = c.DataColor) →
        ConditionalBar c deck size cmin cmax color = Bar c deck size
        ∧ ConditionalScatter c deck size cmin cmax color = Scatter c deck size
        ∧ ConditionalLine c deck size cmin cmax color = Line c deck size)
      ∧ ∃ bars cbars dots cdots segs csegs : Deck,
          Bar c deck size = deck ++ bars
          ∧ ConditionalBar c deck size cmin cmax color = deck ++ cbars
          ∧ Scatter c deck size = deck ++ dots
          ∧ ConditionalScatter c deck size cmin cmax color = deck ++ cdots
          ∧ Line c deck size = some (deck ++ segs)
          ∧ ConditionalLine c deck size cmin cmax color = some (deck ++ csegs)
          ∧ bars.length = c.Data.length ∧ cbars.length = c.Data.length
          ∧ dots.length = c.Data.length ∧ cdots.length = c.Data.length
          ∧ segs.length = c.Data.length - 1 ∧ csegs.length = c.Data.length - 1
          ∧ ∀ (i : Nat) (d : NameValue), c.Data[i]? = some d →
              cbars[i]? = (bars[i]?).map (fun p =>
                p.withColor (conditionalcolor d.Value cmin cmax color c.DataColor))
              ∧ cdots[i]? = (dots[i]?).map (fun p =>
                p.withColor (conditionalcolor d.Value cmin cmax color c.DataColor))
              ∧ csegs[i]? = (segs[i]?).map (fun p =>
                p.withColor (conditionalcolor d.Value cmin cmax color c.DataColor)) := by
  have hrange : ((c.Data.length : Int) - 1).toNat = c.Data.length - 1 := by omega
  refine ⟨?_, ?_⟩
  · intro h
    have hc := conditionalcolor_plain c cmin cmax color h
    refine ⟨?_, ?_, ?_⟩
    · rw [ConditionalBar_eq, Bar_eq]
      congr 1
      exact map_enumFrom_congr _ _ c.Data (fun i d hd => by simp only [hc d hd]) 0
    · rw [ConditionalScatter_eq, Scatter_eq]
      congr 1
      exact map_enumFrom_congr _ _ c.Data (fun i d hd => by simp only [hc d hd]) 0
    · unfold ConditionalLine Line
      exact condLineLoop_plain c size _ _ cmin cmax color hc _ deck
  · obtain ⟨segs, csegs, hall, hlen, hclen, hget⟩ := condLineLoop_spec c size
      ((((c.Data.length : Int) - 1 : Int)) : ℚ) (zerobase c.Zerobased c.Minvalue)
      cmin cmax color (List.range (c.Data.length - 1))
      (by
        intro i hi
        have := List.mem_range.mp hi
        omega)
    refine ⟨_, _, _, _, segs, csegs, Bar_eq c deck size,
      ConditionalBar_eq c deck size cmin cmax color, Scatter_eq c deck size,
      ConditionalScatter_eq c deck size cmin cmax color, ?_, ?_, by simp, by simp, by simp,
      by simp, by rw [hlen, List.length_range], by rw [hclen, List.length_range], ?_⟩
    · unfold Line
      simp only [hrange]
      exact (hall deck).1
    · unfold ConditionalLine
      simp only [hrange]
      exact (hall deck).2
    · intro i d hd
      refine ⟨by simp [List.getElem?_enum, hd, Prim.withColor],
        by simp [List.getElem?_enum, hd, Prim.withColor], ?_⟩
      rcases Nat.lt_or_ge i (c.Data.length - 1) with hi | hi
      · exact hget i i d (by rw [List.getElem?_range hi]) hd
      · rw [List.length_range] at hlen hclen
        rw [List.getElem?_eq_none (by omega), List.getElem?_eq_none (by omega)]
        rfl

/-- Instance of C28 on `chart3` with the window [15, 25] and the colour red:
the second bar, the second point and the second segment are red, the others
keep the chart's colour. -/
theorem Conditional_refines_witness :
    ConditionalBar chart3 [] 1 15 25 "red"
        = [ Prim.line 0 0 0 (100 / 3) 1 "rgb(128,128,128)" [100],
            Prim.line 50 0 50 (200 / 3) 1 "red" [100],
            Prim.line 100 0 100 100 1 "rgb(128,128,128)" [100] ]
      ∧ ConditionalLine chart3 [] 1 40 50 "red" = Line chart3 [] 1 := by
  refine ⟨?_, ((Conditional_refines chart3 [] 1 40 50 "red").1 (Or.inl ?_)).2.2⟩
  · obtain ⟨bars, cbars, dots, cdots, segs, csegs, hb, hcb, -, -, -, -, -, hcbl, -, -, -, -,
      hget⟩ :=
      (Conditional_refines chart3 [] 1 15 25 "red").2
    rw [Bar_eq] at hb
    have hb2 := (List.append_cancel_left hb).symm
    subst hb2
    have e0 := (hget 0 ⟨"A", "", 10⟩ rfl).1
    have e1 := (hget 1 ⟨"B", "", 20⟩ rfl).1
    have e2 := (hget 2 ⟨"C", "", 30⟩ rfl).1
    rw [hcb]
    match cbars, hcbl, e0, e1, e2 with
    | [a, b, c], _, e0, e1, e2 =>
      simp [List.getElem?_enum, chart3, Prim.withColor, conditionalcolor] at e0 e1 e2
      subst e0 e1 e2
      norm_num [MapRange, zerobase]
  · intro d hd
    simp only [chart3, List.mem_cons, List.mem_singleton, List.not_mem_nil, or_false] at hd
    rcases hd with rfl | rfl | rfl <;> norm_num

/-! ## The empty condition -/

/-- A recoloured draw call has the new colour. -/
theorem Prim.color_withColor (p : Prim) (col : String) : (p.withColor col).color = col := by
  cases p <;> rfl

/-- Every element of the image of an enumeration is the image of a record of
the list with some index. -/
theorem mem_map_enumFrom {β : Type} (f : Nat × NameValue → β) (data : List NameValue) :
    ∀ (k : Nat) (b : β), b ∈ (data.enumFrom k).map f → ∃ i : Nat, ∃ d ∈ data, b = f (i, d) := by
  induction data with
  | nil =>
    intro k b hb
    simp at hb
  | cons d rest ih =>
    intro k b hb
    simp only [List.enumFrom_cons, List.map_cons, List.mem_cons] at hb
    rcases hb with hb | hb
    · exact ⟨k, d, List.mem_cons_self d rest, hb⟩
    · obtain ⟨i, e, he, hbe⟩ := ih (k + 1) b hb
      exact ⟨i, e, List.mem_cons_of_mem d he, hbe⟩

/-- In the window from the smallest to the largest number the conditional
colour of a value in the window is the given colour. -/
theorem conditionalcolor_full (v : ℚ) (color dataColor : String) (h1 : smallest ≤ v)
    (h2 : v ≤ largest) : conditionalcolor v smallest largest color dataColor = color := by
  unfold conditionalcolor
  rw [if_pos ⟨h2, h1⟩]

/-- C29: parsecondition("") returns (−MaxFloat64, +MaxFloat64, "", no error),
and for that window conditionalcolor(v, −MaxFloat64, +MaxFloat64, "", dataColor)
returns the empty string for every finite value v; hence on a chart of finite
values the conditional renderers driven by the empty condition draw every
bar, point and segment with the empty colour string, which is not the chart's
DataColor when that is a colour name. -/
theorem empty_condition_colour (lib : Lib) (c : ChartBox) (deck : Deck) (size : ℚ)
    (hfin : ∀ d ∈ c.Data, smallest ≤ d.Value ∧ d.Value ≤ largest) :
    parsecondition lib "" = (smallest, largest, "", none)
      ∧ (∀ (v : ℚ) (dataColor : String), smallest ≤ v → v ≤ largest →
          conditionalcolor v smallest largest "" dataColor = "")
      ∧ ∃ bars dots segs : Deck,
          ConditionalBar c deck size (parsecondition lib "").1 (parsecondition lib "").2.1
              (parsecondition lib "").2.2.1 = deck ++ bars
          ∧ ConditionalScatter c deck size (parsecondition lib "").1
              (parsecondition lib "").2.1 (parsecondition lib "").2.2.1 = deck ++ dots
          ∧ ConditionalLine c deck size (parsecondition lib "").1 (parsecondition lib "").2.1
              (parsecondition lib "").2.2.1 = some (deck ++ segs)
          ∧ bars.length = c.Data.length ∧ dots.length = c.Data.length
          ∧ segs.length = c.Data.length - 1
          ∧ (∀ p ∈ bars ++ dots ++ segs, p.color = "")
          ∧ (c.DataColor ≠ "" → ∀ p ∈ bars ++ dots ++ segs, p.color ≠ c.DataColor) := by
  have hp : parsecondition lib "" = (smallest, largest, "", none) := by
    unfold parsecondition
    rw [if_pos (by decide)]
  have hrange : ((c.Data.length : Int) - 1).toNat = c.Data.length - 1 := by omega
  have hcol : ∀ d ∈ c.Data, conditionalcolor d.Value smallest largest "" c.DataColor = "" :=
    fun d hd => conditionalcolor_full d.Value "" c.DataColor (hfin d hd).1 (hfin d hd).2
  obtain ⟨segs, csegs, hall, hlen, hclen, hget⟩ := condLineLoop_spec c size
    ((((c.Data.length : Int) - 1 : Int)) : ℚ) (zerobase c.Zerobased c.Minvalue)
    smallest largest "" (List.range (c.Data.length - 1))
    (by
      intro i hi
      have := List.mem_range.mp hi
      omega)
  rw [List.length_range] at hlen hclen
  have hempty : ∀ p ∈
      (c.Data.enum.map (fun id =>
          Prim.line
            (MapRange (id.1 : ℚ) 0 (((c.Data.length : Int) - 1 : Int) : ℚ) c.Left c.Right)
            c.Bottom
            (MapRange (id.1 : ℚ) 0 (((c.Data.length : Int) - 1 : Int) : ℚ) c.Left c.Right)
            (MapRange id.2.Value (zerobase c.Zerobased c.Minvalue) c.Maxvalue c.Bottom c.Top)
            size (conditionalcolor id.2.Value smallest largest "" c.DataColor) [c.Opacity]))
      ++ (c.Data.enum.map (fun id =>
          Prim.circle
            (MapRange (id.1 : ℚ) 0 (((c.Data.length : Int) - 1 : Int) : ℚ) c.Left c.Right)
            (MapRange id.2.Value (zerobase c.Zerobased c.Minvalue) c.Maxvalue c.Bottom c.Top)
            size (conditionalcolor id.2.Value smallest largest "" c.DataColor) [c.Opacity]))
      ++ csegs, p.color = "" := by
    intro p hp
    rw [List.mem_append, List.mem_append] at hp
    rcases hp with (hp | hp) | hp
    · obtain ⟨i, d, hd, rfl⟩ := mem_map_enumFrom _ c.Data 0 p hp
      exact hcol d hd
    · obtain ⟨i, d, hd, rfl⟩ := mem_map_enumFrom _ c.Data 0 p hp
      exact hcol d hd
    · obtain ⟨t, ht, rfl⟩ := List.getElem_of_mem hp
      have ht1 : t < c.Data.length := by omega
      have hd : c.Data[t]? = some (c.Data[t]) := List.getElem?_eq_getElem ht1
      have hg := hget t t _ (by rw [List.getElem?_range (by omega)]) hd
      rw [List.getElem?_eq_getElem ht, List.getElem?_eq_getElem (by omega : t < segs.length),
        Option.map_some', Option.some.injEq] at hg
      rw [hg, Prim.color_withColor]
      exact hcol _ (List.getElem_mem ht1)
  refine ⟨hp, fun v dataColor h1 h2 => conditionalcolor_full v "" dataColor h1 h2, ?_⟩
  rw [hp]
  refine ⟨_, _, csegs, ConditionalBar_eq c deck size smallest largest "",
    ConditionalScatter_eq c deck size smallest largest "", ?_, by simp, by simp, hclen,
    hempty, ?_⟩
  · unfold ConditionalLine
    simp only [hrange]
    exact (hall deck).2
  · intro hne p hp
    rw [hempty p hp]
    exact Ne.symm hne

/-- Instance of C29 on `chart3`: with the empty condition ConditionalBar draws
its three bars with the empty colour. -/
theorem empty_condition_colour_witness :
    ConditionalBar chart3 [] 1 (parsecondition exampleLib "").1
        (parsecondition exampleLib "").2.1 (parsecondition exampleLib "").2.2.1
      = [ Prim.line 0 0 0 (100 / 3) 1 "" [100],
          Prim.line 50 0 50 (200 / 3) 1 "" [100],
          Prim.line 100 0 100 100 1 "" [100] ] := by
  have hfin : ∀ d ∈ chart3.Data, smallest ≤ d.Value ∧ d.Value ≤ largest := by
    intro d hd
    simp only [chart3, List.mem_cons, List.mem_singleton, List.not_mem_nil, or_false] at hd
    rcases hd with rfl | rfl | rfl <;> norm_num [smallest, largest]
  obtain ⟨hp, hc, -⟩ := empty_condition_colour exampleLib chart3 [] 1 hfin
  rw [hp, ConditionalBar_eq]
  have h10 := hc 10 chart3.DataColor (hfin ⟨"A", "", 10⟩ (by simp [chart3])).1
    (hfin ⟨"A", "", 10⟩ (by simp [chart3])).2
  have h20 := hc 20 chart3.DataColor (hfin ⟨"B", "", 20⟩ (by simp [chart3])).1
    (hfin ⟨"B", "", 20⟩ (by simp [chart3])).2
  have h30 := hc 30 chart3.DataColor (hfin ⟨"C", "", 30⟩ (by simp [chart3])).1
    (hfin ⟨"C", "", 30⟩ (by simp [chart3])).2
  simp only [chart3] at h10 h20 h30
  simp only [chart3, List.enum, List.enumFrom_cons, List.enumFrom_nil, List.map_cons,
    List.map_nil, h10, h20, h30, List.nil_append]
  norm_num [MapRange, zerobase]

/-! ## Proportional map: where the bands start -/

/-- The first band starts at the given left edge. -/
theorem pmapX_zero (bl hspace x : ℚ) (ps : List ℚ) : pmapX bl hspace x ps 0 = x := by
  cases ps <;> rfl

/-- The left edge of the band after band `j` is the left edge of band `j`
moved by the width of band `j` less the gap. -/
theorem pmapX_succ (bl hspace : ℚ) (ps : List ℚ) :
    ∀ (x : ℚ) (j : Nat) (p : ℚ), ps[j]? = some p →
      pmapX bl hspace x ps (j + 1) = pmapX bl hspace x ps j + (p * bl - hspace) := by
  induction ps with
  | nil =>
    intro x j p hp
    simp at hp
  | cons q ps ih =>
    intro x j p hp
    cases j with
    | zero =>
      simp only [List.getElem?_cons_zero, Option.some.injEq] at hp
      subst hp
      cases ps <;> rfl
    | succ j =>
      simp only [List.getElem?_cons_succ] at hp
      have := ih (x + (q * bl - hspace)) j p hp
      simpa only [pmapX] using this

/-- The loop of `PMap` draws the pass of record `j` at the left edge `pmapX`
gives for it. -/
theorem pmapLoop_xs (lib : Lib) (c : ChartBox) (pwidth pmlen : ℚ)
    (showvalues solid : Bool) (ps : List ℚ) :
    ∀ (k : Nat) (x : ℚ) (deck : Deck), k + ps.length ≤ c.Data.length →
      ∃ segs : List (List Prim),
        pmapLoop lib c c.Data c.Top c.TextSize pwidth pmlen ((c.Right - c.Left) / 100)
            (10 / 100) c.DataFormat showvalues solid (ps.enumFrom k) x deck
          = some (deck ++ segs.flatten)
        ∧ segs.length = ps.length
        ∧ ∀ (j : Nat) (p : ℚ) (d : NameValue), ps[j]? = some p → c.Data[k + j]? = some d →
            ∃ (linecolor : String) (lineop : ℚ),
              segs[j]? = some (pmapRecordOut lib c pwidth pmlen showvalues d p
                (pmapX ((c.Right - c.Left) / 100) (10 / 100) x ps j) linecolor lineop) := by
  induction ps with
  | nil =>
    intro k x deck _
    exact ⟨[], by simp [pmapLoop], rfl, by simp⟩
  | cons p ps ih =>
    intro k x deck hk
    have hlt : k < c.Data.length := by
      simp only [List.length_cons] at hk
      omega
    have hd : c.Data[k]? = some (c.Data[k]) := List.getElem?_eq_getElem hlt
    obtain ⟨r, hr⟩ := stdcolor_isSome k (c.Data[k]).Note c.DataColor p solid
    obtain ⟨segs, hrun, hlen, hget⟩ := ih (k + 1)
      (x + (p * ((c.Right - c.Left) / 100) - 10 / 100))
      (deck ++ pmapRecordOut lib c pwidth pmlen showvalues (c.Data[k]) p x r.1 r.2)
      (by simp only [List.length_cons] at hk; omega)
    refine ⟨pmapRecordOut lib c pwidth pmlen showvalues (c.Data[k]) p x r.1 r.2 :: segs,
      ?_, by simp [hlen], ?_⟩
    · simp only [List.enumFrom_cons, pmapLoop, hd, hr, Option.bind_eq_bind, Option.some_bind,
        List.flatten_cons, ← List.append_assoc]
      rw [← hrun]
      congr 1
      simp only [pmapRecordOut, Deck.Line, Deck.TextMid]
      by_cases h1 : p < 3 ∨ ((strLen (c.Data[k]).Label : Nat) : ℚ) > pmlen <;>
        by_cases h2 : showvalues = true <;> simp [h1, h2]
    · intro j q d hq hdj
      cases j with
      | zero =>
        simp only [List.getElem?_cons_zero, Option.some.injEq, Nat.add_zero] at hq hdj ⊢
        subst hq
        rw [hd] at hdj
        cases hdj
        exact ⟨r.1, r.2, rfl⟩
      | succ j =>
        simp only [List.getElem?_cons_succ] at hq ⊢
        have e : k + (j + 1) = k + 1 + j := by omega
        rw [e] at hdj
        exact hget j q d hq hdj

/-- C21 as the code has it: for a record list with positive values PMap
succeeds and lays the bands out left to right starting at Left; band i is the
last line of the draw calls of record i, drawn at Top from its left edge x_i
to x_i + bx_i with bx_i = p_i·(Right − Left)/100, and the left edge of the
next band is x_i + bx_i − 0.10: band i + 1 starts 0.10 to the left of the
drawn end of band i, so consecutive bands overlap by the gap. -/
theorem PMap_band_overlap (lib : Lib) (c : ChartBox) (deck : Deck) (pwidth pmlen : ℚ)
    (showvalues solid : Bool) (_hpos : ∀ d ∈ c.Data, 0 < d.Value) :
    ∃ (segs : List (List Prim)) (xs : List ℚ),
      PMap lib c deck pwidth pmlen showvalues solid = some (deck ++ segs.flatten)
        ∧ segs.length = c.Data.length ∧ xs.length = c.Data.length
        ∧ (0 < c.Data.length → xs[0]? = some c.Left)
        ∧ ∀ (i : Nat) (d : NameValue) (p x : ℚ), c.Data[i]? = some d →
            (pct c.Data)[i]? = some p → xs[i]? = some x →
            (∃ (seg : List Prim) (linecolor : String) (lineop : ℚ),
              segs[i]? = some seg
                ∧ (linesOf seg).getLast? = some (Prim.line x c.Top
                    (p * ((c.Right - c.Left) / 100) + x) c.Top pwidth linecolor [lineop]))
            ∧ ∀ x2 : ℚ, xs[i + 1]? = some x2 →
                x2 = p * ((c.Right - c.Left) / 100) + x - 1 / 10
                  ∧ x2 < p * ((c.Right - c.Left) / 100) + x := by
  have hplen : (pct c.Data).length = c.Data.length := by simp [pct]
  obtain ⟨segs, hrun, hlen, hget⟩ := pmapLoop_xs lib c pwidth pmlen showvalues solid
    (pct c.Data) 0 c.Left deck (by omega)
  refine ⟨segs, (List.range c.Data.length).map
    (fun j => pmapX ((c.Right - c.Left) / 100) (10 / 100) c.Left (pct c.Data) j),
    hrun, by rw [hlen, hplen], by simp, ?_, ?_⟩
  · intro hn
    rw [List.getElem?_map, List.getElem?_range hn, Option.map_some', pmapX_zero]
  · intro i d p x hd hp hx
    have hi : i < c.Data.length := by
      rcases Nat.lt_or_ge i c.Data.length with h | h
      · exact h
      · rw [List.getElem?_eq_none h] at hd
        exact absurd hd (by simp)
    rw [List.getElem?_map, List.getElem?_range hi] at hx
    simp only [Option.map_some', Option.some.injEq] at hx
    obtain ⟨linecolor, lineop, hseg⟩ := hget i p d hp (by simpa using hd)
    rw [hx] at hseg
    refine ⟨⟨_, linecolor, lineop, hseg, ?_⟩, ?_⟩
    · by_cases hc : p < 3 ∨ ((strLen d.Label : Nat) : ℚ) > pmlen
      · simp only [pmapRecordOut, if_pos hc]
        cases showvalues <;> simp [linesOf, List.filter]
      · simp only [pmapRecordOut, if_neg hc]
        cases showvalues <;> simp [linesOf, List.filter]
    · intro x2 hx2
      have hi2 : i + 1 < c.Data.length := by
        rcases Nat.lt_or_ge (i + 1) c.Data.length with h | h
        · exact h
        · rw [List.getElem?_eq_none (by simpa using h)] at hx2
          exact absurd hx2 (by simp)
      rw [List.getElem?_map, List.getElem?_range hi2] at hx2
      simp only [Option.map_some', Option.some.injEq] at hx2
      have hstep := pmapX_succ ((c.Right - c.Left) / 100) (10 / 100) (pct c.Data) c.Left i p hp
      rw [hx, hx2] at hstep
      constructor
      · rw [hstep]
        ring
      · rw [hstep]
        linarith

/-- Instance of the amended C21 on `chart3`: three groups of draw calls, the
first band starting at the left edge 0. -/
theorem PMap_band_overlap_witness :
    (∀ d ∈ chart3.Data, 0 < d.Value)
      ∧ ∃ (segs : List (List Prim)) (xs : List ℚ),
          PMap exampleLib chart3 [] 5 3 false false = some segs.flatten
            ∧ segs.length = 3 ∧ xs.length = 3 ∧ xs[0]? = some 0 := by
  have hpos : ∀ d ∈ chart3.Data, 0 < d.Value := by
    intro d hd
    simp only [chart3, List.mem_cons, List.mem_singleton, List.not_mem_nil, or_false] at hd
    rcases hd with rfl | rfl | rfl <;> norm_num
  obtain ⟨segs, xs, h, hlen, hxlen, hx0, -⟩ :=
    PMap_band_overlap exampleLib chart3 [] 5 3 false false hpos
  exact ⟨hpos, segs, xs, by simpa using h, hlen, hxlen, hx0 (by decide)⟩

/-- C21 fails on `chart3` (values 10, 20, 30, box from 0 to 100): the first
band is drawn from 0 to 50/3 and the second band starts at 497/30, to the left
of the drawn end of the first; the second band ends at 499/10 and the third
starts at 249/5. -/
theorem PMap_separation_counterexample :
    (∀ d ∈ chart3.Data, 0 < d.Value)
      ∧ PMap exampleLib chart3 [] 5 3 false false
        = some [ Prim.line 0 100 (50 / 3) 100 5 "rgb(128,128,128)" [50 / 3],
            Prim.textMid (25 / 3) (100 - 6 / 10) "%.1f%%" "sans" (12 / 10) "black" [],
            Prim.line (497 / 30) 100 (499 / 10) 100 5 "rgb(128,128,128)" [100 / 3],
            Prim.textMid (997 / 30) (100 - 6 / 10) "%.1f%%" "sans" (12 / 10) "black" [],
            Prim.line (249 / 5) 100 (499 / 5) 100 5 "rgb(128,128,128)" [50],
            Prim.textMid (374 / 5) (100 - 6 / 10) "%.1f%%" "sans" (12 / 10) "black" [] ]
      ∧ ¬ ((50 / 3 : ℚ) ≤ 497 / 30) ∧ ¬ ((499 / 10 : ℚ) ≤ 249 / 5) := by
  have hA : strLen "A" = 1 := by decide
  have hB : strLen "B" = 1 := by decide
  have hC : strLen "C" = 1 := by decide
  refine ⟨?_, ?_, by norm_num, by norm_num⟩
  · intro d hd
    simp only [chart3, List.mem_cons, List.mem_singleton, List.not_mem_nil, or_false] at hd
    rcases hd with rfl | rfl | rfl <;> norm_num
  · simp only [PMap, pmapLoop, pct, chart3, List.enum, List.enumFrom, stdcolor,
      exampleLib, Deck.Line, Deck.TextMid, dotlinecolor, List.foldl, List.map, hA, hB, hC]
    norm_num
    simp [hA, hB, hC]
    norm_num

/-! ## Radial -/

/-- A loop whose condition holds for the first `N` values of its variable and
fails for the next one makes `N` passes when it is given at least `N` passes,
and appends the draw calls of each pass in turn. -/
theorem floatLoop_run (cond : ℚ → Bool) (next : ℚ → ℚ) (body : ℚ → Deck → Deck)
    (out : ℚ → List Prim) (hbody : ∀ (v : ℚ) (deck : Deck), body v deck = deck ++ out v)
    (N : Nat) :
    ∀ (fuel : Nat) (v : ℚ) (deck : Deck), (∀ k < N, cond (next^[k] v) = true) →
      cond (next^[N] v) = false → N ≤ fuel →
      floatLoop cond next body fuel v deck
        = some (deck ++ (List.range N).flatMap (fun k => out (next^[k] v))) := by
  induction N with
  | zero =>
    intro fuel v deck _ hN _
    simp only [Function.iterate_zero, id_eq] at hN
    cases fuel <;> simp [floatLoop, hN]
  | succ N ih =>
    intro fuel v deck hk hN hfuel
    obtain ⟨f, rfl⟩ : ∃ f, fuel = f + 1 := ⟨fuel - 1, by omega⟩
    have h0 : cond v = true := hk 0 (Nat.succ_pos N)
    have hrec := ih f (next v) (body v deck)
      (fun k hkN => by
        have := hk (k + 1) (by omega)
        rwa [Function.iterate_succ_apply] at this)
      (by rwa [Function.iterate_succ_apply] at hN)
      (by omega)
    simp only [floatLoop, h0, if_true]
    rw [hrec, hbody, List.range_succ_eq_map, List.flatMap_cons, List.flatMap_map]
    simp [Function.iterate_succ_apply, Function.comp_def]

/-- A loop whose variable does not move and passes the test never ends:
whatever the bound on its passes, a pass is still due when it is reached. -/
theorem floatLoop_stuck (cond : ℚ → Bool) (next : ℚ → ℚ) (body : ℚ → Deck → Deck) (v : ℚ)
    (hc : cond v = true) (hn : next v = v) :
    ∀ (fuel : Nat) (deck : Deck), floatLoop cond next body fuel v deck = none := by
  intro fuel
  induction fuel with
  | zero =>
    intro deck
    simp [floatLoop, hc]
  | succ fuel ih =>
    intro deck
    simp only [floatLoop, hc, if_true, hn]
    exact ih _

/-- Two functions that agree on the elements of a list collect the same
draw calls over it. -/
theorem flatMap_congr_mem {α β : Type} (l : List α) (f g : α → List β)
    (h : ∀ a ∈ l, f a = g a) : l.flatMap f = l.flatMap g := by
  induction l with
  | nil => rfl
  | cons a l ih =>
    simp only [List.flatMap_cons]
    rw [h a (List.mem_cons_self a l), ih (fun b hb => h b (List.mem_cons_of_mem a hb))]

/-- The variable of a loop whose sums are exact for the first `N` passes is
`v + k·s` after `k ≤ N` passes. -/
theorem iterate_exact (next : ℚ → ℚ) (s v : ℚ) (N : Nat)
    (h : ∀ k : Nat, k < N → next (v + (k : ℚ) * s) = v + ((k : ℚ) + 1) * s) :
    ∀ k : Nat, k ≤ N → next^[k] v = v + (k : ℚ) * s := by
  intro k
  induction k with
  | zero =>
    intro _
    simp
  | succ k ih =>
    intro hk
    rw [Function.iterate_succ_apply', ih (by omega), h k (by omega)]
    push_cast
    rfl

/-- A loop whose sums are exact for its first `N` passes, whose variable
passes the test at exactly the first `N` values `v + k·s`, makes `N` passes
and appends the draw calls of each. -/
theorem floatLoop_exact (cond : ℚ → Bool) (next : ℚ → ℚ) (body : ℚ → Deck → Deck)
    (out : ℚ → List Prim) (hbody : ∀ (v : ℚ) (deck : Deck), body v deck = deck ++ out v)
    (s v : ℚ) (N fuel : Nat) (deck : Deck)
    (hexact : ∀ k : Nat, k < N → next (v + (k : ℚ) * s) = v + ((k : ℚ) + 1) * s)
    (hN : ∀ k : Nat, k < N ↔ cond (v + (k : ℚ) * s) = true) (hfuel : N ≤ fuel) :
    floatLoop cond next body fuel v deck
      = some (deck ++ (List.range N).flatMap (fun k : Nat => out (v + (k : ℚ) * s))) := by
  have hit := iterate_exact next s v N hexact
  rw [floatLoop_run cond next body out hbody N fuel v deck
    (by
      intro k hk
      rw [hit k hk.le]
      exact (hN k).mp hk)
    (by
      rw [hit N (le_refl N)]
      rcases hc : cond (v + (N : ℚ) * s) with _ | _
      · rfl
      · exact absurd ((hN N).mpr hc) (Nat.lt_irrefl N))
    hfuel]
  congr 2
  exact flatMap_congr_mem _ _ _ (fun k hk => by rw [hit k (List.mem_range.mp hk).le])

/-- For a positive step exactly the first `tickCount a b s` of the values
`a + k·s` are at most `b`. -/
theorem tickCount_iff (a b s : ℚ) (hs : 0 < s) (k : Nat) :
    k < tickCount a b s ↔ a + (k : ℚ) * s ≤ b := by
  unfold tickCount
  by_cases hab : a ≤ b
  · rw [if_pos hab]
    have hq : 0 ≤ (b - a) / s := div_nonneg (by linarith) hs.le
    have hm : 0 ≤ ⌊(b - a) / s⌋ := Int.floor_nonneg.mpr hq
    rw [Nat.lt_succ_iff, Int.le_toNat hm, Int.le_floor, le_div_iff₀ hs]
    constructor
    · intro h
      have : ((k : Int) : ℚ) = (k : ℚ) := by simp
      rw [this] at h
      linarith
    · intro h
      have : ((k : Int) : ℚ) = (k : ℚ) := by simp
      rw [this]
      linarith
  · rw [if_neg hab]
    constructor
    · intro h
      exact absurd h (Nat.not_lt_zero k)
    · intro h
      have : 0 ≤ (k : ℚ) * s := mul_nonneg (Nat.cast_nonneg k) hs.le
      exact absurd (by linarith : a ≤ b) hab

/-- For a positive step exactly the first `dotCount a b s` of the values
`a + k·s` are less than `b`. -/
theorem dotCount_iff (a b s : ℚ) (hs : 0 < s) (k : Nat) :
    k < dotCount a b s ↔ a + (k : ℚ) * s < b := by
  unfold dotCount
  rw [Int.lt_toNat, Int.lt_ceil, lt_div_iff₀ hs]
  have : ((k : Int) : ℚ) = (k : ℚ) := by simp
  rw [this]
  constructor <;> intro h <;> linarith

/-! ## Value axis -/

/-- C23 as the code has it: YAxis(min, max, step, gridlines) advances its
variable by the float64 sum v + step.  For every step > 0 whose running sums
are exact (the sum at the tick min + k·step is min + (k + 1)·step, for every
tick), YAxis terminates (it makes tickCount(min, max, step) passes and
returns its deck whenever it is given at least that many) and emits one
right-aligned tick label for each value v = min + k·step with v ≤ max, that
is floor((max − min)/step) + 1 labels when min ≤ max and none when
min > max, each at y = MapRange(v, effectiveMin, Maxvalue, Bottom, Top) −
TextSize/3, preceded by one horizontal gridline from Left to Right when
gridlines is true and by no gridline when it is false. -/
theorem YAxis_ticks (r : ℚ → ℚ) (lib : Lib) (c : ChartBox) (deck : Deck) (min max step : ℚ)
    (gridlines : Bool) (hstep : 0 < step)
    (hexact : ∀ k : Nat, k < tickCount min max step →
      r (min + (k : ℚ) * step + step) = min + ((k : ℚ) + 1) * step) :
    (∀ fuel : Nat, tickCount min max step ≤ fuel →
      YAxis r lib c deck min max step gridlines fuel
        = some (deck ++ (List.range (tickCount min max step)).flatMap (fun k : Nat =>
            (if gridlines then
                [Prim.line c.Left
                  (MapRange (min + (k : ℚ) * step) (if c.Zerobased then 0 else c.Minvalue)
                    c.Maxvalue c.Bottom c.Top)
                  c.Right
                  (MapRange (min + (k : ℚ) * step) (if c.Zerobased then 0 else c.Minvalue)
                    c.Maxvalue c.Bottom c.Top)
                  (5 / 100) "gray" []]
              else [])
            ++ [Prim.textEnd (c.Left - 2)
                (MapRange (min + (k : ℚ) * step) (if c.Zerobased then 0 else c.Minvalue)
                  c.Maxvalue c.Bottom c.Top - c.TextSize / 3)
                (lib.Sprintf c.DataFormat [FmtArg.num (min + (k : ℚ) * step)]) "sans"
                c.TextSize c.LabelColor [c.Opacity]])))
      ∧ (∀ k : Nat, k < tickCount min max step ↔ min + (k : ℚ) * step ≤ max)
      ∧ (min ≤ max → tickCount min max step = (⌊(max - min) / step⌋).toNat + 1)
      ∧ (max < min → tickCount min max step = 0) := by
  refine ⟨?_, fun k => tickCount_iff min max step hstep k, ?_, ?_⟩
  · intro fuel hfuel
    have hrun := floatLoop_exact (fun v => decide (v ≤ max)) (fun v => r (v + step))
      (fun v deck =>
        Deck.TextEnd
          (if gridlines then
            deck.Line c.Left
              (MapRange v (zerobase c.Zerobased c.Minvalue) c.Maxvalue c.Bottom c.Top)
              (c.Left + (c.Right - c.Left))
              (MapRange v (zerobase c.Zerobased c.Minvalue) c.Maxvalue c.Bottom c.Top)
              (5 / 100) "gray" []
          else deck)
          (c.Left - 2)
          (MapRange v (zerobase c.Zerobased c.Minvalue) c.Maxvalue c.Bottom c.Top
            - c.TextSize / 3)
          (lib.Sprintf c.DataFormat [FmtArg.num v]) "sans" c.TextSize c.LabelColor
          [c.Opacity])
      (fun v =>
        (if gridlines then
            [Prim.line c.Left
              (MapRange v (zerobase c.Zerobased c.Minvalue) c.Maxvalue c.Bottom c.Top)
              c.Right
              (MapRange v (zerobase c.Zerobased c.Minvalue) c.Maxvalue c.Bottom c.Top)
              (5 / 100) "gray" []]
          else [])
        ++ [Prim.textEnd (c.Left - 2)
            (MapRange v (zerobase c.Zerobased c.Minvalue) c.Maxvalue c.Bottom c.Top
              - c.TextSize / 3)
            (lib.Sprintf c.DataFormat [FmtArg.num v]) "sans" c.TextSize c.LabelColor
            [c.Opacity]])
      (by
        intro v deck
        cases gridlines <;> simp [Deck.Line, Deck.TextEnd])
      step min (tickCount min max step) fuel deck hexact
      (fun k => by rw [tickCount_iff min max step hstep k, decide_eq_true_iff]) hfuel
    unfold YAxis
    simp only []
    rw [hrun]
    simp only [zerobase]
  · intro h
    unfold tickCount
    rw [if_pos h]
  · intro h
    unfold tickCount
    rw [if_neg (not_le.mpr h)]

/-- Instance of the amended C23 on `chart3` in float64 arithmetic: the axis
from 0 to 30 in steps of 10 with gridlines has four ticks. -/
theorem YAxis_ticks_witness :
    (0 : ℚ) < 10
      ∧ YAxis round64 exampleLib chart3 [] 0 30 10 true 4
        = some [ Prim.line 0 0 100 0 (5 / 100) "gray" [],
            Prim.textEnd (-2) (0 - 4 / 10) "%.1f" "sans" (12 / 10) "rgb(75,75,75)" [100],
            Prim.line 0 (100 / 3) 100 (100 / 3) (5 / 100) "gray" [],
            Prim.textEnd (-2) (100 / 3 - 4 / 10) "%.1f" "sans" (12 / 10) "rgb(75,75,75)" [100],
            Prim.line 0 (200 / 3) 100 (200 / 3) (5 / 100) "gray" [],
            Prim.textEnd (-2) (200 / 3 - 4 / 10) "%.1f" "sans" (12 / 10) "rgb(75,75,75)" [100],
            Prim.line 0 100 100 100 (5 / 100) "gray" [],
            Prim.textEnd (-2) (100 - 4 / 10) "%.1f" "sans" (12 / 10) "rgb(75,75,75)" [100] ] := by
  have hstep : (0 : ℚ) < 10 := by norm_num
  have hN : tickCount 0 30 10 = 4 := by
    unfold tickCount
    norm_num
    rfl
  have hexact : ∀ k : Nat, k < tickCount 0 30 10 →
      round64 (0 + (k : ℚ) * 10 + 10) = 0 + ((k : ℚ) + 1) * 10 := by
    intro k hk
    rw [hN] at hk
    have h := round64_natCast ((k + 1) * 10) (by omega)
    push_cast at h
    rw [show (0 : ℚ) + (k : ℚ) * 10 + 10 = ((k : ℚ) + 1) * 10 by ring, h]
    ring
  obtain ⟨h, -⟩ := YAxis_ticks round64 exampleLib chart3 [] 0 30 10 true hstep hexact
  refine ⟨hstep, ?_⟩
  rw [h 4 (by rw [hN]), hN]
  simp only [List.range, List.range.loop, List.flatMap, List.map, List.flatten, chart3,
    exampleLib, MapRange, if_true, List.nil_append, List.cons_append, List.append_nil]
  norm_num

/-- C23 fails in float64 arithmetic for min = 2^53, max = 2^53 + 2 and
step = 1: the sum 2^53 + 1 rounds back to 2^53, so the variable of the loop
never moves and YAxis does not terminate, where the claim has it terminate
with the three labels 2^53, 2^53 + 1 and 2^53 + 2. -/
theorem YAxis_absorb_counterexample :
    (0 : ℚ) < 1 ∧ ((2 : ℚ) ^ 53 ≤ 2 ^ 53 + 2) ∧ round64 (2 ^ 53 + 1) = 2 ^ 53
      ∧ ∀ fuel : Nat, YAxis round64 exampleLib chart3 [] (2 ^ 53) (2 ^ 53 + 2) 1 false fuel
          = none := by
  refine ⟨by norm_num, by norm_num, round64_absorb, ?_⟩
  intro fuel
  unfold YAxis
  exact floatLoop_stuck _ (fun v : ℚ => round64 (v + 1)) _ (2 ^ 53)
    (decide_eq_true (by norm_num)) round64_absorb fuel []

/-! ## Dotted lines -/

/-- One draw call per element, collected, is the mapped list. -/
theorem flatMap_single {α : Type} (f : α → Prim) (l : List α) :
    l.flatMap (fun a => [f a]) = l.map f := by
  induction l with
  | nil => rfl
  | cons a l ih => simp [List.flatMap_cons, ih]

/-- A loop that draws one circle per pass at the value of its variable, whose
sums are exact for its first `N` passes, draws the circles of the first `N`
values when exactly these pass the test of the loop. -/
theorem circleLoop_run (cond : ℚ → Bool) (next : ℚ → ℚ) (s v0 : ℚ) (mk : ℚ → Prim)
    (N fuel : Nat) (deck : Deck)
    (hexact : ∀ k : Nat, k < N → next (v0 + (k : ℚ) * s) = v0 + ((k : ℚ) + 1) * s)
    (hN : ∀ k : Nat, k < N ↔ cond (v0 + (k : ℚ) * s) = true) (hfuel : N ≤ fuel) :
    floatLoop cond next (fun v deck => deck ++ [mk v]) fuel v0 deck
      = some (deck ++ (List.range N).map (fun k : Nat => mk (v0 + (k : ℚ) * s))) := by
  rw [floatLoop_exact cond next (fun v deck => deck ++ [mk v]) (fun v => [mk v])
    (fun _ _ => rfl) s v0 N fuel deck hexact hN hfuel, flatMap_single]

/-- C26 as the code has it: dottedhline advances its variable by the two
float64 sums (x + step) + step on every pass.  For every step > 0 and
x1 < x2 whose running sums are exact (the sums at x1 + k·(2·step) give
x1 + (k + 1)·(2·step), for every circle), dottedhline terminates and emits
circles evenly spaced at twice the given step: the k-th circle is centred at
(x1 + k·(2·step), y) for every k ≥ 0 with x1 + k·(2·step) < x2, so
consecutive circle centres are 2·step apart. -/
theorem dottedhline_double_step (r : ℚ → ℚ) (deck : Deck) (x1 y x2 dotsize step : ℚ)
    (color : String) (hstep : 0 < step) (_hx : x1 < x2)
    (hexact : ∀ k : Nat, k < dotCount x1 x2 (2 * step) →
      r (r (x1 + (k : ℚ) * (2 * step) + step) + step) = x1 + ((k : ℚ) + 1) * (2 * step)) :
    (∀ fuel : Nat, dotCount x1 x2 (2 * step) ≤ fuel →
      dottedhline r fuel deck x1 y x2 dotsize step color
        = some (deck ++ (List.range (dotCount x1 x2 (2 * step))).map
            (fun k : Nat => Prim.circle (x1 + (k : ℚ) * (2 * step)) y dotsize color [])))
      ∧ (∀ k : Nat, k < dotCount x1 x2 (2 * step) ↔ x1 + (k : ℚ) * (2 * step) < x2)
      ∧ 0 < dotCount x1 x2 (2 * step) := by
  have h2 : (0 : ℚ) < 2 * step := by linarith
  have hiff := fun k => dotCount_iff x1 x2 (2 * step) h2 k
  refine ⟨?_, hiff, (hiff 0).mpr (by simpa using _hx)⟩
  intro fuel hfuel
  unfold dottedhline
  exact circleLoop_run (fun x => decide (x < x2)) (fun x => r (r (x + step) + step))
    (2 * step) x1 (fun x => Prim.circle x y dotsize color []) (dotCount x1 x2 (2 * step))
    fuel deck hexact (fun k => by rw [hiff k, decide_eq_true_iff]) hfuel

/-- Instance of the amended C26 in float64 arithmetic: from x = 0 to x = 4
with step 1 the circles are at x = 0 and x = 2. -/
theorem dottedhline_double_step_witness :
    (0 : ℚ) < 1 ∧ (0 : ℚ) < 4
      ∧ dottedhline round64 2 [] 0 0 4 1 1 "gray"
        = some [Prim.circle 0 0 1 "gray" [], Prim.circle 2 0 1 "gray" []] := by
  have hstep : (0 : ℚ) < 1 := by norm_num
  have hx : (0 : ℚ) < 4 := by norm_num
  have hN : dotCount 0 4 (2 * 1) = 2 := by
    unfold dotCount
    have hc : ⌈((4 : ℚ) - 0) / (2 * 1)⌉ = 2 := by
      rw [Int.ceil_eq_iff]
      norm_num
    rw [hc]
    rfl
  have hexact : ∀ k : Nat, k < dotCount 0 4 (2 * 1) →
      round64 (round64 (0 + (k : ℚ) * (2 * 1) + 1) + 1) = 0 + ((k : ℚ) + 1) * (2 * 1) := by
    intro k hk
    rw [hN] at hk
    have ha := round64_natCast (k * 2 + 1) (by omega)
    have hb := round64_natCast (k * 2 + 2) (by omega)
    push_cast at ha hb
    rw [show (0 : ℚ) + (k : ℚ) * (2 * 1) + 1 = (k : ℚ) * 2 + 1 by ring, ha,
      show (k : ℚ) * 2 + 1 + 1 = (k : ℚ) * 2 + 2 by ring, hb]
    ring
  obtain ⟨h, -⟩ := dottedhline_double_step round64 [] 0 0 4 1 1 "gray" hstep hx hexact
  rw [hN] at h
  refine ⟨hstep, hx, ?_⟩
  rw [h 2 (le_refl 2)]
  simp only [List.range, List.range.loop, List.map, List.nil_append]
  norm_num

/-- C26 fails for x1 = 0, x2 = 4 and step 1: the centres x1 + k·step below x2
are 0, 1, 2 and 3, but dottedhline draws two circles only, at x = 0 and
x = 2, whose centres are 2 apart. -/
theorem dottedhline_step_counterexample :
    (0 : ℚ) < 1 ∧ (0 : ℚ) < 4 ∧ (0 : ℚ) + 1 * 1 < 4
      ∧ dottedhline round64 2 [] 0 0 4 1 1 "gray"
        = some [Prim.circle 0 0 1 "gray" [], Prim.circle 2 0 1 "gray" []]
      ∧ ([Prim.circle 0 0 1 "gray" [], Prim.circle 2 0 1 "gray" []] : Deck)[1]?
        ≠ some (Prim.circle (0 + 1 * 1) 0 1 "gray" []) := by
  have r1 : round64 1 = 1 := by simpa using round64_natCast 1 (by norm_num)
  have r2 : round64 2 = 2 := by simpa using round64_natCast 2 (by norm_num)
  have r3 : round64 3 = 3 := by simpa using round64_natCast 3 (by norm_num)
  have r4 : round64 4 = 4 := by simpa using round64_natCast 4 (by norm_num)
  refine ⟨by norm_num, by norm_num, by norm_num, ?_, ?_⟩
  · simp only [dottedhline, floatLoop, Deck.Circle]
    norm_num [r1, r2, r3, r4]
  · simp

/-! ## Reading tab-separated values -/

/-- One pass of the loop of `ReadTSV` leaves the records and the bounds as
they are, or appends one record and moves the bounds to its value where the
comparisons say so. -/
theorem readTSVLine_cases (lib : Lib) (st : TsvState) (t : String) :
    ((readTSVLine lib st t).data = st.data ∧ (readTSVLine lib st t).maxval = st.maxval
        ∧ (readTSVLine lib st t).minval = st.minval)
      ∨ ∃ r : TsvRecord, (readTSVLine lib st t).data = st.data ++ [r]
          ∧ (readTSVLine lib st t).maxval
            = (if FloatVal.lt st.maxval r.Value then r.Value else st.maxval)
          ∧ (readTSVLine lib st t).minval
            = (if FloatVal.lt r.Value st.minval then r.Value else st.minval) := by
  unfold readTSVLine
  by_cases h1 : strLen t = 0
  · left
    simp [h1]
  · by_cases h2 : t.front = '#' ∧ strLen t > 2
    · left
      simp [h1, h2]
    · rw [if_neg h1, if_neg h2]
      rcases hs : lib.Split t "\t" with _ | ⟨f0, _ | ⟨f1, rest⟩⟩
      · left
        simp
      · left
        simp
      · right
        exact ⟨_, rfl, rfl, rfl⟩

/-- The bounds stay bounds over one pass of the loop of `ReadTSV`, as long as
the records read are numbers. -/
theorem readTSVLine_bounds (lib : Lib) (st : TsvState) (t : String)
    (h : TsvFinite st.data → TsvBounds st) :
    TsvFinite (readTSVLine lib st t).data → TsvBounds (readTSVLine lib st t) := by
  intro hfin
  rcases readTSVLine_cases lib st t with ⟨hd, hM, hm⟩ | ⟨r, hd, hM, hm⟩
  · rw [hd] at hfin
    obtain ⟨m, M, e1, e2, hb, hMa, hma⟩ := h hfin
    exact ⟨m, M, by rw [hm, e1], by rw [hM, e2], by rw [hd]; exact hb, by rw [hd]; exact hMa,
      by rw [hd]; exact hma⟩
  · rw [hd] at hfin
    have hfin0 : TsvFinite st.data := fun r0 hr0 => hfin r0 (List.mem_append_left _ hr0)
    obtain ⟨m, M, e1, e2, hb, hMa, hma⟩ := h hfin0
    obtain ⟨q, hq, hq1, hq2⟩ := hfin r (List.mem_append_right _ (List.mem_singleton_self r))
    have hmem : ∀ r0 ∈ st.data, r0 ∈ st.data ++ [r] := fun r0 hr0 => List.mem_append_left _ hr0
    have hr : r ∈ st.data ++ [r] := List.mem_append_right _ (List.mem_singleton_self r)
    refine ⟨if q < m then q else m, if M < q then q else M, ?_, ?_, ?_, ?_, ?_⟩
    · rw [hm, e1, hq]
      by_cases hc : q < m <;> simp [FloatVal.lt, hc]
    · rw [hM, e2, hq]
      by_cases hc : M < q <;> simp [FloatVal.lt, hc]
    · intro r0 hr0 q0 hq0
      rw [hd, List.mem_append, List.mem_singleton] at hr0
      rcases hr0 with hr0 | rfl
      · have := hb r0 hr0 q0 hq0
        constructor
        · by_cases hc : q < m
          · rw [if_pos hc]
            linarith
          · rw [if_neg hc]
            exact this.1
        · by_cases hc : M < q
          · rw [if_pos hc]
            linarith
          · rw [if_neg hc]
            exact this.2
      · rw [hq] at hq0
        cases hq0
        constructor
        · by_cases hc : q < m
          · rw [if_pos hc]
          · rw [if_neg hc]
            exact not_lt.mp hc
        · by_cases hc : M < q
          · rw [if_pos hc]
          · rw [if_neg hc]
            exact not_lt.mp hc
    · rw [hd]
      by_cases hc : M < q
      · rw [if_pos hc]
        exact Or.inr ⟨r, hr, hq⟩
      · rw [if_neg hc]
        rcases hMa with h0 | ⟨r0, hr0, hv⟩
        · exact Or.inl h0
        · exact Or.inr ⟨r0, hmem r0 hr0, hv⟩
    · rw [hd]
      by_cases hc : q < m
      · rw [if_pos hc]
        exact Or.inr ⟨r, hr, hq⟩
      · rw [if_neg hc]
        rcases hma with h0 | ⟨r0, hr0, hv⟩
        · exact Or.inl h0
        · exact Or.inr ⟨r0, hmem r0 hr0, hv⟩

/-- The bounds stay bounds over the loop of `ReadTSV`. -/
theorem readTSV_loop_bounds (lib : Lib) (lines : List String) :
    ∀ st : TsvState, (TsvFinite st.data → TsvBounds st) →
      TsvFinite (lines.foldl (readTSVLine lib) st).data →
      TsvBounds (lines.foldl (readTSVLine lib) st) := by
  induction lines with
  | nil =>
    intro st h
    exact h
  | cons t ts ih =>
    intro st h
    exact ih (readTSVLine lib st t) (readTSVLine_bounds lib st t h)

/-- C24 as the code has it: for every tab-separated input from which ReadTSV
produces at least one record and all of whose value fields fail to parse (and
count as 0) or parse to finite numbers, the returned chart's Minvalue equals
the minimum and its Maxvalue the maximum of the returned records' values, so
Minvalue ≤ value_i ≤ Maxvalue for every record i. -/
theorem ReadTSV_bounds (lib : Lib) (lines : List String) (scanErr : Option String)
    (hne : (ReadTSV lib lines scanErr).1.Data ≠ [])
    (hfin : TsvFinite (ReadTSV lib lines scanErr).1.Data) :
    (∃ m M : ℚ, (ReadTSV lib lines scanErr).1.Minvalue = FloatVal.num m
        ∧ (ReadTSV lib lines scanErr).1.Maxvalue = FloatVal.num M
        ∧ (∃ r ∈ (ReadTSV lib lines scanErr).1.Data, r.Value = FloatVal.num m)
        ∧ (∃ r ∈ (ReadTSV lib lines scanErr).1.Data, r.Value = FloatVal.num M)
        ∧ (∀ r ∈ (ReadTSV lib lines scanErr).1.Data, ∀ q : ℚ, r.Value = FloatVal.num q →
            m ≤ q ∧ q ≤ M)
        ∧ ∀ r ∈ (ReadTSV lib lines scanErr).1.Data,
            FloatVal.le (ReadTSV lib lines scanErr).1.Minvalue r.Value = true
              ∧ FloatVal.le r.Value (ReadTSV lib lines scanErr).1.Maxvalue = true)
      ∧ ∀ (st : TsvState) (t f0 f1 e : String) (rest : List String), strLen t ≠ 0 →
          ¬ (t.front = '#' ∧ strLen t > 2) → lib.Split t "\t" = f0 :: f1 :: rest →
          lib.ParseFloat64 f1 = Except.error e →
          ∃ note : String,
            (readTSVLine lib st t).data = st.data ++ [⟨f0, note, FloatVal.num 0⟩] := by
  refine ⟨?_, ?_⟩
  · have hinit : TsvFinite (TsvState.mk [] (FloatVal.num smallest) (FloatVal.num largest) "").data →
        TsvBounds (TsvState.mk [] (FloatVal.num smallest) (FloatVal.num largest) "") :=
      fun _ => ⟨largest, smallest, rfl, rfl, by simp, Or.inl rfl, Or.inl rfl⟩
    obtain ⟨m, M, e1, e2, hb, hMa, hma⟩ := readTSV_loop_bounds lib lines _ hinit hfin
    obtain ⟨r0, hr0⟩ := List.exists_mem_of_ne_nil _ hne
    obtain ⟨q0, hq0, h01, h02⟩ := hfin r0 hr0
    have hb0 := hb r0 hr0 q0 hq0
    refine ⟨m, M, e1, e2, ?_, ?_, hb, ?_⟩
    · rcases hma with h0 | h0
      · have : q0 = m := le_antisymm (by rw [h0]; exact h02) hb0.1
        exact ⟨r0, hr0, by rw [← this]; exact hq0⟩
      · exact h0
    · rcases hMa with h0 | h0
      · have : q0 = M := le_antisymm hb0.2 (by rw [h0]; exact h01)
        exact ⟨r0, hr0, by rw [← this]; exact hq0⟩
      · exact h0
    · intro r hr
      obtain ⟨q, hq, -, -⟩ := hfin r hr
      have hbq := hb r hr q hq
      have e1b : (ReadTSV lib lines scanErr).1.Minvalue = FloatVal.num m := e1
      have e2b : (ReadTSV lib lines scanErr).1.Maxvalue = FloatVal.num M := e2
      rw [e1b, e2b, hq]
      simp [FloatVal.le, hbq.1, hbq.2]
  · intro st t f0 f1 e rest h1 h2 hs hp
    simp only [readTSVLine, if_neg h1, if_neg h2, hs, hp]
    exact ⟨_, rfl⟩

/-- Instance of the amended C24: three lines, the second with a value that
does not parse; the records have the values 10, 0 and −5, and the bounds are
−5 and 10. -/
theorem ReadTSV_bounds_witness :
    (ReadTSV exampleLib ["A\t10", "B\tx", "C\t-5\tred"] none).1.Data
        = [⟨"A", "", FloatVal.num 10⟩, ⟨"B", "", FloatVal.num 0⟩,
            ⟨"C", "red", FloatVal.num (-5)⟩]
      ∧ ∃ m M : ℚ,
          (ReadTSV exampleLib ["A\t10", "B\tx", "C\t-5\tred"] none).1.Minvalue = FloatVal.num m
            ∧ (ReadTSV exampleLib ["A\t10", "B\tx", "C\t-5\tred"] none).1.Maxvalue
              = FloatVal.num M
            ∧ m ≤ 0 ∧ 0 ≤ M := by
  have hA : strLen "A\t10" = 4 := by decide
  have hB : strLen "B\tx" = 3 := by decide
  have hC : strLen "C\t-5\tred" = 8 := by decide
  have hfA : "A\t10".front = 'A' := by decide
  have hfB : "B\tx".front = 'B' := by decide
  have hfC : "C\t-5\tred".front = 'C' := by decide
  have hdata : (ReadTSV exampleLib ["A\t10", "B\tx", "C\t-5\tred"] none).1.Data
      = [⟨"A", "", FloatVal.num 10⟩, ⟨"B", "", FloatVal.num 0⟩,
          ⟨"C", "red", FloatVal.num (-5)⟩] := by
    simp [ReadTSV, readTSVLine, exampleLib, hA, hB, hC, hfA, hfB, hfC]
  have hne : (ReadTSV exampleLib ["A\t10", "B\tx", "C\t-5\tred"] none).1.Data ≠ [] := by
    rw [hdata]
    simp
  have hfin : TsvFinite (ReadTSV exampleLib ["A\t10", "B\tx", "C\t-5\tred"] none).1.Data := by
    rw [hdata]
    intro r hr
    simp only [List.mem_cons, List.mem_singleton, List.not_mem_nil, or_false] at hr
    rcases hr with rfl | rfl | rfl
    · exact ⟨10, rfl, by norm_num [smallest, largest], by norm_num [largest]⟩
    · exact ⟨0, rfl, by norm_num [smallest, largest], by norm_num [largest]⟩
    · exact ⟨-5, rfl, by norm_num [smallest, largest], by norm_num [largest]⟩
  obtain ⟨⟨m, M, e1, e2, -, -, hb, -⟩, -⟩ :=
    ReadTSV_bounds exampleLib ["A\t10", "B\tx", "C\t-5\tred"] none hne hfin
  have h0 := hb ⟨"B", "", FloatVal.num 0⟩ (by rw [hdata]; simp) 0 rfl
  exact ⟨hdata, m, M, e1, e2, h0.1, h0.2⟩

/-- C24 fails for the input line "a", tab, "NaN": the value parses without
error to NaN, which is neither greater than the running maximum nor less
than the running minimum, so ReadTSV returns the one record with
Minvalue = MaxFloat64 and Maxvalue = −MaxFloat64, and Minvalue ≤ value does
not hold. -/
theorem ReadTSV_nan_counterexample :
    (ReadTSV exampleLib ["a\tNaN"] none).1.Data = [⟨"a", "", FloatVal.nan⟩]
      ∧ (ReadTSV exampleLib ["a\tNaN"] none).1.Minvalue = FloatVal.num largest
      ∧ (ReadTSV exampleLib ["a\tNaN"] none).1.Maxvalue = FloatVal.num smallest
      ∧ FloatVal.le (ReadTSV exampleLib ["a\tNaN"] none).1.Minvalue FloatVal.nan = false
      ∧ FloatVal.le (ReadTSV exampleLib ["a\tNaN"] none).1.Minvalue
          (ReadTSV exampleLib ["a\tNaN"] none).1.Maxvalue = false := by
  have ha : strLen "a\tNaN" = 5 := by decide
  have hf : "a\tNaN".front = 'a' := by decide
  have h1 : (ReadTSV exampleLib ["a\tNaN"] none).1.Data = [⟨"a", "", FloatVal.nan⟩] := by
    simp [ReadTSV, readTSVLine, exampleLib, ha, hf]
  have h2 : (ReadTSV exampleLib ["a\tNaN"] none).1.Minvalue = FloatVal.num largest := by
    simp [ReadTSV, readTSVLine, exampleLib, ha, hf, FloatVal.lt]
  have h3 : (ReadTSV exampleLib ["a\tNaN"] none).1.Maxvalue = FloatVal.num smallest := by
    simp [ReadTSV, readTSVLine, exampleLib, ha, hf, FloatVal.lt]
  refine ⟨h1, h2, h3, ?_, ?_⟩
  · rw [h2]
    rfl
  · rw [h2, h3]
    simp only [FloatVal.le, decide_eq_false_iff_not, not_le]
    norm_num [smallest, largest]

end Dchart2